/-
Verification of the file-system-backed task repository of the Fira project
tracker.  The definitions below are a shallow embedding of the Python code in
src/fira/web/mini-server.py (the canonical, WIP/CFD-augmented server variant):
Python strings become Lean `String`s manipulated through explicit char-list
functions mirroring the Python string methods used by the code, the project
directory tree becomes an explicit `Project` structure (two directory levels,
which is all the code ever creates or scans), timestamps are opaque strings
supplied as a `now` parameter, and fallible operations return `Bool` results
paired with the new state, as the Python functions do.  Derived floating-point
statistics of a parsed task (cycle_time_days, age_days, blocked_time_hours)
are real-time float computations that feed no claim and are not modelled.
-/
import Mathlib

/-! ### Python string primitives

Char-list implementations of the exact Python string operations used by
mini-server.py: `str.strip`, `str.split(sep, maxsplit)`, `str.split(sep)`,
`in` (substring / char containment), `str.lower`, `str.title`,
`str.replace`, `str.startswith`, and string comparison (used by
`list.sort(key=...)`). -/

/-- Python whitespace characters recognised by `str.strip()`. -/
def pySpace (c : Char) : Bool :=
  c == ' ' || c == '\t' || c == '\n' || c == '\r' || c == '\x0b' || c == '\x0c'

/-- Quote characters stripped by `str.strip('\x27"')`. -/
def pyQuote (c : Char) : Bool := c == '\'' || c == '"'

/-- Drop chars satisfying `p` from the left end. -/
def pyDropL (p : Char → Bool) (l : List Char) : List Char := l.dropWhile p

/-- Drop chars satisfying `p` from the right end. -/
def pyDropR (p : Char → Bool) (l : List Char) : List Char :=
  (l.reverse.dropWhile p).reverse

/-- Strip chars satisfying `p` from both ends (Python `str.strip(chars)`). -/
def pyStripBy (p : Char → Bool) (l : List Char) : List Char :=
  pyDropR p (pyDropL p l)

/-- Python `str.strip()` on a char list. -/
def pyStripL (l : List Char) : List Char := pyStripBy pySpace l

/-- Python `str.strip('\x27"')` on a char list. -/
def pyStripQ (l : List Char) : List Char := pyStripBy pyQuote l

/-- Boolean list-prefix test. -/
def pfx : List Char → List Char → Bool
  | [], _ => true
  | _ :: _, [] => false
  | a :: as, b :: bs => a == b && pfx as bs

/-- Python substring test `needle in hay` on char lists. -/
def hasSub (needle : List Char) : List Char → Bool
  | [] => needle.isEmpty
  | c :: l => pfx needle (c :: l) || hasSub needle l

/-- First occurrence split: `some (before, after)` at the leftmost occurrence
of `sep`, `none` when `sep` does not occur. -/
def splitFirstL (sep : List Char) : List Char → Option (List Char × List Char)
  | [] => if pfx sep [] then some ([], []) else none
  | c :: l =>
    if pfx sep (c :: l) then some ([], (c :: l).drop sep.length)
    else
      match splitFirstL sep l with
      | some (a, b) => some (c :: a, b)
      | none => none

/-- Python `s.split(sep, 2)`: at most three parts. -/
def pySplit2 (sep l : List Char) : List (List Char) :=
  match splitFirstL sep l with
  | none => [l]
  | some (a, r) =>
    match splitFirstL sep r with
    | none => [a, r]
    | some (b, r2) => [a, b, r2]

/-- Python `s.split(c)` for a single-char separator (no maxsplit). -/
def splitCharL (sep : Char) : List Char → List (List Char)
  | [] => [[]]
  | c :: l =>
    if c == sep then [] :: splitCharL sep l
    else
      match splitCharL sep l with
      | a :: rest => (c :: a) :: rest
      | [] => [[c]]

/-- Char containment `c in s`. -/
def containsC (c : Char) (l : List Char) : Bool := l.any (· == c)

/-- Python `s.split(c, 1)` assuming `c` occurs (the callers guard on that). -/
def splitFirstCharL (sep : Char) : List Char → List Char × List Char
  | [] => ([], [])
  | c :: l =>
    if c == sep then ([], l)
    else
      let p := splitFirstCharL sep l
      (c :: p.1, p.2)

/-- Python `str.title()` for ASCII text: a letter following a non-letter is
uppercased, a letter following a letter is lowercased. -/
def pyTitleGo : Bool → List Char → List Char
  | _, [] => []
  | prev, c :: l =>
    if c.isAlpha then (if prev then c.toLower else c.toUpper) :: pyTitleGo true l
    else c :: pyTitleGo false l

/-- Python `str.title()` entry point. -/
def pyTitle (l : List Char) : List Char := pyTitleGo false l

/-- Lexicographic char-list comparison, as Python string `<=` (by code point). -/
def listLe : List Char → List Char → Bool
  | [], _ => true
  | _ :: _, [] => false
  | a :: as, b :: bs => if a == b then listLe as bs else decide (a < b)

/-- Python substring test on `String`s. -/
def strContains (needle hay : String) : Bool := hasSub needle.data hay.data

/-- Python `<=` on `String`s (used by `list.sort(key=lambda x: x['date'])`). -/
def strLe (a b : String) : Bool := listLe a.data b.data

/-- Python `s.startswith(p)`. -/
def pyStartsWith (p s : String) : Bool := pfx p.data s.data

/-- Python slicing `s[:n]`. -/
def pyStrTake (n : Nat) (s : String) : String := ⟨s.data.take n⟩

/-- Python `s.lower()` on `String`s. -/
def pyLower (s : String) : String := ⟨s.data.map Char.toLower⟩

/-- Truthiness of an optional string (`not x` for a value that is either
absent, `None`, or a string). -/
def optFalsy : Option String → Bool
  | none => true
  | some s => s == ""

/-- Python `a or b` for optional strings: `b` when `a` is `None` or empty. -/
def pyOrOpt (a b : Option String) : Option String := if optFalsy a then b else a

/-! ### Task record codec: parse_task_file (mini-server.py:588-677) -/

/-- Metadata dictionary: insertion-ordered association list with Python `dict`
assignment semantics (overwriting keeps the original position). -/
def dictSet (m : List (String × String)) (k v : String) : List (String × String) :=
  if m.any (fun kv => kv.1 == k) then
    m.map (fun kv => if kv.1 == k then (k, v) else kv)
  else m ++ [(k, v)]

/-- Python `dict.get(k, d)`. -/
def pyDictGet (m : List (String × String)) (k d : String) : String :=
  match m.find? (fun kv => kv.1 == k) with
  | some kv => kv.2
  | none => d

/-- Python `dict.get(k)` (defaulting to `None`). -/
def pyDictGetOpt (m : List (String × String)) (k : String) : Option String :=
  (m.find? (fun kv => kv.1 == k)).map (·.2)

/-- One line of the simple YAML parser (mini-server.py:608-615): strip the
line, and when it contains a colon, split on the first colon, strip the key,
strip the value and remove surrounding quotes. -/
def lineInsert (m : List (String × String)) (rawLine : List Char) :
    List (String × String) :=
  let line := pyStripL rawLine
  if containsC ':' line then
    let p := splitFirstCharL ':' line
    dictSet m ⟨pyStripL p.1⟩ ⟨pyStripQ (pyStripL p.2)⟩
  else m

/-- The frontmatter delimiter `---`. -/
def dash3 : List Char := ['-', '-', '-']

/-- Frontmatter/body split of parse_task_file (mini-server.py:594-604):
content starting with `---` is split on `---` at most twice; with three parts
the middle is the (stripped) YAML block and the rest the (stripped) body, and
otherwise the whole content is the body with no metadata. -/
def taskFileSplit (content : String) : String × String :=
  if pfx dash3 content.data = true then
    match pySplit2 dash3 content.data with
    | [_, y, m] => (⟨pyStripL y⟩, ⟨pyStripL m⟩)
    | _ => ("", content)
  else ("", content)

/-- The metadata dictionary built by parse_task_file (mini-server.py:607-615). -/
def task_file_meta (content : String) : List (String × String) :=
  let yaml := (taskFileSplit content).1
  if yaml == "" then [] else (splitCharL '\n' yaml.data).foldl lineInsert []

/-- The markdown body extracted by parse_task_file. -/
def task_file_body (content : String) : String := (taskFileSplit content).2

/-- Structured task record built by parse_task_file (mini-server.py:644-670).
The derived float statistics (cycle_time_days, age_days, blocked_time_hours,
blocked_time_days) are real-time floating point computations used by no claim
and are not modelled. -/
structure TaskRec where
  id : String
  title : String
  content : String
  fullContent : String
  timeEstimate : String
  timeSpent : String
  priority : String
  developer : Option String
  assignee : Option String
  status : String
  created : String
  created_at : String
  started_at : String
  done_at : String
  blocked : Bool
  blocked_at : String
  blocked_reason : String
  unblocked_at : String
  is_currently_blocked : Bool
  deriving DecidableEq

/-- Default title used when the frontmatter has none:
`task_id.replace('-', ' ').title()`. -/
def defaultTitle (stem : String) : String :=
  ⟨pyTitle (stem.data.map (fun c => if c == '-' then ' ' else c))⟩

/-- parse_task_file (mini-server.py:588-677).  The file is identified by its
filename stem; `content?` is `none` when reading or decoding the file raised
(the code catches any exception and returns `None`). -/
def parse_task_file (stem : String) (content? : Option String) : Option TaskRec :=
  match content? with
  | none => none
  | some content =>
    let metadata := task_file_meta content
    let markdown_content := task_file_body content
    let blockedStr := pyLower (pyDictGet metadata "blocked" "false")
    let blocked := blockedStr == "true" || blockedStr == "yes" || blockedStr == "1"
    let blocked_at := pyDictGet metadata "blocked_at" ""
    let blocked_reason := pyDictGet metadata "blocked_reason" ""
    let unblocked_at := pyDictGet metadata "unblocked_at" ""
    let is_currently_blocked := blocked && unblocked_at == ""
    some
      { id := stem
        title := pyDictGet metadata "title" (defaultTitle stem)
        content := markdown_content
        fullContent := content
        timeEstimate := pyDictGet metadata "estimate" "0h"
        timeSpent := pyDictGet metadata "spent_time" "0h"
        priority := pyDictGet metadata "priority" "medium"
        developer := pyDictGetOpt metadata "developer"
        assignee := pyDictGetOpt metadata "developer"
        status := pyDictGet metadata "status" "backlog"
        created := pyDictGet metadata "created" ""
        created_at := pyDictGet metadata "created_at" (pyDictGet metadata "created" "")
        started_at := pyDictGet metadata "started_at" ""
        done_at := pyDictGet metadata "done_at" ""
        blocked := blocked
        blocked_at := blocked_at
        blocked_reason := blocked_reason
        unblocked_at := unblocked_at
        is_currently_blocked := is_currently_blocked }

/-! ### Project directory tree model

The code only ever creates and scans two directory levels inside a project:
status folders, and developer subfolders inside them.  A project is its list
of status folders (in filesystem iteration order, which `iterdir` exposes to
the Python code), plus the files at the project root (README.md). -/

/-- A markdown file: name (with extension) and full text content. -/
structure MdFile where
  name : String
  content : String
  deriving DecidableEq

/-- A developer subfolder inside a status folder. -/
structure DevDir where
  name : String
  files : List MdFile
  deriving DecidableEq

/-- A status folder: direct files plus developer subfolders. -/
structure StatusDir where
  name : String
  files : List MdFile
  devs : List DevDir
  deriving DecidableEq

/-- A project directory. -/
structure Project where
  rootFiles : List MdFile
  dirs : List StatusDir
  deriving DecidableEq

/-- Find a file by name (real directories hold at most one). -/
def findFile (fs : List MdFile) (n : String) : Option MdFile :=
  fs.find? (fun f => f.name == n)

/-- File existence test. -/
def fileExistsIn (fs : List MdFile) (n : String) : Bool := (findFile fs n).isSome

/-- `path.write_text`: overwrite the file of that name, or create it. -/
def writeFileIn : List MdFile → String → String → List MdFile
  | [], n, c => [⟨n, c⟩]
  | f :: fs, n, c => if f.name == n then ⟨n, c⟩ :: fs else f :: writeFileIn fs n c

/-- `path.unlink`: remove the file of that name. -/
def removeFileIn : List MdFile → String → List MdFile
  | [], _ => []
  | f :: fs, n => if f.name == n then fs else f :: removeFileIn fs n

/-- Look up a status folder by name. -/
def getDir (p : Project) (n : String) : Option StatusDir :=
  p.dirs.find? (fun d => d.name == n)

/-- Look up a developer subfolder by name. -/
def getDev (d : StatusDir) (n : String) : Option DevDir :=
  d.devs.find? (fun dd => dd.name == n)

/-- Python `s.endswith(sfx)` (used to model the `*.md` glob pattern). -/
def strEndsWith (sfx s : String) : Bool := pfx sfx.data.reverse s.data.reverse

/-- A file counted by `rglob('*.md')` with the `README.md` exclusion. -/
def isCountedMd (f : MdFile) : Bool :=
  strEndsWith ".md" f.name && f.name != "README.md"

/-- Recursive `.md` count under one status folder, excluding README.md
(check_wip_limit, mini-server.py:235-239). -/
def countMdFiles (d : StatusDir) : Nat :=
  d.files.countP isCountedMd +
    (d.devs.map (fun dd => dd.files.countP isCountedMd)).sum

/-! ### WIP limit check (mini-server.py:213-252) -/

/-- Process-wide WIP configuration: per-status limits (absent key and stored
null both read back as `None` through `dict.get`), plus the warning threshold
(default 0.8) and block-on-limit flag (default false) from `wip_warnings`.
The float threshold is modelled as an exact rational. -/
structure WipConfig where
  wip_limits : List (String × Option Int)
  block_on_limit : Bool
  warning_threshold : ℚ

/-- Result tuple of check_wip_limit: (allowed, current_count, limit, warning). -/
structure WipResult where
  allowed : Bool
  count : Nat
  limit : Option Int
  warning : Bool
  deriving DecidableEq

/-- `wip_limits.get(status)`: `None` when the key is absent or maps to null. -/
def wipLimitFor (cfg : WipConfig) (status : String) : Option Int :=
  (cfg.wip_limits.find? (fun kv => kv.1 == status)).bind (fun kv => kv.2)

/-- check_wip_limit (mini-server.py:213-252).  `st` is the project directory
state (`none` when the directory does not exist). -/
def check_wip_limit (cfg : WipConfig) (st : Option Project) (status : String) :
    WipResult :=
  match wipLimitFor cfg status with
  | none => ⟨true, 0, none, false⟩
  | some limit =>
    match st with
    | none => ⟨true, 0, some limit, false⟩
    | some p =>
      match getDir p status with
      | none => ⟨true, 0, some limit, false⟩
      | some d =>
        let current_count := countMdFiles d
        let is_warning :=
          decide ((current_count : ℚ) ≥ (limit : ℚ) * cfg.warning_threshold)
        let is_blocked := cfg.block_on_limit && decide ((current_count : ℤ) ≥ limit)
        ⟨!is_blocked, current_count, some limit, is_warning⟩

/-- Configuration used in the spec's WIP scenario: limit 5 on `progress`,
warning threshold 0.8, block_on_limit true. -/
def wipScenarioCfg : WipConfig := ⟨[("progress", some 5)], true, 4/5⟩

/-- A task file with the given id, as minimal content. -/
def mdTask (tid : String) : MdFile := ⟨tid ++ ".md", "task " ++ tid⟩

/-- Project with `n` tasks directly in a `progress` folder. -/
def wipScenarioProj (n : Nat) : Project :=
  ⟨[⟨"README.md", "# P"⟩],
   [⟨"progress", (List.range n).map (fun i => mdTask ("t" ++ toString i)), []⟩]⟩

/-- Project whose tasks live under `inprogress` while the WIP limit is
configured for `progress`, for the aliasing edge case. -/
def wipAliasProj : Project :=
  ⟨[⟨"README.md", "# P"⟩],
   [⟨"inprogress", [mdTask "a", mdTask "b", mdTask "c"], []⟩]⟩

/-! ### CFD snapshot storage (mini-server.py:345-384) -/

/-- A CFD snapshot: task counts per status on one calendar day, as produced by
take_cfd_snapshot (date string `YYYY-MM-DD`, ISO timestamp, five counts). -/
structure Snapshot where
  date : String
  timestamp : String
  backlog : Nat
  progress : Nat
  review : Nat
  testing : Nat
  done : Nat
  deriving DecidableEq

/-- Replacement of the first history entry whose date matches the snapshot's
(`cfd_data[project_id][index] = snapshot` at the index of the first date
match, mini-server.py:358-365). -/
def replaceFirstByDate : List Snapshot → Snapshot → List Snapshot
  | [], _ => []
  | s :: ss, snap =>
    if s.date == snap.date then snap :: ss else s :: replaceFirstByDate ss snap

/-- Stable insertion of a snapshot after all entries with date ≤ its own. -/
def insSnap (x : Snapshot) : List Snapshot → List Snapshot
  | [] => [x]
  | y :: ys => if strLe y.date x.date then y :: insSnap x ys else x :: y :: ys

/-- Python's stable `list.sort(key=lambda x: x['date'])`, realised as a stable
insertion sort (any stable sort computes the same list). -/
def sortByDate (l : List Snapshot) : List Snapshot :=
  l.foldl (fun acc x => insSnap x acc) []

/-- Date order on snapshots (Python string comparison of the sort key). -/
def dateLe (a b : Snapshot) : Prop := strLe a.date b.date = true

/-- store_cfd_snapshot restricted to one project's history list
(mini-server.py:345-384): replace the entry of the same date or append, sort
ascending by date, and keep only the most recent 90 entries (`[-90:]`). -/
def store_cfd_snapshot (hist : List Snapshot) (snap : Snapshot) : List Snapshot :=
  let hist1 :=
    if hist.any (fun s => s.date == snap.date) then replaceFirstByDate hist snap
    else hist ++ [snap]
  let hist2 := sortByDate hist1
  if hist2.length > 90 then hist2.drop (hist2.length - 90) else hist2

/-- Ninety snapshots on date strings 2026-01-10 … 2026-01-99, every one of
them later than 2026-01-05. -/
def backdatedHist : List Snapshot :=
  (List.range 90).map (fun i => ⟨"2026-01-" ++ toString (10 + i), "", 0, 0, 0, 0, 0⟩)

/-- A snapshot dated before every entry of `backdatedHist`. -/
def backdatedSnap : Snapshot := ⟨"2026-01-05", "", 1, 2, 3, 4, 5⟩

/-! ### Project creation (mini-server.py:386-426) -/

/-- Input of create_project: the `id` and `description` entries of the
request payload (`None`-able lookups through `dict.get`). -/
structure ProjectData where
  id : Option String
  description : Option String

/-- The default developer subfolder created inside every column. -/
def default_dev : String := "default-dev"

/-- The directory skeleton create_project builds: README plus the five
columns, each holding one empty `default-dev` subfolder. -/
def projectSkeleton (description : String) : Project :=
  ⟨[⟨"README.md", "# " ++ description ++ "\n"⟩],
   (["backlog", "inprogress", "review", "done", "testing"]).map
     (fun c => ⟨c, [], [⟨default_dev, []⟩]⟩)⟩

/-- create_project (mini-server.py:386-426).  `st` is the present state of
the project directory (`none` when it does not exist); the result pairs the
success flag with the new state.  On success the project gets `README.md`
with `# <description>` (description defaulting to `Project <id>`) and the
five columns `backlog, inprogress, review, done, testing`, each containing a
`default-dev` subfolder. -/
def create_project (pd : ProjectData) (st : Option Project) : Bool × Option Project :=
  match pd.id with
  | none => (false, st)
  | some project_id =>
    if project_id = "" then (false, st)
    else
      match st with
      | some p => (false, some p)
      | none =>
        let description := pd.description.getD ("Project " ++ project_id)
        (true, some (projectSkeleton description))


/-! ### Task operations on the project tree
(update_task_file mini-server.py:2470-2681, create_task_file 2683-2762,
task deletion handler 738-787) -/

/-- Request payload for task create/update: the dictionary fields the code
reads, each absent-able through `dict.get`.  The create `folder` argument is
modelled as a relative path of at most two segments (status folder, optional
developer subfolder) — two levels is all the system itself ever creates. -/
structure TaskData where
  id : String
  status : Option String
  column : Option String
  developer : Option String
  assignee : Option String
  title : Option String
  timeEstimate : Option String
  timeSpent : Option String
  priority : Option String
  created : Option String
  created_at : Option String
  started_at : Option String
  done_at : Option String
  blocked : Option Bool
  blocked_at : Option String
  blocked_reason : Option String
  unblocked_at : Option String
  content : Option String
  fullContent : Option String
  folder : Option (String × Option String)
  deriving DecidableEq

/-- A payload carrying only a task id, every other key absent. -/
def emptyTaskData (tid : String) : TaskData :=
  ⟨tid, none, none, none, none, none, none, none, none, none, none, none, none,
   none, none, none, none, none, none, none⟩

/-- The six folder names update_task_file searches, in order
(mini-server.py:2488). -/
def searchFolders : List String :=
  ["backlog", "progress", "inprogress", "review", "testing", "done"]

/-- Identity check applied to a located or colliding file
(mini-server.py:2495-2497, 2575-2577, 2657-2660): the file's content or its
name must contain the task id. -/
def idCheck (task_id : String) (f : MdFile) : Bool :=
  strContains task_id f.content || strContains task_id f.name

/-- Scan of the developer subfolders of one status folder: first non-dot
directory holding a verified `task_id.md` (mini-server.py:2507-2525). -/
def locateInDevs (task_id : String) (devs : List DevDir) : Option String :=
  (devs.find? (fun dd =>
    !(pyStartsWith "." dd.name) &&
      (match findFile dd.files (task_id ++ ".md") with
       | some f => idCheck task_id f
       | none => false))).map (fun dd => dd.name)

/-- Search of one status folder: the direct file first (falling through to
the developer subfolders when the identity check fails), then the developer
subfolders.  `some none` means the direct file, `some (some dv)` a developer
subfolder. -/
def locateInDir (task_id : String) (d : StatusDir) : Option (Option String) :=
  match findFile d.files (task_id ++ ".md") with
  | some f =>
    if idCheck task_id f then some none
    else (locateInDevs task_id d.devs).map some
  | none => (locateInDevs task_id d.devs).map some

/-- Folder-by-folder location search. -/
def locateTaskIn (p : Project) (task_id : String) :
    List String → Option (String × Option String)
  | [] => none
  | f :: fs =>
    match getDir p f with
    | none => locateTaskIn p task_id fs
    | some d =>
      match locateInDir task_id d with
      | some dev? => some (f, dev?)
      | none => locateTaskIn p task_id fs

/-- The location search of update_task_file (mini-server.py:2481-2532):
folders in fixed order, the direct file before developer subfolders. -/
def locateTask (p : Project) (task_id : String) : Option (String × Option String) :=
  locateTaskIn p task_id searchFolders

/-- Whether a status folder contains `task_id.md`, directly or in a non-dot
developer subfolder.  Reference definition written from the spec's wording of
the resolver tie-break (claim C7). -/
def folderHasTaskSpec (p : Project) (task_id : String) (f : String) : Bool :=
  match getDir p f with
  | none => false
  | some d =>
    fileExistsIn d.files (task_id ++ ".md") ||
      d.devs.any (fun dd =>
        !(pyStartsWith "." dd.name) && fileExistsIn dd.files (task_id ++ ".md"))

/-- The resolver tie-break policy as the spec words it: the first folder in
fixed order containing a match; within it the direct file takes precedence,
otherwise the first matching developer subfolder.  Reference definition for
claim C7. -/
def locateTaskSpec (p : Project) (task_id : String) : Option (String × Option String) :=
  match searchFolders.find? (folderHasTaskSpec p task_id) with
  | none => none
  | some f =>
    match getDir p f with
    | none => none
    | some d =>
      if fileExistsIn d.files (task_id ++ ".md") then some (f, none)
      else
        (d.devs.find? (fun dd =>
          !(pyStartsWith "." dd.name) && fileExistsIn dd.files (task_id ++ ".md"))).map
          (fun dd => (f, some dd.name))

/-- Modify the first status folder with the given name. -/
def updateFirstDir : List StatusDir → String → (StatusDir → StatusDir) → List StatusDir
  | [], _, _ => []
  | d :: ds, f, g => if d.name == f then g d :: ds else d :: updateFirstDir ds f g

/-- Modify the file list of the first developer subfolder with this name. -/
def updateFirstDev : List DevDir → String → (List MdFile → List MdFile) → List DevDir
  | [], _, _ => []
  | dd :: dds, dv, g =>
    if dd.name == dv then ⟨dd.name, g dd.files⟩ :: dds else dd :: updateFirstDev dds dv g

/-- `path.mkdir(parents=True, exist_ok=True)` for a status folder and an
optional developer subfolder inside it. -/
def ensureDir (p : Project) (f : String) (dev? : Option String) : Project :=
  match getDir p f with
  | none =>
    ⟨p.rootFiles,
     p.dirs ++ [⟨f, [], match dev? with | some dv => [⟨dv, []⟩] | none => []⟩]⟩
  | some _ =>
    match dev? with
    | none => p
    | some dv =>
      ⟨p.rootFiles,
       updateFirstDir p.dirs f (fun d =>
         match getDev d dv with
         | some _ => d
         | none => ⟨d.name, d.files, d.devs ++ [⟨dv, []⟩]⟩)⟩

/-- The files of the bucket addressed by a (folder, optional developer) path. -/
def filesAt (p : Project) (f : String) (dev? : Option String) : List MdFile :=
  match getDir p f with
  | none => []
  | some d =>
    match dev? with
    | none => d.files
    | some dv =>
      match getDev d dv with
      | none => []
      | some dd => dd.files

/-- The file of that name in the addressed bucket. -/
def fileAt (p : Project) (f : String) (dev? : Option String) (n : String) :
    Option MdFile :=
  findFile (filesAt p f dev?) n

/-- Apply a file-list transformation to the addressed bucket. -/
def modifyFilesAt (p : Project) (f : String) (dev? : Option String)
    (g : List MdFile → List MdFile) : Project :=
  ⟨p.rootFiles,
   updateFirstDir p.dirs f (fun d =>
     match dev? with
     | none => ⟨d.name, g d.files, d.devs⟩
     | some dv => ⟨d.name, d.files, updateFirstDev d.devs dv g⟩)⟩

/-- A frontmatter value in the written dictionaries: a string, or the Python
boolean used for `blocked`. -/
inductive FMVal where
  | str (s : String)
  | bool (b : Bool)
  deriving DecidableEq

/-- Value rendering of the update-path simple_yaml_dump
(mini-server.py:2584-2592): string values containing a newline, colon or hash
are single-quoted; Python booleans print as `True`/`False`. -/
def renderFMVal : FMVal → List Char
  | .str s =>
    if containsC '\n' s.data || containsC ':' s.data || containsC '#' s.data
    then '\'' :: (s.data ++ ['\''])
    else s.data
  | .bool b => if b then "True".data else "False".data

/-- Value rendering of the create-path simple_yaml_dump
(mini-server.py:2718-2723), which applies no quoting at all. -/
def renderFMValPlain : FMVal → List Char
  | .str s => s.data
  | .bool b => if b then "True".data else "False".data

/-- Python `'\n'.join`. -/
def joinNL : List (List Char) → List Char
  | [] => []
  | [l] => l
  | l :: ls => l ++ '\n' :: joinNL ls

/-- simple_yaml_dump of the update path: `key: value` lines for the non-None
entries, quoted as needed, joined with newlines. -/
def simple_yaml_dump_update (fm : List (String × Option FMVal)) : List Char :=
  joinNL (fm.filterMap (fun kv =>
    kv.2.map (fun v => kv.1.data ++ ':' :: ' ' :: renderFMVal v)))

/-- simple_yaml_dump of the create path (same shape, no quoting). -/
def simple_yaml_dump_create (fm : List (String × Option FMVal)) : List Char :=
  joinNL (fm.filterMap (fun kv =>
    kv.2.map (fun v => kv.1.data ++ ':' :: ' ' :: renderFMValPlain v)))

/-- `task_data.get('status', task_data.get('column', 'backlog'))`. -/
def newStatusOf (td : TaskData) : String :=
  match td.status with
  | some s => s
  | none => td.column.getD "backlog"

/-- Auto-set of started_at on update (mini-server.py:2604-2606): when the new
status is progress/inprogress and the supplied value is unset, the current
time. -/
def autoStartedAt (td : TaskData) (new_status now : String) : Option String :=
  if (new_status = "progress" ∨ new_status = "inprogress") ∧ optFalsy td.started_at
  then some now else td.started_at

/-- Auto-set of done_at on update (mini-server.py:2608-2610). -/
def autoDoneAt (td : TaskData) (new_status now : String) : Option String :=
  if new_status = "done" ∧ optFalsy td.done_at then some now else td.done_at

/-- The frontmatter dictionary written by update_task_file
(mini-server.py:2613-2641), in insertion order, before None-removal (the
`Option` in each value is the None-removal). -/
def updFrontmatter (td : TaskData) (new_status now : String) :
    List (String × Option FMVal) :=
  [("title", some (.str (td.title.getD ""))),
   ("estimate", some (.str (td.timeEstimate.getD "0h"))),
   ("spent_time", some (.str (td.timeSpent.getD "0h"))),
   ("priority", some (.str (td.priority.getD "medium"))),
   ("developer", td.developer.map .str),
   ("status", some (.str new_status)),
   ("created", some (.str (td.created.getD (pyStrTake 10 now)))),
   ("created_at", (pyOrOpt td.created_at td.created).map .str),
   ("started_at", (autoStartedAt td new_status now).map .str),
   ("done_at", (autoDoneAt td new_status now).map .str),
   ("blocked", some (.bool (td.blocked.getD false))),
   ("blocked_at", td.blocked_at.map .str),
   ("blocked_reason", td.blocked_reason.map .str),
   ("unblocked_at", td.unblocked_at.map .str)]

/-- The full file text written by update_task_file
(`f"---\n{yaml_content}\n---\n\n{markdown_content}"`, mini-server.py:2646). -/
def renderUpdateFile (td : TaskData) (new_status now : String) : String :=
  ⟨"---\n".data ++ simple_yaml_dump_update (updFrontmatter td new_status now) ++
    "\n---\n\n".data ++ (td.content.getD (td.fullContent.getD "")).data⟩

/-- The status names that accept developer nesting on update
(mini-server.py:2563). -/
def devNestStatuses : List String :=
  ["backlog", "progress", "inprogress", "review", "testing", "done"]

/-- Developer resolution of update_task_file (mini-server.py:2540-2549):
the supplied developer, else the current one, else an assignee that looks
like a developer handle. -/
def resolveDeveloper (td : TaskData) (current_dev : Option String) : Option String :=
  let nd1 := td.developer
  if optFalsy nd1 && !(optFalsy current_dev) then current_dev
  else if optFalsy nd1 then
    match td.assignee with
    | some a =>
      if a ≠ "" ∧ (pyStartsWith "dev-" a = true ∨ pyStartsWith "tech-" a = true)
      then some a else nd1
    | none => nd1
  else nd1

/-- The developer segment of the destination path (mini-server.py:2561-2564). -/
def destDevOf (td : TaskData) (current_dev : Option String) : Option String :=
  let new_developer := resolveDeveloper td current_dev
  if !(optFalsy new_developer) && decide (newStatusOf td ∈ devNestStatuses)
  then new_developer else none

/-- update_task_file (mini-server.py:2470-2681).  `st` is the project
directory state; the result pairs the returned flag with the new state.  Note
that the destination directory is created before the collision check, so a
failed update can still have created directories, exactly as in the code. -/
def update_task_file (now : String) (st : Option Project) (td : TaskData) :
    Bool × Option Project :=
  match st with
  | none => (false, none)
  | some p =>
    let task_id := td.id
    match locateTask p task_id with
    | none => (false, some p)
    | some loc =>
      let current_folder := loc.1
      let current_dev := loc.2
      let new_status := newStatusOf td
      let dest_dev := destDevOf td current_dev
      let p1 := ensureDir p new_status dest_dev
      let fname := task_id ++ ".md"
      let collision :=
        match fileAt p1 new_status dest_dev fname with
        | some f =>
          decide ((new_status, dest_dev) ≠ (current_folder, current_dev)) &&
            !(idCheck task_id f)
        | none => false
      if collision then (false, some p1)
      else
        let file_content := renderUpdateFile td new_status now
        if (new_status, dest_dev) ≠ (current_folder, current_dev) then
          match fileAt p1 current_folder current_dev fname with
          | some cf =>
            if !(idCheck task_id cf) then (false, some p1)
            else
              let p2 := modifyFilesAt p1 current_folder current_dev
                (fun fs => removeFileIn fs fname)
              (true, some (modifyFilesAt p2 new_status dest_dev
                (fun fs => writeFileIn fs fname file_content)))
          | none =>
            (true, some (modifyFilesAt p1 new_status dest_dev
              (fun fs => writeFileIn fs fname file_content)))
        else
          (true, some (modifyFilesAt p1 new_status dest_dev
            (fun fs => writeFileIn fs fname file_content)))

/-- create_task_file (mini-server.py:2683-2762): auto-create the project when
its directory is missing, create the target folder, refuse to overwrite an
existing task file, and write the file with the create-path frontmatter
(estimate defaulting to `2h`; started_at stamped when the status is
progress/inprogress). -/
def create_task_file (now project_id : String) (st : Option Project)
    (td : TaskData) : Bool × Option Project :=
  let auto :=
    match st with
    | some p => some p
    | none =>
      (create_project ⟨some project_id,
        some ("Auto-created project " ++ project_id)⟩ none).2
  match auto with
  | none => (false, none)
  | some p =>
    let task_id := td.id
    let target := td.folder.getD ("backlog", none)
    let p1 := ensureDir p target.1 target.2
    let fname := task_id ++ ".md"
    match fileAt p1 target.1 target.2 fname with
    | some _ => (false, some p1)
    | none =>
      let folderStr :=
        target.1 ++ (match target.2 with | some dv => "/" ++ dv | none => "")
      let status := td.status.getD folderStr
      let started_at :=
        if status = "progress" ∨ status = "inprogress" then some now else none
      let fm : List (String × Option FMVal) :=
        [("title", some (.str (td.title.getD ""))),
         ("estimate", some (.str (td.timeEstimate.getD "2h"))),
         ("spent_time", some (.str (td.timeSpent.getD "0h"))),
         ("priority", some (.str (td.priority.getD "medium"))),
         ("developer", (pyOrOpt td.developer td.assignee).map .str),
         ("status", some (.str status)),
         ("created", some (.str (pyStrTake 10 now))),
         ("created_at", some (.str now)),
         ("started_at", started_at.map .str)]
      let file_content : String :=
        ⟨"---\n".data ++ simple_yaml_dump_create fm ++ "\n---\n\n".data ++
          (td.content.getD (td.fullContent.getD "")).data⟩
      (true, some (modifyFilesAt p1 target.1 target.2
        (fun fs => writeFileIn fs fname file_content)))

/-- Search step of the deletion handler. -/
def deleteIn (p : Project) (fname : String) : List String → Option Project
  | [] => none
  | f :: fs =>
    match getDir p f with
    | none => deleteIn p fname fs
    | some d =>
      if fileExistsIn d.files fname then
        some (modifyFilesAt p f none (fun l => removeFileIn l fname))
      else
        match d.devs.find? (fun dd => fileExistsIn dd.files fname) with
        | some dd =>
          some (modifyFilesAt p f (some dd.name) (fun l => removeFileIn l fname))
        | none => deleteIn p fname fs

/-- The task deletion handler (mini-server.py:738-787): search `backlog,
progress, review, testing, done` (note: not `inprogress`), the direct file
before the developer subfolders (no dot filter, no content verification), and
unlink the first match. -/
def delete_task (st : Option Project) (task_id : String) : Bool × Option Project :=
  match st with
  | none => (false, none)
  | some p =>
    match deleteIn p (task_id ++ ".md") ["backlog", "progress", "review", "testing", "done"] with
    | some p2 => (true, some p2)
    | none => (false, some p)

/-- One repository operation on a single project, as reachable through the
HTTP layer: task create, task update, or task delete. -/
inductive TaskOp where
  | create (td : TaskData)
  | update (td : TaskData)
  | delete (task_id : String)

/-- Application of one operation to the project directory state. -/
def applyOp (now project_id : String) (st : Option Project) : TaskOp → Option Project
  | .create td => (create_task_file now project_id st td).2
  | .update td => (update_task_file now st td).2
  | .delete tid => (delete_task st tid).2

/-- Application of a sequence of operations. -/
def applyOps (now project_id : String) : Option Project → List TaskOp → Option Project
  | st, [] => st
  | st, op :: ops => applyOps now project_id (applyOp now project_id st op) ops

/-- Number of files with exactly this name anywhere under the project tree. -/
def countNamed (n : String) : Option Project → Nat
  | none => 0
  | some p =>
    p.rootFiles.countP (fun f => f.name == n) +
      (p.dirs.map (fun d =>
        d.files.countP (fun f => f.name == n) +
          (d.devs.map (fun dd => dd.files.countP (fun f => f.name == n))).sum)).sum

/-- Real directories never hold two subdirectories of the same name: the
well-formedness every reachable filesystem state satisfies. -/
def wfProject (p : Project) : Prop :=
  (p.dirs.map (fun d => d.name)).Nodup ∧
    ∀ d ∈ p.dirs, (d.devs.map (fun dd => dd.name)).Nodup

/-- Well-formedness of an optional project state. -/
def wfState : Option Project → Prop
  | none => True
  | some p => wfProject p


/-- Existence of the (folder, optional developer) bucket a write addresses. -/
def bucketExists (p : Project) (f : String) (dev? : Option String) : Prop :=
  match dev? with
  | none => (getDir p f).isSome = true
  | some dv => ∃ d, getDir p f = some d ∧ (getDev d dv).isSome = true

/-- Project of the collision scenario: task t1 lives in backlog, and an
unrelated task file (content not mentioning t1) occupies progress/t1.md. -/
def c3Project : Project :=
  ⟨[], [⟨"backlog", [⟨"t1.md", "---\ntitle: A\n---\n\ntask t1 body"⟩], []⟩,
        ⟨"progress", [⟨"t1.md", "---\ntitle: Other\n---\n\nsome other work"⟩], []⟩]⟩

/-- Update payload moving t1 to progress. -/
def c3Td : TaskData := { emptyTaskData "t1" with status := some "progress" }

/-- Stored file of the timestamp scenario: started_at is set. -/
def c4FileContent : String :=
  "---\ntitle: A\nstarted_at: 2026-01-01T00:00:00\n---\n\ntask t1"

/-- Project of the timestamp scenario. -/
def c4Project : Project := ⟨[], [⟨"backlog", [⟨"t1.md", c4FileContent⟩], []⟩]⟩

/-- Update payload that moves t1 to review and omits started_at. -/
def c4Td : TaskData := { emptyTaskData "t1" with status := some "review" }

/-- The project state after the timestamp-scenario update. -/
def c4Result : Project :=
  ((update_task_file "2026-02-02T10:00:00" (some c4Project) c4Td).2).getD ⟨[], []⟩


/-- Count of files with this exact name in one file list. -/
def cntN (n : String) (fs : List MdFile) : Nat := fs.countP (fun f => f.name == n)

/-- Count of files with this name in one status folder, subfolders included. -/
def dirCountN (n : String) (d : StatusDir) : Nat :=
  cntN n d.files + (d.devs.map (fun dd => cntN n dd.files)).sum

/-- Number of create operations for this task id contributed by one
operation. -/
def createsFor (t : String) : TaskOp → Nat
  | .create td => if td.id = t then 1 else 0
  | .update _ => 0
  | .delete _ => 0

/-- Number of create operations for this task id in a sequence. -/
def createsIn (t : String) (ops : List TaskOp) : Nat :=
  (ops.map (createsFor t)).sum

/-- The frontmatter keys the update writer emits, in emission order
(mini-server.py:2613-2641). -/
def stdKeys : List String :=
  ["title", "estimate", "spent_time", "priority", "developer", "status",
   "created", "created_at", "started_at", "done_at", "blocked", "blocked_at",
   "blocked_reason", "unblocked_at"]

/-- One input frontmatter line `key: value`. -/
def renderKVLine (kv : String × String) : List Char :=
  kv.1.data ++ ':' :: ' ' :: kv.2.data

/-- A task file text assembled from frontmatter pairs and a body: the shape
`---\n<yaml>\n---\n\n<body>` the system itself writes. -/
def assembleTaskFile (kvs : List (String × String)) (body : String) : String :=
  ⟨dash3 ++ '\n' :: (joinNL (kvs.map renderKVLine) ++
    '\n' :: (dash3 ++ '\n' :: '\n' :: body.data))⟩

/-- Well-formedness of one frontmatter value: nonempty, stripped, and free of
newlines, quote characters and `---`. -/
def wfValue (v : String) : Bool :=
  v != "" && (pyStripL v.data == v.data) && !containsC '\n' v.data &&
    !containsC '\'' v.data && !containsC '"' v.data && !hasSub dash3 v.data

/-- The task record parse_task_file is expected to produce for an assembled
file: each field read from the pairs with the parser's documented defaults
(transcribed from mini-server.py:644-670). -/
def parsedRecOf (stem : String) (kvs : List (String × String))
    (content body : String) : TaskRec :=
  { id := stem
    title := pyDictGet kvs "title" (defaultTitle stem)
    content := body
    fullContent := content
    timeEstimate := pyDictGet kvs "estimate" "0h"
    timeSpent := pyDictGet kvs "spent_time" "0h"
    priority := pyDictGet kvs "priority" "medium"
    developer := pyDictGetOpt kvs "developer"
    assignee := pyDictGetOpt kvs "developer"
    status := pyDictGet kvs "status" "backlog"
    created := pyDictGet kvs "created" ""
    created_at := pyDictGet kvs "created_at" (pyDictGet kvs "created" "")
    started_at := pyDictGet kvs "started_at" ""
    done_at := pyDictGet kvs "done_at" ""
    blocked := pyLower (pyDictGet kvs "blocked" "false") == "true" ||
      pyLower (pyDictGet kvs "blocked" "false") == "yes" ||
      pyLower (pyDictGet kvs "blocked" "false") == "1"
    blocked_at := pyDictGet kvs "blocked_at" ""
    blocked_reason := pyDictGet kvs "blocked_reason" ""
    unblocked_at := pyDictGet kvs "unblocked_at" ""
    is_currently_blocked := (pyLower (pyDictGet kvs "blocked" "false") == "true" ||
      pyLower (pyDictGet kvs "blocked" "false") == "yes" ||
      pyLower (pyDictGet kvs "blocked" "false") == "1") &&
      pyDictGet kvs "unblocked_at" "" == "" }

/-- The client-echoed task_data of a parsed record: what a client that got
the record from the GET endpoint sends back to the update endpoint. -/
def recToTaskData (rec : TaskRec) : TaskData :=
  ⟨rec.id, some rec.status, none, rec.developer, rec.assignee, some rec.title,
   some rec.timeEstimate, some rec.timeSpent, some rec.priority,
   some rec.created, some rec.created_at, some rec.started_at, some rec.done_at,
   some rec.blocked, some rec.blocked_at, some rec.blocked_reason,
   some rec.unblocked_at, some rec.content, some rec.fullContent, none⟩

/-- Serialization of a task record: the file text update_task_file writes for
the client-echoed record, the status resolved as the update path resolves it. -/
def serialize_task (rec : TaskRec) (now : String) : String :=
  renderUpdateFile (recToTaskData rec) (newStatusOf (recToTaskData rec)) now

/-- The key/value pairs embedded in the written frontmatter, values in
unquoted (semantic) form. -/
def updWrittenKVs (td : TaskData) (new_status now : String) :
    List (String × String) :=
  (updFrontmatter td new_status now).filterMap (fun kv =>
    kv.2.map (fun v => (kv.1, (⟨renderFMValPlain v⟩ : String))))

/-! ### Claim C9: parser totality and leniency -/

/-- C9. Parser totality and leniency: a read/decode error (modelled as `none`
content) yields `null` rather than an exception, and content that does not
start with a well-formed ---‑delimited block (fewer than two delimiter
occurrences after the first, i.e. fewer than three split parts) becomes
entirely body, with empty metadata and the documented defaults
(priority `medium`, timeEstimate `0h`). -/
theorem parse_lenient_total :
    (∀ stem, parse_task_file stem none = none) ∧
    (∀ stem content,
      pyStartsWith "---" content = false ∨
        (pySplit2 dash3 content.data).length < 3 →
      ∃ r, parse_task_file stem (some content) = some r ∧
        r.content = content ∧ r.fullContent = content ∧
        task_file_meta content = [] ∧
        r.priority = "medium" ∧ r.timeEstimate = "0h" ∧ r.timeSpent = "0h" ∧
        r.status = "backlog" ∧ r.blocked = false ∧ r.developer = none ∧
        r.title = defaultTitle stem ∧ r.created = "" ∧ r.created_at = "" ∧
        r.started_at = "" ∧ r.done_at = "") := by
  constructor
  · intro stem; rfl
  · intro stem content h
    have hsplit : taskFileSplit content = ("", content) := by
      rcases h with h | h
      · unfold taskFileSplit
        rw [show pfx dash3 content.data = false from h]
        simp
      · unfold taskFileSplit
        by_cases hp : pfx dash3 content.data = true


        · rw [hp]
          simp only [if_pos rfl]
          rcases hps : pySplit2 dash3 content.data with _ | ⟨a, _ | ⟨b, _ | ⟨c, rest⟩⟩⟩
          · rfl
          · rfl
          · rfl
          · rw [hps] at h; simp at h; omega
        · simp at hp
          rw [hp]; simp
    have hmeta : task_file_meta content = [] := by
      unfold task_file_meta
      rw [hsplit]
      rfl
    refine ⟨_, rfl, ?_, ?_, hmeta, ?_, ?_, ?_, ?_, ?_, ?_, ?_, ?_, ?_, ?_, ?_⟩ <;>
      simp [task_file_body, hsplit, hmeta, pyDictGet, pyDictGetOpt, pyLower]

/-- Witness for C9 at concrete inputs: content with no frontmatter at all, and
content that opens `---` but never closes it. -/
theorem parse_lenient_total_witness :
    (∃ r, parse_task_file "fix-bug" (some "hello world") = some r ∧
      r.content = "hello world" ∧ r.fullContent = "hello world" ∧
      task_file_meta "hello world" = [] ∧
      r.priority = "medium" ∧ r.timeEstimate = "0h" ∧ r.timeSpent = "0h" ∧
      r.status = "backlog" ∧ r.blocked = false ∧ r.developer = none ∧
      r.title = defaultTitle "fix-bug" ∧ r.created = "" ∧ r.created_at = "" ∧
      r.started_at = "" ∧ r.done_at = "") ∧
    (∃ r, parse_task_file "t1" (some "---\ntitle: x") = some r ∧
      r.content = "---\ntitle: x" ∧ r.fullContent = "---\ntitle: x" ∧
      task_file_meta "---\ntitle: x" = [] ∧
      r.priority = "medium" ∧ r.timeEstimate = "0h" ∧ r.timeSpent = "0h" ∧
      r.status = "backlog" ∧ r.blocked = false ∧ r.developer = none ∧
      r.title = defaultTitle "t1" ∧ r.created = "" ∧ r.created_at = "" ∧
      r.started_at = "" ∧ r.done_at = "") :=
  ⟨parse_lenient_total.2 "fix-bug" "hello world" (Or.inl (by decide)),
   parse_lenient_total.2 "t1" "---\ntitle: x" (Or.inr (by decide))⟩

/-! ### Claim C2: checkWipLimit postcondition -/

/-- C2. With a configured limit `L` for the status, an existing project and an
existing status folder holding `N` counted task files (`.md` recursively,
excluding README.md), check_wip_limit reports count `N`, limit `L`,
warning iff `N ≥ L·w`, and allowed iff not (block_on_limit and `N ≥ L`). -/
theorem check_wip_limit_postcondition (cfg : WipConfig) (p : Project)
    (status : String) (L : Int) (d : StatusDir)
    (hL : wipLimitFor cfg status = some L)
    (hd : getDir p status = some d) :
    (check_wip_limit cfg (some p) status).count = countMdFiles d ∧
    (check_wip_limit cfg (some p) status).limit = some L ∧
    ((check_wip_limit cfg (some p) status).warning = true ↔
      (countMdFiles d : ℚ) ≥ (L : ℚ) * cfg.warning_threshold) ∧
    ((check_wip_limit cfg (some p) status).allowed = true ↔
      ¬ (cfg.block_on_limit = true ∧ (countMdFiles d : ℤ) ≥ L)) := by
  simp only [check_wip_limit, hL, hd]
  refine ⟨trivial, trivial, by simp, ?_⟩
  simp only [Bool.not_eq_true']
  constructor
  · intro h hc
    rcases hc with ⟨hb, hge⟩
    rw [hb] at h
    simp at h
    omega
  · intro h
    by_cases hb : cfg.block_on_limit = true
    · have : ¬ ((countMdFiles d : ℤ) ≥ L) := fun hge => h ⟨hb, hge⟩
      rw [hb]
      simp [this]
    · simp at hb
      rw [hb]
      simp

/-- Witness for C2: the spec's scenario (limit 5, threshold 0.8, block on
limit) with 4 tasks gives (allowed, 4, 5, warning), and with 5 tasks gives
(blocked, 5, 5, warning). -/
theorem check_wip_limit_postcondition_witness :
    (check_wip_limit wipScenarioCfg (some (wipScenarioProj 4)) "progress").count = 4 ∧
    (check_wip_limit wipScenarioCfg (some (wipScenarioProj 4)) "progress").limit = some 5 ∧
    (check_wip_limit wipScenarioCfg (some (wipScenarioProj 4)) "progress").warning = true ∧
    (check_wip_limit wipScenarioCfg (some (wipScenarioProj 4)) "progress").allowed = true ∧
    (check_wip_limit wipScenarioCfg (some (wipScenarioProj 5)) "progress").count = 5 ∧
    (check_wip_limit wipScenarioCfg (some (wipScenarioProj 5)) "progress").warning = true ∧
    (check_wip_limit wipScenarioCfg (some (wipScenarioProj 5)) "progress").allowed = false := by
  have hd4 : getDir (wipScenarioProj 4) "progress" =
      some ⟨"progress", (List.range 4).map (fun i => mdTask ("t" ++ toString i)), []⟩ := by decide
  have hd5 : getDir (wipScenarioProj 5) "progress" =
      some ⟨"progress", (List.range 5).map (fun i => mdTask ("t" ++ toString i)), []⟩ := by decide
  have h4 := check_wip_limit_postcondition wipScenarioCfg (wipScenarioProj 4)
    "progress" 5 _ rfl hd4
  have h5 := check_wip_limit_postcondition wipScenarioCfg (wipScenarioProj 5)
    "progress" 5 _ rfl hd5
  have hc4 : countMdFiles ⟨"progress", (List.range 4).map (fun i => mdTask ("t" ++ toString i)), []⟩ = 4 := by decide
  have hc5 : countMdFiles ⟨"progress", (List.range 5).map (fun i => mdTask ("t" ++ toString i)), []⟩ = 5 := by decide
  refine ⟨h4.1.trans hc4, h4.2.1, ?_, ?_, h5.1.trans hc5, ?_, ?_⟩
  · exact h4.2.2.1.mpr (by rw [hc4]; norm_num [wipScenarioCfg])
  · refine h4.2.2.2.mpr ?_
    rintro ⟨-, hge⟩
    rw [hc4] at hge
    norm_num [wipScenarioCfg] at hge
  · exact h5.2.2.1.mpr (by rw [hc5]; norm_num [wipScenarioCfg])
  · rcases Bool.eq_false_or_eq_true
      (check_wip_limit wipScenarioCfg (some (wipScenarioProj 5)) "progress").allowed with h | h
    · exact absurd (h5.2.2.2.mp h) (by rw [hc5]; simp [wipScenarioCfg])
    · exact h

/-! ### Claim C10: checkWipLimit edge cases -/

/-- C10. check_wip_limit short-circuits to (allowed, count 0) whenever the
configured limit is null/absent, the project directory is missing, or the
status folder is missing — and it applies no folder-name aliasing, so with a
limit configured for `progress` and the tasks stored under `inprogress` it
reports count 0 even though three task files exist. -/
theorem check_wip_limit_edge_cases :
    (∀ cfg st status, wipLimitFor cfg status = none →
      check_wip_limit cfg st status = ⟨true, 0, none, false⟩) ∧
    (∀ cfg status L, wipLimitFor cfg status = some L →
      check_wip_limit cfg none status = ⟨true, 0, some L, false⟩) ∧
    (∀ cfg p status L, wipLimitFor cfg status = some L → getDir p status = none →
      check_wip_limit cfg (some p) status = ⟨true, 0, some L, false⟩) ∧
    (check_wip_limit wipScenarioCfg (some wipAliasProj) "progress" =
      ⟨true, 0, some 5, false⟩ ∧
     getDir wipAliasProj "inprogress" = some ⟨"inprogress", [mdTask "a", mdTask "b", mdTask "c"], []⟩ ∧
     countMdFiles ⟨"inprogress", [mdTask "a", mdTask "b", mdTask "c"], []⟩ = 3) := by
  refine ⟨?_, ?_, ?_, by decide, by decide, by decide⟩
  · intro cfg st status h
    simp only [check_wip_limit, h]
  · intro cfg status L h
    simp only [check_wip_limit, h]
  · intro cfg p status L h hd
    simp only [check_wip_limit, h, hd]

/-- Witness for C10 at concrete inputs: a status with no configured limit,
a missing project directory, and a missing status folder. -/
theorem check_wip_limit_edge_cases_witness :
    check_wip_limit wipScenarioCfg (some wipAliasProj) "review" = ⟨true, 0, none, false⟩ ∧
    check_wip_limit wipScenarioCfg none "progress" = ⟨true, 0, some 5, false⟩ ∧
    check_wip_limit wipScenarioCfg (some wipAliasProj) "progress" = ⟨true, 0, some 5, false⟩ :=
  ⟨check_wip_limit_edge_cases.1 wipScenarioCfg (some wipAliasProj) "review" (by decide),
   check_wip_limit_edge_cases.2.1 wipScenarioCfg "progress" 5 (by decide),
   check_wip_limit_edge_cases.2.2.1 wipScenarioCfg wipAliasProj "progress" 5 (by decide) (by decide)⟩

/-! ### Order lemmas for Python string comparison -/

/-- Totality of the lexicographic comparison. -/
theorem listLe_total (a : List Char) : ∀ b, listLe a b = true ∨ listLe b a = true := by
  induction a with
  | nil => intro b; left; rfl
  | cons x xs ih =>
    intro b
    cases b with
    | nil => right; rfl
    | cons y ys =>
      by_cases h : x = y
      · subst h
        simpa only [listLe, beq_self_eq_true, if_true] using ih ys
      · have hxy : (x == y) = false := by simp [h]
        have hyx : (y == x) = false := by simp [Ne.symm h]
        simp only [listLe, hxy, hyx, if_neg, Bool.false_eq_true, if_false]
        rcases lt_trichotomy x y with h1 | h1 | h1
        · left; exact decide_eq_true h1
        · exact absurd h1 h
        · right; exact decide_eq_true h1

/-- Transitivity of the lexicographic comparison. -/
theorem listLe_trans : ∀ {a b c : List Char},
    listLe a b = true → listLe b c = true → listLe a c = true := by
  intro a
  induction a with
  | nil => intro b c _ _; rfl
  | cons x xs ih =>
    intro b c hab hbc
    cases b with
    | nil => simp [listLe] at hab
    | cons y ys =>
      cases c with
      | nil => simp [listLe] at hbc
      | cons z zs =>
        by_cases hxy : x = y
        · subst hxy
          by_cases hxz : x = z
          · subst hxz
            simp only [listLe, beq_self_eq_true, if_true] at hab hbc ⊢
            exact ih hab hbc
          · have h1 : (x == z) = false := by simp [hxz]
            simp only [listLe, beq_self_eq_true, if_true, h1, Bool.false_eq_true, if_false] at hbc ⊢
            exact hbc
        · have h1 : (x == y) = false := by simp [hxy]
          simp only [listLe, h1, Bool.false_eq_true, if_false, decide_eq_true_eq] at hab
          by_cases hyz : y = z
          · have h2 : (x == z) = false := by
              rw [← hyz]
              exact h1
            simp only [listLe, h2, Bool.false_eq_true, if_false, decide_eq_true_eq]
            rw [← hyz]
            exact hab
          · have h2 : (y == z) = false := by simp [hyz]
            simp only [listLe, h2, Bool.false_eq_true, if_false, decide_eq_true_eq] at hbc
            have hxz : x < z := lt_trans hab hbc
            have h3 : (x == z) = false := by simp [ne_of_lt hxz]
            simp only [listLe, h3, Bool.false_eq_true, if_false, decide_eq_true_eq]
            exact hxz

/-- Antisymmetry of the lexicographic comparison. -/
theorem listLe_antisymm : ∀ {a b : List Char},
    listLe a b = true → listLe b a = true → a = b := by
  intro a
  induction a with
  | nil =>
    intro b _ hba
    cases b with
    | nil => rfl
    | cons y ys => simp [listLe] at hba
  | cons x xs ih =>
    intro b hab hba
    cases b with
    | nil => simp [listLe] at hab
    | cons y ys =>
      by_cases hxy : x = y
      · subst hxy
        simp only [listLe, beq_self_eq_true, if_true] at hab hba
        rw [ih hab hba]
      · have h1 : (x == y) = false := by simp [hxy]
        have h2 : (y == x) = false := by simp [Ne.symm hxy]
        simp only [listLe, h1, h2, Bool.false_eq_true, if_false, decide_eq_true_eq] at hab hba
        exact absurd (lt_trans hab hba) (lt_irrefl x)

/-- Totality of `strLe`. -/
theorem strLe_total (a b : String) : strLe a b = true ∨ strLe b a = true :=
  listLe_total a.data b.data

/-- Transitivity of `strLe`. -/
theorem strLe_trans {a b c : String} (h1 : strLe a b = true) (h2 : strLe b c = true) :
    strLe a c = true := listLe_trans h1 h2

/-- Antisymmetry of `strLe`. -/
theorem strLe_antisymm {a b : String} (h1 : strLe a b = true) (h2 : strLe b a = true) :
    a = b := by
  cases a; cases b
  exact congrArg String.mk (listLe_antisymm h1 h2)

/-! ### Sorting lemmas for CFD histories -/

/-- Membership in a stable insertion. -/
theorem mem_insSnap {x y : Snapshot} : ∀ {l}, y ∈ insSnap x l ↔ y = x ∨ y ∈ l := by
  intro l
  induction l with
  | nil => simp [insSnap]
  | cons z zs ih =>
    by_cases h : strLe z.date x.date = true
    · simp only [insSnap, if_pos h, List.mem_cons, ih]
      try tauto
    · simp only [insSnap, if_neg h, List.mem_cons]
      try tauto

/-- Length of a stable insertion. -/
theorem length_insSnap (x : Snapshot) : ∀ l, (insSnap x l).length = l.length + 1 := by
  intro l
  induction l with
  | nil => rfl
  | cons z zs ih =>
    by_cases h : strLe z.date x.date = true
    · simp only [insSnap, if_pos h, List.length_cons, ih]
    · simp [insSnap, if_neg h]

/-- `countP` of a stable insertion. -/
theorem countP_insSnap (p : Snapshot → Bool) (x : Snapshot) :
    ∀ l, (insSnap x l).countP p = l.countP p + (if p x then 1 else 0) := by
  intro l
  induction l with
  | nil => by_cases h : p x <;> simp [insSnap, List.countP_cons, h]
  | cons z zs ih =>
    by_cases h : strLe z.date x.date = true
    · simp only [insSnap, if_pos h, List.countP_cons, ih]
      by_cases hz : p z <;> simp [hz] <;> omega
    · by_cases hx : p x <;> by_cases hz : p z <;>
        simp [insSnap, if_neg h, List.countP_cons, hx, hz] <;> omega

/-- A stable insertion into a date-sorted list is date-sorted. -/
theorem pairwise_insSnap {x : Snapshot} :
    ∀ {l}, List.Pairwise dateLe l → List.Pairwise dateLe (insSnap x l) := by
  intro l
  induction l with
  | nil => intro _; exact List.pairwise_singleton _ _
  | cons z zs ih =>
    intro h
    rcases List.pairwise_cons.mp h with ⟨hz, hzs⟩
    by_cases hle : strLe z.date x.date = true
    · rw [insSnap, if_pos hle]
      refine List.pairwise_cons.mpr ⟨?_, ih hzs⟩
      intro y hy
      rcases mem_insSnap.mp hy with rfl | hy'
      · exact hle
      · exact hz y hy'
    · rw [insSnap, if_neg hle]
      have hxz : strLe x.date z.date = true := by
        rcases strLe_total z.date x.date with h1 | h1
        · exact absurd h1 hle
        · exact h1
      refine List.pairwise_cons.mpr ⟨?_, h⟩
      intro y hy
      rcases List.mem_cons.mp hy with rfl | hy'
      · exact hxz
      · exact strLe_trans hxz (hz y hy')

/-- Membership through the insertion-sort fold. -/
theorem mem_foldl_ins {y : Snapshot} :
    ∀ (l acc : List Snapshot),
      (y ∈ l.foldl (fun acc x => insSnap x acc) acc ↔ y ∈ acc ∨ y ∈ l) := by
  intro l
  induction l with
  | nil => intro acc; simp
  | cons z zs ih =>
    intro acc
    simp only [List.foldl_cons, ih, mem_insSnap, List.mem_cons]
    tauto

/-- Membership in the sorted history. -/
theorem mem_sortByDate {y : Snapshot} {l : List Snapshot} :
    y ∈ sortByDate l ↔ y ∈ l := by
  unfold sortByDate
  rw [mem_foldl_ins]
  simp

/-- `countP` through the insertion-sort fold. -/
theorem countP_foldl_ins (p : Snapshot → Bool) :
    ∀ (l acc : List Snapshot),
      (l.foldl (fun acc x => insSnap x acc) acc).countP p = acc.countP p + l.countP p := by
  intro l
  induction l with
  | nil => intro acc; simp
  | cons z zs ih =>
    intro acc
    rw [List.foldl_cons, ih, countP_insSnap, List.countP_cons]
    by_cases hz : p z <;> simp [hz] <;> omega

/-- Sorting preserves `countP`. -/
theorem countP_sortByDate (p : Snapshot → Bool) (l : List Snapshot) :
    (sortByDate l).countP p = l.countP p := by
  unfold sortByDate
  rw [countP_foldl_ins]
  simp

/-- Length through the insertion-sort fold. -/
theorem length_foldl_ins :
    ∀ (l acc : List Snapshot),
      (l.foldl (fun acc x => insSnap x acc) acc).length = acc.length + l.length := by
  intro l
  induction l with
  | nil => intro acc; simp
  | cons z zs ih =>
    intro acc
    rw [List.foldl_cons, ih, length_insSnap, List.length_cons]
    omega

/-- Sorting preserves length. -/
theorem length_sortByDate (l : List Snapshot) : (sortByDate l).length = l.length := by
  unfold sortByDate
  rw [length_foldl_ins]
  simp

/-- The sorted history is date-sorted. -/
theorem pairwise_foldl_ins :
    ∀ (l acc : List Snapshot), List.Pairwise dateLe acc →
      List.Pairwise dateLe (l.foldl (fun acc x => insSnap x acc) acc) := by
  intro l
  induction l with
  | nil => intro acc h; exact h
  | cons z zs ih =>
    intro acc h
    exact ih _ (pairwise_insSnap h)

/-- Output of `sortByDate` is sorted ascending by date. -/
theorem pairwise_sortByDate (l : List Snapshot) : List.Pairwise dateLe (sortByDate l) :=
  pairwise_foldl_ins l [] List.Pairwise.nil

/-! ### Lemmas on same-date replacement -/

/-- Replacement preserves length. -/
theorem length_replaceFirstByDate (snap : Snapshot) :
    ∀ hist, (replaceFirstByDate hist snap).length = hist.length := by
  intro hist
  induction hist with
  | nil => rfl
  | cons s ss ih =>
    by_cases h : (s.date == snap.date) = true
    · simp [replaceFirstByDate, h]
    · simp only [replaceFirstByDate, h, Bool.false_eq_true, if_false, List.length_cons, ih]

/-- A history whose dates avoid `d` has no entry dated `d`. -/
theorem countP_date_zero {d : String} :
    ∀ {hist : List Snapshot}, d ∉ hist.map (fun s => s.date) →
      hist.countP (fun s => s.date == d) = 0 := by
  intro hist
  induction hist with
  | nil => intro _; rfl
  | cons s ss ih =>
    intro h
    simp only [List.map_cons, List.mem_cons] at h
    push_neg at h
    rw [List.countP_cons, ih h.2]
    have : (s.date == d) = false := by simp [Ne.symm h.1]
    simp [this]

/-- Members of a replaced history are the snapshot or old entries. -/
theorem mem_replaceFirst {snap y : Snapshot} :
    ∀ {hist}, y ∈ replaceFirstByDate hist snap → y = snap ∨ y ∈ hist := by
  intro hist
  induction hist with
  | nil => intro h; simp [replaceFirstByDate] at h
  | cons s ss ih =>
    intro h
    by_cases hs : (s.date == snap.date) = true
    · rw [replaceFirstByDate, if_pos hs] at h
      rcases List.mem_cons.mp h with rfl | h'
      · exact Or.inl rfl
      · exact Or.inr (List.mem_cons_of_mem _ h')
    · rw [replaceFirstByDate, if_neg hs] at h
      rcases List.mem_cons.mp h with rfl | h'
      · exact Or.inr (List.mem_cons_self _ _)
      · rcases ih h' with h'' | h''
        · exact Or.inl h''
        · exact Or.inr (List.mem_cons_of_mem _ h'')

/-- With distinct dates and a matching entry present, replacement yields
exactly one entry of the snapshot's date, and that entry is the snapshot. -/
theorem replaceFirst_count {snap : Snapshot} :
    ∀ {hist}, hist.any (fun s => s.date == snap.date) = true →
      (hist.map (fun s => s.date)).Nodup →
      (replaceFirstByDate hist snap).countP (fun s => s.date == snap.date) = 1 ∧
      (∀ s ∈ replaceFirstByDate hist snap, s.date = snap.date → s = snap) := by
  intro hist
  induction hist with
  | nil => intro hany _; simp at hany
  | cons s ss ih =>
    intro hany hnodup
    simp only [List.map_cons, List.nodup_cons] at hnodup
    by_cases hs : (s.date == snap.date) = true
    · rw [replaceFirstByDate, if_pos hs]
      have hdate : s.date = snap.date := by simpa using hs
      have hzero : ss.countP (fun t => t.date == snap.date) = 0 := by
        apply countP_date_zero
        rw [← hdate]
        exact hnodup.1
      constructor
      · rw [List.countP_cons, hzero]
        simp
      · intro t ht htd
        rcases List.mem_cons.mp ht with rfl | ht'
        · rfl
        · exfalso
          have : t.date ∈ ss.map (fun s => s.date) := List.mem_map_of_mem _ ht'
          rw [htd, ← hdate] at this
          exact hnodup.1 this
    · rw [replaceFirstByDate, if_neg hs]
      have hany' : ss.any (fun t => t.date == snap.date) = true := by
        rcases List.any_eq_true.mp hany with ⟨t, ht, htp⟩
        rcases List.mem_cons.mp ht with rfl | ht'
        · exact absurd htp hs
        · exact List.any_eq_true.mpr ⟨t, ht', htp⟩
      rcases ih hany' hnodup.2 with ⟨hcount, hall⟩
      constructor
      · rw [List.countP_cons, hcount]
        simp [hs]
      · intro t ht htd
        rcases List.mem_cons.mp ht with rfl | ht'
        · exact absurd (by simpa using htd) (by simpa using hs)
        · exact hall t ht' htd

/-! ### Claim C6: CFD history postcondition (amended) -/

/-- C6 (amended). Provided the stored history has pairwise-distinct dates, at
most 90 entries, and no entry dated after the snapshot (the chronological use
of daily snapshots), store_cfd_snapshot leaves exactly one entry with the
snapshot's date — the snapshot itself, so a same-day re-store overwrites the
earlier counts — and the history is sorted ascending by date with at most 90
entries.  Without the chronological hypothesis the claim fails: a snapshot
dated before 90 newer entries is dropped by the `[-90:]` truncation
(see the counterexample). -/
theorem store_cfd_snapshot_postcondition (hist : List Snapshot) (snap : Snapshot)
    (hnodup : (hist.map (fun s => s.date)).Nodup)
    (hlen : hist.length ≤ 90)
    (hchron : ∀ s ∈ hist, strLe s.date snap.date = true) :
    (store_cfd_snapshot hist snap).countP (fun s => s.date == snap.date) = 1 ∧
    (∀ s ∈ store_cfd_snapshot hist snap, s.date = snap.date → s = snap) ∧
    List.Pairwise dateLe (store_cfd_snapshot hist snap) ∧
    (store_cfd_snapshot hist snap).length ≤ 90 := by
  unfold store_cfd_snapshot
  by_cases hany : hist.any (fun s => s.date == snap.date) = true
  · -- replacement case: the length is unchanged, no truncation happens
    rw [if_pos hany]
    rcases replaceFirst_count hany hnodup with ⟨hcount, hall⟩
    have hlen1 : (sortByDate (replaceFirstByDate hist snap)).length ≤ 90 := by
      rw [length_sortByDate, length_replaceFirstByDate]
      exact hlen
    have hnotr : ¬ ((sortByDate (replaceFirstByDate hist snap)).length > 90) := by omega
    rw [if_neg hnotr]
    refine ⟨?_, ?_, pairwise_sortByDate _, hlen1⟩
    · rw [countP_sortByDate]
      exact hcount
    · intro s hs hsd
      exact hall s (mem_sortByDate.mp hs) hsd
  · -- append case
    rw [if_neg hany]
    have hany' := Bool.eq_false_iff.mpr hany
    have hffalse : ∀ t ∈ hist, (t.date == snap.date) = false := by
      intro t ht
      rcases Bool.eq_false_or_eq_true (t.date == snap.date) with h | h
      · exact absurd (List.any_eq_true.mpr ⟨t, ht, h⟩) hany
      · exact h
    have hcount1 : (hist ++ [snap]).countP (fun s => s.date == snap.date) = 1 := by
      rw [List.countP_append]
      have h0 : hist.countP (fun s => s.date == snap.date) = 0 := by
        apply countP_date_zero
        intro hmem
        rcases List.mem_map.mp hmem with ⟨t, ht, htd⟩
        have := hffalse t ht
        rw [htd] at this
        simp at this
      rw [h0]
      simp
    have hcount2 : (sortByDate (hist ++ [snap])).countP (fun s => s.date == snap.date) = 1 := by
      rw [countP_sortByDate]; exact hcount1
    have hlen2 : (sortByDate (hist ++ [snap])).length = hist.length + 1 := by
      rw [length_sortByDate, List.length_append]
      rfl
    have hmem2 : ∀ y, y ∈ sortByDate (hist ++ [snap]) ↔ (y ∈ hist ∨ y = snap) := by
      intro y
      rw [mem_sortByDate, List.mem_append]
      simp
    have hall2 : ∀ s ∈ sortByDate (hist ++ [snap]), s.date = snap.date → s = snap := by
      intro s hs hsd
      rcases (hmem2 s).mp hs with h | h
      · exact absurd hsd (by simpa using hffalse s h)
      · exact h
    by_cases htr : (sortByDate (hist ++ [snap])).length > 90
    · -- truncation: exactly one entry is dropped from the front,
      -- and it is not the snapshot because the snapshot's date is maximal
      rw [if_pos htr]
      have hlen90 : hist.length = 90 := by omega
      have hdrop1 : (sortByDate (hist ++ [snap])).length - 90 = 1 := by omega
      rw [hdrop1]
      rcases hsort : sortByDate (hist ++ [snap]) with _ | ⟨h0, t⟩
      · rw [hsort] at hlen2; simp at hlen2
      · have hpw : List.Pairwise dateLe (h0 :: t) := by
          rw [← hsort]; exact pairwise_sortByDate _
        have hcount' : (h0 :: t).countP (fun s => s.date == snap.date) = 1 := by
          rw [← hsort]; exact hcount2
        have hlent : t.length = 90 := by
          rw [hsort] at hlen2
          simp at hlen2
          omega
        have hh0 : (h0.date == snap.date) = false := by
          rcases Bool.eq_false_or_eq_true (h0.date == snap.date) with h | h
          · exfalso
            -- h0 is dated like the snapshot, hence equals it, hence is the
            -- unique maximal-dated entry; but it sorts first among 91
            have hh0d : h0.date = snap.date := by simpa using h
            have hh0mem : h0 ∈ sortByDate (hist ++ [snap]) := by
              rw [hsort]; exact List.mem_cons_self _ _
            have hh0snap : h0 = snap := hall2 h0 hh0mem hh0d
            have htne : t ≠ [] := by
              intro hte; rw [hte] at hlent; simp at hlent
            rcases List.exists_mem_of_ne_nil t htne with ⟨y, hy⟩
            have hyc : (y.date == snap.date) = false := by
              rw [List.countP_cons, h] at hcount'
              simp only [if_true, Nat.add_left_eq_self, if_pos] at hcount'
              have ht0 : t.countP (fun s => s.date == snap.date) = 0 := by
                rcases Nat.eq_zero_or_pos (t.countP (fun s => s.date == snap.date)) with h0 | h0
                · exact h0
                · omega
              have := List.countP_eq_zero.mp ht0 y hy
              simpa using this
            have hymem : y ∈ sortByDate (hist ++ [snap]) := by
              rw [hsort]; exact List.mem_cons_of_mem _ hy
            have hyhist : y ∈ hist := by
              rcases (hmem2 y).mp hymem with h' | h'
              · exact h'
              · rw [h'] at hyc; simp at hyc
            have h1 : strLe snap.date y.date = true := by
              have := (List.pairwise_cons.mp hpw).1 y hy
              rw [hh0snap] at this
              exact this
            have h2 : strLe y.date snap.date = true := hchron y hyhist
            have : y.date = snap.date := strLe_antisymm h2 h1
            rw [this] at hyc
            simp at hyc
          · exact h
        refine ⟨?_, ?_, ?_, ?_⟩
        · have : (h0 :: t).drop 1 = t := rfl
          rw [this]
          rw [List.countP_cons, hh0] at hcount'
          simpa using hcount'
        · intro s hs hsd
          have : s ∈ h0 :: t := List.mem_cons_of_mem _ (by simpa using hs)
          exact hall2 s (by rw [hsort]; exact this) hsd
        · exact (List.pairwise_cons.mp hpw).2
        · simp [hlent]
    · rw [if_neg htr]
      refine ⟨hcount2, hall2, pairwise_sortByDate _, by omega⟩

/-- Witness for C6: a singleton history re-snapshotted on the same day keeps
exactly one entry carrying the second snapshot's counts. -/
theorem store_cfd_snapshot_postcondition_witness :
    (store_cfd_snapshot [⟨"2026-02-01", "t0", 1, 0, 0, 0, 0⟩] ⟨"2026-02-01", "t1", 2, 3, 0, 0, 1⟩).countP
      (fun s => s.date == "2026-02-01") = 1 ∧
    (∀ s ∈ store_cfd_snapshot [⟨"2026-02-01", "t0", 1, 0, 0, 0, 0⟩] ⟨"2026-02-01", "t1", 2, 3, 0, 0, 1⟩,
      s.date = "2026-02-01" → s = ⟨"2026-02-01", "t1", 2, 3, 0, 0, 1⟩) ∧
    List.Pairwise dateLe (store_cfd_snapshot [⟨"2026-02-01", "t0", 1, 0, 0, 0, 0⟩] ⟨"2026-02-01", "t1", 2, 3, 0, 0, 1⟩) ∧
    (store_cfd_snapshot [⟨"2026-02-01", "t0", 1, 0, 0, 0, 0⟩] ⟨"2026-02-01", "t1", 2, 3, 0, 0, 1⟩).length ≤ 90 :=
  store_cfd_snapshot_postcondition [⟨"2026-02-01", "t0", 1, 0, 0, 0, 0⟩]
    ⟨"2026-02-01", "t1", 2, 3, 0, 0, 1⟩ (by decide) (by decide) (by decide)

/-- Counterexample to C6 as stated: storing a snapshot dated 2026-01-05 into a
90-entry history of later dates leaves no entry at all for that date — the
truncation to 90 entries drops the new entry — so "exactly one entry for the
snapshot's date" fails for an arbitrary snapshot. -/
theorem store_cfd_truncation_drops_backdated :
    (store_cfd_snapshot backdatedHist backdatedSnap).countP
      (fun s => s.date == "2026-01-05") = 0 ∧
    (store_cfd_snapshot backdatedHist backdatedSnap).length = 90 := by
  constructor <;> decide

/-! ### Claim C8: project creation postcondition -/

/-- C8 (amended). create_project fails when the directory already exists and
leaves it unchanged; on success it creates five status folders named
`backlog`, `inprogress`, `review`, `done`, `testing` (the code writes
`inprogress`, not `progress` as the spec's end-to-end scenario names it),
each containing exactly one empty `default-dev` developer subfolder and no
files, plus a `README.md` whose content is `# <description>` (description
defaulting to `Project <id>`). -/
theorem create_project_postcondition (pd : ProjectData) (project_id : String)
    (hid : pd.id = some project_id) (hne : project_id ≠ "") :
    (∀ p, create_project pd (some p) = (false, some p)) ∧
    (∃ p', create_project pd none = (true, some p') ∧
      p'.dirs.map (fun d => d.name) = ["backlog", "inprogress", "review", "done", "testing"] ∧
      (∀ d ∈ p'.dirs, d.devs.map (fun dd => dd.name) = [default_dev] ∧ d.files = []) ∧
      p'.rootFiles = [⟨"README.md",
        "# " ++ pd.description.getD ("Project " ++ project_id) ++ "\n"⟩]) := by
  constructor
  · intro p
    simp [create_project, hid, hne]
  · refine ⟨projectSkeleton (pd.description.getD ("Project " ++ project_id)), ?_, ?_, ?_, ?_⟩
    · simp [create_project, hid, hne]
    · simp [projectSkeleton]
    · intro d hd
      simp only [projectSkeleton, List.mem_map, List.mem_cons] at hd
      rcases hd with ⟨c, hc, rfl⟩
      simp
    · simp [projectSkeleton]

/-- Witness for C8 at the spec's end-to-end input: project `proj-1` with no
description. -/
theorem create_project_postcondition_witness :
    (∀ p, create_project ⟨some "proj-1", none⟩ (some p) = (false, some p)) ∧
    (∃ p', create_project ⟨some "proj-1", none⟩ none = (true, some p') ∧
      p'.dirs.map (fun d => d.name) = ["backlog", "inprogress", "review", "done", "testing"] ∧
      (∀ d ∈ p'.dirs, d.devs.map (fun dd => dd.name) = [default_dev] ∧ d.files = []) ∧
      p'.rootFiles = [⟨"README.md", "# Project proj-1\n"⟩]) :=
  create_project_postcondition ⟨some "proj-1", none⟩ "proj-1" rfl (by decide)

/-- Counterexample to C8 as stated: creating `proj-1` succeeds but the status
folders are `backlog, inprogress, review, done, testing` — there is no
`progress/` folder, contrary to the claim's scenario. -/
theorem create_project_makes_inprogress_not_progress :
    (create_project ⟨some "proj-1", none⟩ none).1 = true ∧
    ((create_project ⟨some "proj-1", none⟩ none).2.map
      (fun p => p.dirs.map (fun d => d.name))) =
      some ["backlog", "inprogress", "review", "done", "testing"] ∧
    ((create_project ⟨some "proj-1", none⟩ none).2.map
      (fun p => (getDir p "progress").isSome)) = some false := by
  refine ⟨rfl, rfl, by decide⟩

/-! ### The identity check is vacuously true on files named after the task -/

/-- A char list is a prefix of itself followed by anything. -/
theorem pfx_append_self : ∀ (a b : List Char), pfx a (a ++ b) = true := by
  intro a
  induction a with
  | nil => intro b; rfl
  | cons x xs ih => intro b; simp [pfx, ih]

/-- A char list occurs in itself followed by anything. -/
theorem hasSub_append_self (a b : List Char) : hasSub a (a ++ b) = true := by
  cases a with
  | nil =>
    cases b with
    | nil => rfl
    | cons c l => rfl
  | cons x xs =>
    have h := pfx_append_self (x :: xs) b
    rw [List.cons_append] at h ⊢
    rw [hasSub, h, Bool.true_or]

/-- A string occurs in itself followed by any suffix. -/
theorem strContains_append_self (t suf : String) : strContains t (t ++ suf) = true := by
  show hasSub t.data (t ++ suf).data = true
  have h : (t ++ suf).data = t.data ++ suf.data := rfl
  rw [h]
  exact hasSub_append_self _ _

/-- The identity check of update_task_file always passes on a file that is
named `<task_id>.md`: the `task_id in str(file.name)` disjunct is true by
construction, which makes the check vacuous. -/
theorem idCheck_of_name {t : String} {f : MdFile} (h : f.name = t ++ ".md") :
    idCheck t f = true := by
  unfold idCheck
  rw [h, strContains_append_self]
  simp

/-- A found file bears the searched name. -/
theorem findFile_name {fs : List MdFile} {n : String} {f : MdFile}
    (h : findFile fs n = some f) : f.name = n := by
  have h' : fs.find? (fun f => f.name == n) = some f := h
  have := List.find?_some h'
  simpa using this

/-- The developer scan of the resolver coincides with the spec's "first
subfolder containing the file", because the identity check always passes. -/
theorem locateInDevs_eq_spec (t : String) (devs : List DevDir) :
    locateInDevs t devs =
      (devs.find? (fun dd =>
        !(pyStartsWith "." dd.name) && fileExistsIn dd.files (t ++ ".md"))).map
        (fun dd => dd.name) := by
  unfold locateInDevs
  have hp : (fun dd : DevDir => !(pyStartsWith "." dd.name) &&
      (match findFile dd.files (t ++ ".md") with
       | some f => idCheck t f
       | none => false)) =
    (fun dd => !(pyStartsWith "." dd.name) && fileExistsIn dd.files (t ++ ".md")) := by
    funext dd
    cases hf : findFile dd.files (t ++ ".md") with
    | none => simp [fileExistsIn, hf]
    | some f =>
      simp only [hf, fileExistsIn, Option.isSome_some]
      rw [idCheck_of_name (findFile_name hf)]
  rw [hp]

/-! ### Claim C7: resolver tie-break -/

/-- C7. The resolver returns the first match in the fixed folder order
`backlog, progress, inprogress, review, testing, done`, and within a folder
the direct file takes precedence over developer-subfolder matches: the
implementation equals the reference resolver written from the spec's
tie-break wording. -/
theorem locate_tie_break_order (p : Project) (t : String) :
    locateTask p t = locateTaskSpec p t := by
  unfold locateTask locateTaskSpec
  induction searchFolders with
  | nil => rfl
  | cons f fs ih =>
    rw [locateTaskIn]
    cases hd : getDir p f with
    | none =>
      have hspec : folderHasTaskSpec p t f = false := by
        simp only [folderHasTaskSpec, hd]
      simp only [hd]
      rw [List.find?_cons_of_neg _ (by simp [hspec])]
      exact ih
    | some d =>
      simp only [hd]
      cases hff : findFile d.files (t ++ ".md") with
      | some f0 =>
        have hex : fileExistsIn d.files (t ++ ".md") = true := by
          simp [fileExistsIn, hff]
        have hspec : folderHasTaskSpec p t f = true := by
          simp only [folderHasTaskSpec, hd, hex, Bool.true_or]
        have hloc : locateInDir t d = some none := by
          simp only [locateInDir, hff]
          rw [idCheck_of_name (findFile_name hff)]
          simp
        rw [List.find?_cons_of_pos _ (by simp [hspec])]
        simp only [hloc, hd, hex, if_true]
      | none =>
        have hex : fileExistsIn d.files (t ++ ".md") = false := by
          simp [fileExistsIn, hff]
        have hloc : locateInDir t d = (locateInDevs t d.devs).map some := by
          simp only [locateInDir, hff]
        cases hdev : d.devs.find? (fun dd =>
            !(pyStartsWith "." dd.name) && fileExistsIn dd.files (t ++ ".md")) with
        | some dd =>
          have hpred := List.find?_some hdev
          have hmem := List.mem_of_find?_eq_some hdev
          have hspec : folderHasTaskSpec p t f = true := by
            simp only [folderHasTaskSpec, hd, hex, Bool.false_or]
            exact List.any_eq_true.mpr ⟨dd, hmem, hpred⟩
          rw [List.find?_cons_of_pos _ (by simp [hspec])]
          simp only [hloc, locateInDevs_eq_spec, hdev, hd, hex, Option.map_some]
          simp
        | none =>
          have hspec : folderHasTaskSpec p t f = false := by
            simp only [folderHasTaskSpec, hd, hex, Bool.false_or]
            rw [List.any_eq_false]
            intro dd hdd
            have := List.find?_eq_none.mp hdev dd hdd
            simpa using this
          rw [List.find?_cons_of_neg _ (by simp [hspec])]
          simp only [hloc, locateInDevs_eq_spec, hdev, Option.map_none]
          exact ih

/-! ### Bucket lemmas for writes and directory creation -/

/-- find? on a cons whose head satisfies the predicate. -/
theorem find?_cons_pos {α : Type} (p : α → Bool) (a : α) (l : List α)
    (h : p a = true) : (a :: l).find? p = some a := by
  simp [List.find?, h]

/-- find? on a cons whose head fails the predicate. -/
theorem find?_cons_neg {α : Type} (p : α → Bool) (a : α) (l : List α)
    (h : p a = false) : (a :: l).find? p = l.find? p := by
  simp [List.find?, h]

/-- Writing a file makes it findable with exactly the written content. -/
theorem findFile_writeFileIn (fname c : String) :
    ∀ fs, findFile (writeFileIn fs fname c) fname = some ⟨fname, c⟩ := by
  intro fs
  induction fs with
  | nil => simp [writeFileIn, findFile, List.find?]
  | cons f fs ih =>
    by_cases h : f.name = fname
    · simp [writeFileIn, h, findFile, List.find?]
    · have hb : (f.name == fname) = false := by simp [h]
      simp only [writeFileIn, hb, Bool.false_eq_true, if_false]
      rw [findFile, find?_cons_neg (fun x : MdFile => x.name == fname) _ _ hb]
      exact ih

/-- Finding the modified name after updateFirstDir returns the modified dir. -/
theorem find?_name_updateFirstDir (f : String) (g : StatusDir → StatusDir)
    (hg : ∀ d, (g d).name = d.name) :
    ∀ ds, (updateFirstDir ds f g).find? (fun d => d.name == f) =
      (ds.find? (fun d => d.name == f)).map g := by
  intro ds
  induction ds with
  | nil => rfl
  | cons d ds ih =>
    by_cases h : d.name = f
    · have hb : (d.name == f) = true := by simp [h]
      have hgd : ((g d).name == f) = true := by simp [hg d, h]
      simp only [updateFirstDir, hb, if_true]
      rw [find?_cons_pos (fun d : StatusDir => d.name == f) _ _ hgd,
        find?_cons_pos (fun d : StatusDir => d.name == f) _ _ hb]
      rfl
    · have hb : (d.name == f) = false := by simp [h]
      simp only [updateFirstDir, hb, Bool.false_eq_true, if_false]
      rw [find?_cons_neg (fun d : StatusDir => d.name == f) _ _ hb,
        find?_cons_neg (fun d : StatusDir => d.name == f) _ _ hb]
      exact ih

/-- Finding the modified name after updateFirstDev returns the modified dev. -/
theorem find?_name_updateFirstDev (dv : String) (g : List MdFile → List MdFile) :
    ∀ dds, (updateFirstDev dds dv g).find? (fun dd => dd.name == dv) =
      (dds.find? (fun dd => dd.name == dv)).map
        (fun dd => ⟨dd.name, g dd.files⟩) := by
  intro dds
  induction dds with
  | nil => rfl
  | cons dd dds ih =>
    by_cases h : dd.name = dv
    · have hb : (dd.name == dv) = true := by simp [h]
      simp only [updateFirstDev, hb, if_true]
      rw [find?_cons_pos (fun dd : DevDir => dd.name == dv) _ _ (by simp [h]),
        find?_cons_pos (fun dd : DevDir => dd.name == dv) _ _ hb]
      rfl
    · have hb : (dd.name == dv) = false := by simp [h]
      simp only [updateFirstDev, hb, Bool.false_eq_true, if_false]
      rw [find?_cons_neg (fun dd : DevDir => dd.name == dv) _ _ hb,
        find?_cons_neg (fun dd : DevDir => dd.name == dv) _ _ hb]
      exact ih

/-- After a find?-miss through a whole list, appending answers the search. -/
theorem find?_append_of_none {α : Type} (p : α → Bool) {l1 : List α}
    (h : l1.find? p = none) (l2 : List α) : (l1 ++ l2).find? p = l2.find? p := by
  induction l1 with
  | nil => simp
  | cons x xs ih =>
    rcases hx : p x with hfalse | htrue
    · rw [List.cons_append, find?_cons_neg p _ _ hx]
      rw [find?_cons_neg p _ _ hx] at h
      exact ih h
    · rw [find?_cons_pos p _ _ hx] at h
      cases h

/-- `ensureDir` really makes the addressed bucket exist. -/
theorem bucketExists_ensureDir (p : Project) (f : String) (dev? : Option String) :
    bucketExists (ensureDir p f dev?) f dev? := by
  unfold ensureDir
  cases hd : getDir p f with
  | none =>
    have hmiss : p.dirs.find? (fun d => d.name == f) = none := hd
    cases dev? with
    | none =>
      simp only [bucketExists, getDir]
      rw [find?_append_of_none _ hmiss]
      simp [List.find?]
    | some dv =>
      simp only [bucketExists, getDir]
      rw [find?_append_of_none _ hmiss]
      refine ⟨⟨f, [], [⟨dv, []⟩]⟩, ?_, ?_⟩
      · simp [List.find?]
      · simp [getDev, List.find?]
  | some d =>
    cases dev? with
    | none =>
      simp only [bucketExists, hd]
      rfl
    | some dv =>
      simp only [bucketExists, getDir]
      rw [find?_name_updateFirstDir f _ (fun d => by cases getDev d dv <;> rfl)]
      have hd' : p.dirs.find? (fun x => x.name == f) = some d := hd
      rw [hd']
      refine ⟨_, rfl, ?_⟩
      cases hdev : getDev d dv with
      | some dd =>
        simp only [hdev]
        simp [hdev]
      | none =>
        simp only [hdev]
        have hmiss2 : d.devs.find? (fun x => x.name == dv) = none := hdev
        simp only [getDev]
        rw [find?_append_of_none _ hmiss2]
        simp [List.find?]

/-- The directory-level transformation applied by modifyFilesAt. -/
def dirTransform (dev? : Option String) (g : List MdFile → List MdFile)
    (d : StatusDir) : StatusDir :=
  match dev? with
  | none => ⟨d.name, g d.files, d.devs⟩
  | some dv => ⟨d.name, d.files, updateFirstDev d.devs dv g⟩

/-- modifyFilesAt is updateFirstDir with dirTransform. -/
theorem modifyFilesAt_eq (p : Project) (f : String) (dev? : Option String)
    (g : List MdFile → List MdFile) :
    modifyFilesAt p f dev? g =
      ⟨p.rootFiles, updateFirstDir p.dirs f (dirTransform dev? g)⟩ := by
  unfold modifyFilesAt dirTransform
  cases dev? <;> rfl

/-- dirTransform preserves the folder name. -/
theorem dirTransform_name (dev? : Option String) (g : List MdFile → List MdFile)
    (d : StatusDir) : (dirTransform dev? g d).name = d.name := by
  cases dev? <;> rfl

/-- updateFirstDev preserves existence of every subfolder name. -/
theorem find?_isSome_updateFirstDev (dv dv2 : String) (g : List MdFile → List MdFile) :
    ∀ dds, ((updateFirstDev dds dv2 g).find? (fun dd => dd.name == dv)).isSome =
      (dds.find? (fun dd => dd.name == dv)).isSome := by
  intro dds
  induction dds with
  | nil => rfl
  | cons dd dds ih =>
    by_cases h2 : dd.name = dv2
    · have hb2 : (dd.name == dv2) = true := by simp [h2]
      simp only [updateFirstDev, hb2, if_true]
      by_cases h : dd.name = dv
      · rw [find?_cons_pos (fun dd : DevDir => dd.name == dv) _ _ (by simp [h]),
          find?_cons_pos (fun dd : DevDir => dd.name == dv) _ _ (by simp [h])]
        rfl
      · rw [find?_cons_neg (fun dd : DevDir => dd.name == dv) _ _ (by simp [h]),
          find?_cons_neg (fun dd : DevDir => dd.name == dv) _ _ (by simp [h])]
    · have hb2 : (dd.name == dv2) = false := by simp [h2]
      simp only [updateFirstDev, hb2, Bool.false_eq_true, if_false]
      by_cases h : dd.name = dv
      · rw [find?_cons_pos (fun dd : DevDir => dd.name == dv) _ _ (by simp [h]),
          find?_cons_pos (fun dd : DevDir => dd.name == dv) _ _ (by simp [h])]
      · rw [find?_cons_neg (fun dd : DevDir => dd.name == dv) _ _ (by simp [h]),
          find?_cons_neg (fun dd : DevDir => dd.name == dv) _ _ (by simp [h])]
        exact ih

/-- dirTransform preserves existence of any developer subfolder. -/
theorem getDev_isSome_dirTransform (dev? : Option String)
    (g : List MdFile → List MdFile) (d : StatusDir) (dv : String) :
    (getDev (dirTransform dev? g d) dv).isSome = (getDev d dv).isSome := by
  cases dev? with
  | none => rfl
  | some dv2 =>
    simp only [dirTransform, getDev]
    exact find?_isSome_updateFirstDev dv dv2 g d.devs

/-- updateFirstDir either leaves the searched entry untouched or applies the
transformation to it. -/
theorem find?_updateFirstDir_cases (f f2 : String) (G : StatusDir → StatusDir)
    (hg : ∀ d, (G d).name = d.name) :
    ∀ ds, (updateFirstDir ds f2 G).find? (fun d => d.name == f) =
        ds.find? (fun d => d.name == f) ∨
      ∃ d, ds.find? (fun d => d.name == f) = some d ∧
        (updateFirstDir ds f2 G).find? (fun d => d.name == f) = some (G d) := by
  intro ds
  induction ds with
  | nil => left; rfl
  | cons d ds ih =>
    by_cases h2 : d.name = f2
    · have hb2 : (d.name == f2) = true := by simp [h2]
      simp only [updateFirstDir, hb2, if_true]
      by_cases h : d.name = f
      · right
        refine ⟨d, ?_, ?_⟩
        · rw [find?_cons_pos (fun d : StatusDir => d.name == f) _ _ (by simp [h])]
        · rw [find?_cons_pos (fun d : StatusDir => d.name == f) _ _ (by simp [hg d, h])]
      · left
        rw [find?_cons_neg (fun d : StatusDir => d.name == f) _ _ (by simp [hg d, h]),
          find?_cons_neg (fun d : StatusDir => d.name == f) _ _ (by simp [h])]
    · have hb2 : (d.name == f2) = false := by simp [h2]
      simp only [updateFirstDir, hb2, Bool.false_eq_true, if_false]
      by_cases h : d.name = f
      · left
        rw [find?_cons_pos (fun d : StatusDir => d.name == f) _ _ (by simp [h]),
          find?_cons_pos (fun d : StatusDir => d.name == f) _ _ (by simp [h])]
      · rcases ih with ih1 | ⟨d1, hfound, hcase⟩
        · left
          rw [find?_cons_neg (fun d : StatusDir => d.name == f) _ _ (by simp [h]),
            find?_cons_neg (fun d : StatusDir => d.name == f) _ _ (by simp [h])]
          exact ih1
        · right
          refine ⟨d1, ?_, ?_⟩
          · rw [find?_cons_neg (fun d : StatusDir => d.name == f) _ _ (by simp [h])]
            exact hfound
          · rw [find?_cons_neg (fun d : StatusDir => d.name == f) _ _ (by simp [h])]
            exact hcase

/-- Modifying any bucket preserves existence of every bucket. -/
theorem bucketExists_modifyFilesAt {p : Project} {f : String} {dev? : Option String}
    (hb : bucketExists p f dev?) (f2 : String) (dev2? : Option String)
    (g : List MdFile → List MdFile) :
    bucketExists (modifyFilesAt p f2 dev2? g) f dev? := by
  rw [modifyFilesAt_eq]
  rcases find?_updateFirstDir_cases f f2 (dirTransform dev2? g)
    (dirTransform_name dev2? g) p.dirs with hcase | ⟨d, hfound, hcase⟩
  · cases dev? with
    | none =>
      simp only [bucketExists, getDir] at hb ⊢
      rw [hcase]
      exact hb
    | some dv =>
      simp only [bucketExists, getDir] at hb ⊢
      rcases hb with ⟨d, hd, hdev⟩
      exact ⟨d, by rw [hcase]; exact hd, hdev⟩
  · cases dev? with
    | none =>
      simp only [bucketExists, getDir] at hb ⊢
      rw [hcase]
      rfl
    | some dv =>
      simp only [bucketExists, getDir] at hb ⊢
      rcases hb with ⟨d0, hd0, hdev⟩
      have heq : d0 = d := by
        rw [hd0] at hfound
        exact Option.some.inj hfound
      subst heq
      refine ⟨dirTransform dev2? g d0, hcase, ?_⟩
      rw [getDev_isSome_dirTransform]
      exact hdev

/-- Reading the modified bucket sees the transformation applied. -/
theorem filesAt_modify_self {p : Project} {f : String} {dev? : Option String}
    (hb : bucketExists p f dev?) (g : List MdFile → List MdFile) :
    filesAt (modifyFilesAt p f dev? g) f dev? = g (filesAt p f dev?) := by
  rw [modifyFilesAt_eq]
  cases dev? with
  | none =>
    simp only [bucketExists, getDir] at hb
    rcases Option.isSome_iff_exists.mp hb with ⟨d, hd⟩
    simp only [filesAt, getDir]
    rw [find?_name_updateFirstDir f _ (dirTransform_name none g), hd]
    rfl
  | some dv =>
    rcases hb with ⟨d, hd, hdev⟩
    rcases Option.isSome_iff_exists.mp hdev with ⟨dd, hdd⟩
    simp only [filesAt, getDir]
    have hd' : p.dirs.find? (fun x => x.name == f) = some d := hd
    rw [find?_name_updateFirstDir f _ (dirTransform_name (some dv) g), hd']
    simp only [Option.map_some, dirTransform]
    have hdd' : d.devs.find? (fun x => x.name == dv) = some dd := hdd
    show (match getDev ⟨d.name, d.files, updateFirstDev d.devs dv g⟩ dv with
      | none => []
      | some dd => dd.files) = g (match getDev d dv with
      | none => []
      | some dd => dd.files)
    have hgd : getDev ⟨d.name, d.files, updateFirstDev d.devs dv g⟩ dv =
        some ⟨dd.name, g dd.files⟩ := by
      show (updateFirstDev d.devs dv g).find? (fun x => x.name == dv) =
        some ⟨dd.name, g dd.files⟩
      rw [find?_name_updateFirstDev dv g d.devs, hdd']
      rfl
    have hdm : getDev d dv = some dd := hdd
    rw [hgd, hdm]

/-- After writing into an existing bucket, the file is there with exactly the
written content. -/
theorem fileAt_after_write {p : Project} {f : String} {dev? : Option String}
    (hb : bucketExists p f dev?) (fname c : String) :
    fileAt (modifyFilesAt p f dev? (fun l => writeFileIn l fname c)) f dev? fname =
      some ⟨fname, c⟩ := by
  rw [fileAt, filesAt_modify_self hb]
  exact findFile_writeFileIn fname c _

/-! ### Claim C3: update collision abort is dead code -/

/-- C3 (code bug).  The collision guard of update_task_file is meant to abort
when the destination file belongs to an unrelated task (its own log message
says "Aborting update to prevent overwriting other tasks"), but the guard
also accepts a match of the task id against the destination *filename*, which
is `<task_id>.md` by construction — so the guard never fires.  Concretely:
with t1 stored in backlog and an unrelated file at progress/t1.md whose
content does not contain "t1", updating t1 to progress returns success,
deletes backlog/t1.md, and overwrites progress/t1.md, where the claim (and
the code's own comments) require an aborted update with both files
unchanged. -/
theorem update_overwrites_unrelated_task :
    strContains "t1" "---\ntitle: Other\n---\n\nsome other work" = false ∧
    (update_task_file "2026-01-02T03:04:05" (some c3Project) c3Td).1 = true ∧
    ((update_task_file "2026-01-02T03:04:05" (some c3Project) c3Td).2.map
      (fun p2 => (fileAt p2 "backlog" none "t1.md").isSome)) = some false ∧
    ((update_task_file "2026-01-02T03:04:05" (some c3Project) c3Td).2.map
      (fun p2 => (fileAt p2 "progress" none "t1.md").map (fun f => f.content))) =
      some (some (renderUpdateFile c3Td "progress" "2026-01-02T03:04:05")) := by
  refine ⟨by decide, by decide, by decide, by decide⟩

/-! ### Claim C4: timestamp auto-tracking -/

set_option maxHeartbeats 2000000 in
/-- C4 (amended).  update_task_file writes started_at/done_at from the
caller-supplied task record only: the supplied value, when set, is written
unchanged (never cleared by the update itself); when it is unset and the new
status is progress/inprogress (resp. done), the current time is written.  A
value stored in the task's file survives an update only if the caller echoes
it back — update never reads the old file's frontmatter, so an update that
omits started_at while moving to a non-progress status drops the stored value
(see the counterexample). -/
theorem update_timestamp_autoset_amended :
    (∀ td ns now, ¬ optFalsy td.started_at = true →
      autoStartedAt td ns now = td.started_at) ∧
    (∀ td ns now, (ns = "progress" ∨ ns = "inprogress") →
      optFalsy td.started_at = true → autoStartedAt td ns now = some now) ∧
    (∀ td ns now, ¬ (ns = "progress" ∨ ns = "inprogress") →
      autoStartedAt td ns now = td.started_at) ∧
    (∀ td ns now, ¬ optFalsy td.done_at = true → autoDoneAt td ns now = td.done_at) ∧
    (∀ td ns now, ns = "done" → optFalsy td.done_at = true →
      autoDoneAt td ns now = some now) ∧
    (∀ td ns now, ns ≠ "done" → autoDoneAt td ns now = td.done_at) ∧
    (∀ td ns now,
      ((updFrontmatter td ns now).find? (fun kv => kv.1 == "started_at")).map
        (fun kv => kv.2) = some ((autoStartedAt td ns now).map FMVal.str) ∧
      ((updFrontmatter td ns now).find? (fun kv => kv.1 == "done_at")).map
        (fun kv => kv.2) = some ((autoDoneAt td ns now).map FMVal.str)) ∧
    (∀ now st td p', update_task_file now st td = (true, some p') →
      ∃ floc dloc, fileAt p' floc dloc (td.id ++ ".md") =
        some ⟨td.id ++ ".md", renderUpdateFile td (newStatusOf td) now⟩) := by
  refine ⟨?_, ?_, ?_, ?_, ?_, ?_, ?_, ?_⟩
  · intro td ns now h
    unfold autoStartedAt
    rw [if_neg]
    rintro ⟨-, h2⟩
    exact h h2
  · intro td ns now h1 h2
    unfold autoStartedAt
    rw [if_pos ⟨h1, h2⟩]
  · intro td ns now h
    unfold autoStartedAt
    rw [if_neg]
    rintro ⟨h1, -⟩
    exact h h1
  · intro td ns now h
    unfold autoDoneAt
    rw [if_neg]
    rintro ⟨-, h2⟩
    exact h h2
  · intro td ns now h1 h2
    unfold autoDoneAt
    rw [if_pos ⟨h1, h2⟩]
  · intro td ns now h
    unfold autoDoneAt
    rw [if_neg]
    rintro ⟨h1, -⟩
    exact h h1
  · intro td ns now
    constructor <;> rfl
  · intro now st td p' h
    cases st with
    | none => simp [update_task_file] at h
    | some p =>
      rcases hloc : locateTask p td.id with _ | loc
      · rw [update_task_file, hloc] at h
        simp at h
      · rw [update_task_file, hloc] at h
        simp only at h
        repeat' split at h
        all_goals rw [Prod.mk.injEq] at h
        all_goals obtain ⟨hflag, hstate⟩ := h
        all_goals
          first
            | exact absurd hflag (by decide)
            | (injection hstate with h3
               subst h3
               first
                 | exact ⟨_, _, fileAt_after_write (bucketExists_ensureDir p _ _) _ _⟩
                 | exact ⟨_, _, fileAt_after_write
                     (bucketExists_modifyFilesAt (bucketExists_ensureDir p _ _) _ _ _) _ _⟩)

/-- Witness for C4 at concrete inputs: auto-set on entering progress, supplied
values preserved, and the written file of the concrete update c4. -/
theorem update_timestamp_autoset_amended_witness :
    autoStartedAt { emptyTaskData "t1" with status := some "progress" } "progress" "NOW" = some "NOW" ∧
    autoStartedAt { emptyTaskData "t1" with started_at := some "S1" } "review" "NOW" = some "S1" ∧
    autoDoneAt { emptyTaskData "t1" with done_at := some "D1" } "done" "NOW" = some "D1" ∧
    autoDoneAt { emptyTaskData "t1" with status := some "done" } "done" "NOW" = some "NOW" ∧
    (∃ floc dloc, fileAt c4Result floc dloc ("t1" ++ ".md") =
      some ⟨"t1" ++ ".md", renderUpdateFile c4Td (newStatusOf c4Td) "2026-02-02T10:00:00"⟩) := by
  refine ⟨?_, ?_, ?_, ?_, ?_⟩
  · exact update_timestamp_autoset_amended.2.1 _ "progress" "NOW" (Or.inl rfl) (by decide)
  · exact update_timestamp_autoset_amended.1 _ "review" "NOW" (by decide)
  · exact update_timestamp_autoset_amended.2.2.2.1 _ "done" "NOW" (by decide)
  · exact update_timestamp_autoset_amended.2.2.2.2.1 _ "done" "NOW" rfl (by decide)
  · exact update_timestamp_autoset_amended.2.2.2.2.2.2.2 "2026-02-02T10:00:00"
      (some c4Project) c4Td c4Result rfl

/-- Counterexample to C4 as stated: the stored file of t1 has
started_at 2026-01-01T00:00:00, the update (status review, no started_at in
the payload) succeeds, and the rewritten file's frontmatter has no started_at
key at all — the already-set field did not survive the update. -/
theorem update_drops_omitted_started_at :
    ((parse_task_file "t1" (some c4FileContent)).map (fun r => r.started_at)) =
      some "2026-01-01T00:00:00" ∧
    (update_task_file "2026-02-02T10:00:00" (some c4Project) c4Td).1 = true ∧
    ((update_task_file "2026-02-02T10:00:00" (some c4Project) c4Td).2.map
      (fun p2 => (fileAt p2 "review" none "t1.md").map
        (fun f => pyDictGetOpt (task_file_meta f.content) "started_at"))) =
      some (some none) := by
  refine ⟨by decide, by decide, by decide⟩

/-! ### Counting lemmas for the identity invariant -/

/-- countNamed through the helper counters. -/
theorem countNamed_eq (n : String) (p : Project) :
    countNamed n (some p) =
      cntN n p.rootFiles + (p.dirs.map (dirCountN n)).sum := rfl

/-- Exact file count after a write: unchanged when the name was present
(overwrite), else one more when the written name is the counted one. -/
theorem cntN_writeFileIn (n m c : String) : ∀ fs,
    cntN n (writeFileIn fs m c) =
      cntN n fs + (if fileExistsIn fs m then 0 else if m = n then 1 else 0) := by
  intro fs
  induction fs with
  | nil =>
    by_cases h : m = n <;>
      simp [writeFileIn, cntN, fileExistsIn, findFile, List.find?, List.countP_cons, h]
  | cons f fs ih =>
    by_cases hf : f.name = m
    · have hex : fileExistsIn (f :: fs) m = true := by
        simp [fileExistsIn, findFile, List.find?, hf]
      have hb : (f.name == m) = true := by simp [hf]
      simp only [writeFileIn, hb, if_true, hex, if_true]
      simp [cntN, List.countP_cons, hf]
    · have hb : (f.name == m) = false := by simp [hf]
      have hex : fileExistsIn (f :: fs) m = fileExistsIn fs m := by
        simp [fileExistsIn, findFile, List.find?, hb]
      simp only [writeFileIn, hb, Bool.false_eq_true, if_false, hex]
      simp only [cntN, List.countP_cons] at ih ⊢
      rw [ih]
      omega

/-- A write never adds more than one file of any name. -/
theorem cntN_writeFileIn_le (n m c : String) (fs : List MdFile) :
    cntN n (writeFileIn fs m c) ≤ cntN n fs + 1 := by
  rw [cntN_writeFileIn]
  split <;> [omega; split <;> omega]

/-- Writing a different name leaves the count unchanged. -/
theorem cntN_writeFileIn_other (n m c : String) (hmn : m ≠ n) (fs : List MdFile) :
    cntN n (writeFileIn fs m c) = cntN n fs := by
  rw [cntN_writeFileIn, if_neg hmn]
  split <;> omega

/-- Overwriting an existing name leaves the count unchanged. -/
theorem cntN_writeFileIn_present (n m c : String) (fs : List MdFile)
    (h : fileExistsIn fs m = true) : cntN n (writeFileIn fs m c) = cntN n fs := by
  rw [cntN_writeFileIn, h]
  simp

/-- Removing a file never increases any count. -/
theorem cntN_removeFileIn_le (n m : String) : ∀ fs,
    cntN n (removeFileIn fs m) ≤ cntN n fs := by
  intro fs
  induction fs with
  | nil => exact Nat.le_refl _
  | cons f fs ih =>
    by_cases hf : f.name = m
    · have hb : (f.name == m) = true := by simp [hf]
      simp only [removeFileIn, hb, if_true]
      simp only [cntN, List.countP_cons]
      omega
    · have hb : (f.name == m) = false := by simp [hf]
      simp only [removeFileIn, hb, Bool.false_eq_true, if_false]
      simp only [cntN, List.countP_cons] at ih ⊢
      omega

/-- Removing a present file of the counted name decrements the count. -/
theorem cntN_removeFileIn_present (n : String) : ∀ fs,
    fileExistsIn fs n = true → cntN n (removeFileIn fs n) + 1 = cntN n fs := by
  intro fs
  induction fs with
  | nil => intro h; simp [fileExistsIn, findFile, List.find?] at h
  | cons f fs ih =>
    intro h
    by_cases hf : f.name = n
    · have hb : (f.name == n) = true := by simp [hf]
      simp only [removeFileIn, hb, if_true]
      simp [cntN, List.countP_cons, hb]
    · have hb : (f.name == n) = false := by simp [hf]
      have hex : fileExistsIn fs n = true := by
        simp only [fileExistsIn, findFile] at h
        rw [find?_cons_neg (fun x : MdFile => x.name == n) _ _ hb] at h
        exact h
      simp only [removeFileIn, hb, Bool.false_eq_true, if_false]
      simp only [cntN, List.countP_cons, hb] at ih ⊢
      rw [← ih hex]
      omega

/-- Removing a file of a different name leaves the count unchanged. -/
theorem cntN_removeFileIn_other (n m : String) (hmn : m ≠ n) : ∀ fs,
    cntN n (removeFileIn fs m) = cntN n fs := by
  intro fs
  induction fs with
  | nil => rfl
  | cons f fs ih =>
    by_cases hf : f.name = m
    · have hb : (f.name == m) = true := by simp [hf]
      have hn : (f.name == n) = false := by simp [hf, hmn]
      simp only [removeFileIn, hb, if_true]
      simp [cntN, List.countP_cons, hn]
    · have hb : (f.name == m) = false := by simp [hf]
      simp only [removeFileIn, hb, Bool.false_eq_true, if_false]
      simp only [cntN, List.countP_cons] at ih ⊢
      omega

/-- Folder-sum bookkeeping for a first-match directory update. -/
theorem sum_updateFirstDir (F : StatusDir → Nat) (f : String) (G : StatusDir → StatusDir) :
    ∀ ds d0, ds.find? (fun d => d.name == f) = some d0 →
      ((updateFirstDir ds f G).map F).sum + F d0 = (ds.map F).sum + F (G d0) := by
  intro ds
  induction ds with
  | nil => intro d0 h; cases h
  | cons d ds ih =>
    intro d0 h
    by_cases hf : d.name = f
    · have hb : (d.name == f) = true := by simp [hf]
      rw [find?_cons_pos (fun d : StatusDir => d.name == f) _ _ hb] at h
      injection h with h0
      subst h0
      simp only [updateFirstDir, hb, if_true, List.map_cons, List.sum_cons]
      omega
    · have hb : (d.name == f) = false := by simp [hf]
      rw [find?_cons_neg (fun d : StatusDir => d.name == f) _ _ hb] at h
      simp only [updateFirstDir, hb, Bool.false_eq_true, if_false, List.map_cons,
        List.sum_cons]
      have := ih d0 h
      omega

/-- Folder-sum invariance when the update does not change the measure. -/
theorem sum_updateFirstDir_eq (F : StatusDir → Nat) (f : String)
    (G : StatusDir → StatusDir) (hG : ∀ d, F (G d) = F d) :
    ∀ ds, ((updateFirstDir ds f G).map F).sum = (ds.map F).sum := by
  intro ds
  induction ds with
  | nil => rfl
  | cons d ds ih =>
    by_cases hf : d.name = f
    · have hb : (d.name == f) = true := by simp [hf]
      simp only [updateFirstDir, hb, if_true, List.map_cons, List.sum_cons, hG d]
    · have hb : (d.name == f) = false := by simp [hf]
      simp only [updateFirstDir, hb, Bool.false_eq_true, if_false, List.map_cons,
        List.sum_cons, ih]

/-- Developer-sum bookkeeping for a first-match subfolder update. -/
theorem sum_updateFirstDev (n dv : String) (g : List MdFile → List MdFile) :
    ∀ dds dd0, dds.find? (fun x => x.name == dv) = some dd0 →
      ((updateFirstDev dds dv g).map (fun dd => cntN n dd.files)).sum + cntN n dd0.files =
        (dds.map (fun dd => cntN n dd.files)).sum + cntN n (g dd0.files) := by
  intro dds
  induction dds with
  | nil => intro dd0 h; cases h
  | cons dd dds ih =>
    intro dd0 h
    by_cases hf : dd.name = dv
    · have hb : (dd.name == dv) = true := by simp [hf]
      rw [find?_cons_pos (fun x : DevDir => x.name == dv) _ _ hb] at h
      injection h with h0
      subst h0
      simp only [updateFirstDev, hb, if_true, List.map_cons, List.sum_cons]
      omega
    · have hb : (dd.name == dv) = false := by simp [hf]
      rw [find?_cons_neg (fun x : DevDir => x.name == dv) _ _ hb] at h
      simp only [updateFirstDev, hb, Bool.false_eq_true, if_false, List.map_cons,
        List.sum_cons]
      have := ih dd0 h
      omega

/-- A find? hit survives appending. -/
theorem find?_append_of_some {α : Type} (p : α → Bool) {l1 : List α} {x : α}
    (h : l1.find? p = some x) (l2 : List α) : (l1 ++ l2).find? p = some x := by
  induction l1 with
  | nil => cases h
  | cons y ys ih =>
    rcases hy : p y with hfalse | htrue
    · rw [find?_cons_neg p _ _ hy] at h
      rw [List.cons_append, find?_cons_neg p _ _ hy]
      exact ih h
    · rw [find?_cons_pos p _ _ hy] at h
      rw [List.cons_append, find?_cons_pos p _ _ hy]
      exact h

/-- Bucket-level bookkeeping for modifyFilesAt: the total count changes
exactly by the change the transformation makes to the addressed bucket. -/
theorem countNamed_modifyFilesAt_eq (n : String) (p : Project) (f : String)
    (dev? : Option String) (g : List MdFile → List MdFile)
    (hb : bucketExists p f dev?) :
    countNamed n (some (modifyFilesAt p f dev? g)) + cntN n (filesAt p f dev?) =
      countNamed n (some p) + cntN n (g (filesAt p f dev?)) := by
  rw [modifyFilesAt_eq, countNamed_eq, countNamed_eq]
  dsimp only
  cases dev? with
  | none =>
    rcases Option.isSome_iff_exists.mp hb with ⟨d0, hd0⟩
    have hd0' : p.dirs.find? (fun x => x.name == f) = some d0 := hd0
    have hsum := sum_updateFirstDir (dirCountN n) f (dirTransform none g) p.dirs d0 hd0'
    have hfa : filesAt p f none = d0.files := by
      simp only [filesAt, getDir, hd0']
    rw [hfa]
    have h1 : dirCountN n (dirTransform none g d0) =
        cntN n (g d0.files) + (d0.devs.map (fun dd => cntN n dd.files)).sum := rfl
    have h2 : dirCountN n d0 =
        cntN n d0.files + (d0.devs.map (fun dd => cntN n dd.files)).sum := rfl
    omega
  | some dv =>
    rcases hb with ⟨d0, hd0, hdev⟩
    rcases Option.isSome_iff_exists.mp hdev with ⟨dd0, hdd0⟩
    have hd0' : p.dirs.find? (fun x => x.name == f) = some d0 := hd0
    have hdd0' : d0.devs.find? (fun x => x.name == dv) = some dd0 := hdd0
    have hsum := sum_updateFirstDir (dirCountN n) f (dirTransform (some dv) g) p.dirs d0 hd0'
    have hdevsum := sum_updateFirstDev n dv g d0.devs dd0 hdd0'
    have hfa : filesAt p f (some dv) = dd0.files := by
      simp only [filesAt, getDir, hd0', getDev, hdd0']
    rw [hfa]
    have h1 : dirCountN n (dirTransform (some dv) g d0) =
        cntN n d0.files +
          ((updateFirstDev d0.devs dv g).map (fun dd => cntN n dd.files)).sum := rfl
    have h2 : dirCountN n d0 =
        cntN n d0.files + (d0.devs.map (fun dd => cntN n dd.files)).sum := rfl
    omega

/-- Creating directories never changes any file count. -/
theorem countNamed_ensureDir (n : String) (p : Project) (f : String)
    (dev? : Option String) :
    countNamed n (some (ensureDir p f dev?)) = countNamed n (some p) := by
  unfold ensureDir
  cases hd : getDir p f with
  | none =>
    cases dev? with
    | none =>
      rw [countNamed_eq, countNamed_eq]
      simp [dirCountN, cntN]
    | some dv =>
      rw [countNamed_eq, countNamed_eq]
      simp [dirCountN, cntN]
  | some d =>
    cases dev? with
    | none => rfl
    | some dv =>
      rw [countNamed_eq, countNamed_eq]
      congr 1
      apply sum_updateFirstDir_eq
      intro d1
      cases hdev : getDev d1 dv with
      | some dd => simp only [hdev]
      | none =>
        simp only [hdev]
        simp [dirCountN, cntN]

/-- Creating directories never changes the files of any bucket. -/
theorem filesAt_ensureDir (p : Project) (f : String) (dev? : Option String)
    (f0 : String) (dev0 : Option String) :
    filesAt (ensureDir p f dev?) f0 dev0 = filesAt p f0 dev0 := by
  unfold ensureDir
  cases hd : getDir p f with
  | none =>
    have hmiss : p.dirs.find? (fun d => d.name == f) = none := hd
    simp only [filesAt, getDir]
    cases hf0 : p.dirs.find? (fun d => d.name == f0) with
    | some d0 =>
      rw [find?_append_of_some _ hf0]
    | none =>
      rw [find?_append_of_none _ hf0]
      by_cases hff : f = f0
      · subst hff
        cases dev? with
        | none =>
          rw [find?_cons_pos (fun d : StatusDir => d.name == f) _ _ (by simp)]
          cases dev0 <;> simp [getDev, List.find?]
        | some dv =>
          rw [find?_cons_pos (fun d : StatusDir => d.name == f) _ _ (by simp)]
          cases dev0 with
          | none => rfl
          | some dv0 =>
            by_cases hdv : dv = dv0
            · subst hdv
              simp [getDev, List.find?]
            · simp only [getDev, List.find?]
              have : (dv == dv0) = false := by simp [hdv]
              simp [this]
      · have : (f == f0) = false := by simp [hff]
        cases dev? <;> simp [List.find?, this]
  | some d =>
    cases dev? with
    | none => rfl
    | some dv =>
      simp only [filesAt, getDir]
      rcases find?_updateFirstDir_cases f0 f
        (fun d => match getDev d dv with
          | some _ => d
          | none => ⟨d.name, d.files, d.devs ++ [⟨dv, []⟩]⟩)
        (fun d => by cases hdev : getDev d dv <;> simp [hdev]) p.dirs with hcase | ⟨d1, hfound, hcase⟩
      · rw [hcase]
      · rw [hcase, hfound]
        cases hdev : getDev d1 dv with
        | some dd => simp only [hdev]
        | none =>
          simp only [hdev]
          cases dev0 with
          | none => rfl
          | some dv0 =>
            have hmiss2 : d1.devs.find? (fun x => x.name == dv) = none := hdev
            simp only [getDev]
            cases hf1 : d1.devs.find? (fun x => x.name == dv0) with
            | some dd1 =>
              rw [find?_append_of_some _ hf1]
            | none =>
              rw [find?_append_of_none _ hf1]
              by_cases hdv : dv = dv0
              · subst hdv
                simp [List.find?]
              · have : (dv == dv0) = false := by simp [hdv]
                simp [List.find?, this]

/-- A bucket from which a file was read exists. -/
theorem bucketExists_of_fileAt {p : Project} {f : String} {dev? : Option String}
    {n : String} {x : MdFile} (h : fileAt p f dev? n = some x) :
    bucketExists p f dev? := by
  unfold fileAt filesAt at h
  cases hd : getDir p f with
  | none =>
    simp only [hd] at h
    simp [findFile, List.find?] at h
  | some d =>
    simp only [hd] at h
    cases dev? with
    | none => simp [bucketExists, hd]
    | some dv =>
      cases hdev : getDev d dv with
      | none =>
        simp only [hdev] at h
        simp [findFile, List.find?] at h
      | some dd =>
        exact ⟨d, hd, by simp [hdev]⟩

/-- In a list of uniquely-named subfolders, a member is found by its name. -/
theorem find?_name_of_mem_nodup {dds : List DevDir}
    (hnd : (dds.map (fun dd => dd.name)).Nodup) {dd : DevDir} (hm : dd ∈ dds) :
    dds.find? (fun x => x.name == dd.name) = some dd := by
  induction dds with
  | nil => cases hm
  | cons d1 dds ih =>
    simp only [List.map_cons, List.nodup_cons] at hnd
    rcases List.mem_cons.mp hm with rfl | hm'
    · rw [find?_cons_pos (fun x : DevDir => x.name == dd.name) _ _ (by simp)]
    · have hne : d1.name ≠ dd.name := by
        intro he
        exact hnd.1 (he ▸ List.mem_map_of_mem _ hm')
      rw [find?_cons_neg (fun x : DevDir => x.name == dd.name) _ _ (by simp [hne])]
      exact ih hnd.2 hm'

/-- A located task really sits in an existing bucket holding its file. -/
theorem locate_found_file {p : Project} {t : String} (hwf : wfProject p) :
    ∀ (fs : List String) (f : String) (dev? : Option String),
      locateTaskIn p t fs = some (f, dev?) →
      bucketExists p f dev? ∧ fileExistsIn (filesAt p f dev?) (t ++ ".md") = true := by
  intro fs
  induction fs with
  | nil => intro f dev? h; cases h
  | cons f1 fs ih =>
    intro f dev? h
    rw [locateTaskIn] at h
    cases hd : getDir p f1 with
    | none =>
      simp only [hd] at h
      exact ih f dev? h
    | some d =>
      simp only [hd] at h
      cases hld : locateInDir t d with
      | none =>
        simp only [hld] at h
        exact ih f dev? h
      | some dev1 =>
        simp only [hld] at h
        injection h with h1
        injection h1 with hf hdev
        subst hf
        subst hdev
        have hmemd : d ∈ p.dirs := List.mem_of_find?_eq_some hd
        unfold locateInDir at hld
        cases hff : findFile d.files (t ++ ".md") with
        | some f0 =>
          simp only [hff] at hld
          rw [idCheck_of_name (findFile_name hff)] at hld
          simp only [if_true] at hld
          injection hld with hld1
          subst hld1
          constructor
          · show (getDir p f1).isSome = true
            rw [hd]
            rfl
          · have hfa : filesAt p f1 none = d.files := by
              simp only [filesAt, hd]
            rw [hfa]
            simp [fileExistsIn, hff]
        | none =>
          simp only [hff] at hld
          rw [locateInDevs_eq_spec] at hld
          cases hfd : d.devs.find? (fun dd =>
              !(pyStartsWith "." dd.name) && fileExistsIn dd.files (t ++ ".md")) with
          | none => rw [hfd] at hld; cases hld
          | some dd =>
            rw [hfd] at hld
            simp only [Option.map_some'] at hld
            injection hld with hld1
            subst hld1
            have hmemdd : dd ∈ d.devs := List.mem_of_find?_eq_some hfd
            have hpred := List.find?_some hfd
            have hex : fileExistsIn dd.files (t ++ ".md") = true := by
              simp only [Bool.and_eq_true] at hpred
              exact hpred.2
            have hgd : getDev d dd.name = some dd :=
              find?_name_of_mem_nodup (hwf.2 d hmemd) hmemdd
            refine ⟨⟨d, hd, by simp [hgd]⟩, ?_⟩
            have hfa : filesAt p f1 (some dd.name) = dd.files := by
              simp only [filesAt, hd, hgd]
            rw [hfa]
            exact hex

/-- Appending the same suffix to equal-result strings forces equal prefixes. -/
theorem strAppend_right_cancel {a b c : String} (h : a ++ c = b ++ c) : a = b := by
  have hd := congrArg String.data h
  simp only [String.data_append] at hd
  have h2 := List.append_cancel_right hd
  cases a; cases b; exact congrArg String.mk h2

/-- A name-preserving first-match update keeps the folder name list. -/
theorem names_updateFirstDir (f : String) (G : StatusDir → StatusDir)
    (hg : ∀ d, (G d).name = d.name) :
    ∀ ds, (updateFirstDir ds f G).map (fun d => d.name) =
      ds.map (fun d => d.name) := by
  intro ds
  induction ds with
  | nil => rfl
  | cons d ds ih =>
    by_cases h : d.name = f
    · have hb : (d.name == f) = true := by simp [h]
      simp only [updateFirstDir, hb, if_true, List.map_cons, hg d]
    · have hb : (d.name == f) = false := by simp [h]
      simp only [updateFirstDir, hb, Bool.false_eq_true, if_false, List.map_cons, ih]

/-- Every folder of a first-match update is an old folder or its image. -/
theorem mem_updateFirstDir {x : StatusDir} (f : String) (G : StatusDir → StatusDir) :
    ∀ ds, x ∈ updateFirstDir ds f G → x ∈ ds ∨ ∃ d ∈ ds, x = G d := by
  intro ds
  induction ds with
  | nil => intro h; cases h
  | cons d ds ih =>
    intro h
    by_cases hf : d.name = f
    · have hb : (d.name == f) = true := by simp [hf]
      simp only [updateFirstDir, hb, if_true] at h
      rcases List.mem_cons.mp h with rfl | h'
      · exact Or.inr ⟨d, List.mem_cons_self d ds, rfl⟩
      · exact Or.inl (List.mem_cons_of_mem d h')
    · have hb : (d.name == f) = false := by simp [hf]
      simp only [updateFirstDir, hb, Bool.false_eq_true, if_false] at h
      rcases List.mem_cons.mp h with rfl | h'
      · exact Or.inl (List.mem_cons_self x ds)
      · rcases ih h' with h1 | ⟨d1, hd1, rfl⟩
        · exact Or.inl (List.mem_cons_of_mem d h1)
        · exact Or.inr ⟨d1, List.mem_cons_of_mem d hd1, rfl⟩

/-- A first-match subfolder update keeps the developer name list. -/
theorem names_updateFirstDev (dv : String) (g : List MdFile → List MdFile) :
    ∀ dds, (updateFirstDev dds dv g).map (fun dd => dd.name) =
      dds.map (fun dd => dd.name) := by
  intro dds
  induction dds with
  | nil => rfl
  | cons dd dds ih =>
    by_cases h : dd.name = dv
    · have hb : (dd.name == dv) = true := by simp [h]
      simp only [updateFirstDev, hb, if_true, List.map_cons]
    · have hb : (dd.name == dv) = false := by simp [h]
      simp only [updateFirstDev, hb, Bool.false_eq_true, if_false, List.map_cons, ih]

/-- Modifying a bucket preserves well-formedness. -/
theorem wfProject_modifyFilesAt (p : Project) (f : String) (dev? : Option String)
    (g : List MdFile → List MdFile) (hwf : wfProject p) :
    wfProject (modifyFilesAt p f dev? g) := by
  rw [modifyFilesAt_eq]
  refine ⟨?_, ?_⟩
  · show ((updateFirstDir p.dirs f (dirTransform dev? g)).map (fun d => d.name)).Nodup
    rw [names_updateFirstDir f _ (dirTransform_name dev? g)]
    exact hwf.1
  · intro d hd
    rcases mem_updateFirstDir f _ p.dirs hd with hmem | ⟨d1, hd1, rfl⟩
    · exact hwf.2 d hmem
    · cases dev? with
      | none => exact hwf.2 d1 hd1
      | some dv =>
        show ((updateFirstDev d1.devs dv g).map (fun dd => dd.name)).Nodup
        rw [names_updateFirstDev]
        exact hwf.2 d1 hd1

/-- Creating directories preserves well-formedness. -/
theorem wfProject_ensureDir (p : Project) (f : String) (dev? : Option String)
    (hwf : wfProject p) : wfProject (ensureDir p f dev?) := by
  unfold ensureDir
  cases hd : getDir p f with
  | none =>
    have hmiss : f ∉ p.dirs.map (fun d => d.name) := by
      intro hmem
      rcases List.mem_map.mp hmem with ⟨d, hd2, hname⟩
      have := List.find?_eq_none.mp hd d hd2
      simp [hname] at this
    cases dev? with
    | none =>
      refine ⟨?_, ?_⟩
      · show ((p.dirs ++ [(⟨f, [], []⟩ : StatusDir)]).map (fun d => d.name)).Nodup
        rw [List.map_append]
        simp [List.nodup_append, hwf.1, hmiss]
      · intro d hdm
        rcases List.mem_append.mp hdm with h1 | h2
        · exact hwf.2 d h1
        · have heq : d = (⟨f, [], []⟩ : StatusDir) := List.mem_singleton.mp h2
          subst heq
          simp
    | some dv =>
      refine ⟨?_, ?_⟩
      · show ((p.dirs ++ [(⟨f, [], [⟨dv, []⟩]⟩ : StatusDir)]).map
            (fun d => d.name)).Nodup
        rw [List.map_append]
        simp [List.nodup_append, hwf.1, hmiss]
      · intro d hdm
        rcases List.mem_append.mp hdm with h1 | h2
        · exact hwf.2 d h1
        · have heq : d = (⟨f, [], [⟨dv, []⟩]⟩ : StatusDir) :=
            List.mem_singleton.mp h2
          subst heq
          simp
  | some d0 =>
    cases dev? with
    | none => exact hwf
    | some dv =>
      refine ⟨?_, ?_⟩
      · show ((updateFirstDir p.dirs f (fun d =>
            match getDev d dv with
            | some _ => d
            | none => ⟨d.name, d.files, d.devs ++ [⟨dv, []⟩]⟩)).map
              (fun d => d.name)).Nodup
        rw [names_updateFirstDir f _ (by
          intro d
          cases h : getDev d dv <;> simp only [h])]
        exact hwf.1
      · intro d hdm
        rcases mem_updateFirstDir f _ p.dirs hdm with hmem | ⟨d1, hd1, rfl⟩
        · exact hwf.2 d hmem
        · cases h : getDev d1 dv with
          | some dd => simp only [h]; exact hwf.2 d1 hd1
          | none =>
            simp only [h]
            show ((d1.devs ++ [(⟨dv, []⟩ : DevDir)]).map (fun dd => dd.name)).Nodup
            have hmiss : dv ∉ d1.devs.map (fun dd => dd.name) := by
              intro hmem
              rcases List.mem_map.mp hmem with ⟨dd, hdd2, hname⟩
              have := List.find?_eq_none.mp h dd hdd2
              simp [hname] at this
            rw [List.map_append]
            simp [List.nodup_append, hwf.2 d1 hd1, hmiss]

/-- The directory skeleton create_project builds is well formed. -/
theorem wfProject_skeleton (desc : String) : wfProject (projectSkeleton desc) := by
  refine ⟨?_, ?_⟩
  · show (((["backlog", "inprogress", "review", "done", "testing"] : List String).map
      (fun c => (⟨c, [], [⟨default_dev, []⟩]⟩ : StatusDir))).map
        (fun d => d.name)).Nodup
    decide
  · intro d hd
    simp only [projectSkeleton, List.map_cons, List.map_nil, List.mem_cons,
      List.not_mem_nil, or_false] at hd
    rcases hd with rfl | rfl | rfl | rfl | rfl <;> decide

/-- create_project preserves well-formedness of the state. -/
theorem wf_create_project (pd : ProjectData) (st : Option Project)
    (hwf : wfState st) : wfState (create_project pd st).2 := by
  obtain ⟨pid?, pdesc⟩ := pd
  cases pid? with
  | none => exact hwf
  | some pid =>
    by_cases hp : pid = ""
    · simp only [create_project, if_pos hp]
      exact hwf
    · simp only [create_project, if_neg hp]
      cases st with
      | some p => exact hwf
      | none => exact wfProject_skeleton _

/-- update_task_file preserves well-formedness of the state. -/
theorem wf_update (now : String) (td : TaskData) :
    ∀ st, wfState st → wfState (update_task_file now st td).2 := by
  intro st hwf
  cases st with
  | none => trivial
  | some p =>
    simp only [update_task_file]
    repeat' split
    all_goals first
      | exact hwf
      | exact wfProject_ensureDir _ _ _ hwf
      | exact wfProject_modifyFilesAt _ _ _ _ (wfProject_ensureDir _ _ _ hwf)
      | exact wfProject_modifyFilesAt _ _ _ _
          (wfProject_modifyFilesAt _ _ _ _ (wfProject_ensureDir _ _ _ hwf))

/-- create_task_file preserves well-formedness of the state. -/
theorem wf_create (now pid : String) (td : TaskData) :
    ∀ st, wfState st → wfState (create_task_file now pid st td).2 := by
  intro st hwf
  cases st with
  | some p =>
    simp only [create_task_file]
    repeat' split
    all_goals first
      | trivial
      | exact hwf
      | exact wfProject_ensureDir _ _ _ hwf
      | exact wfProject_modifyFilesAt _ _ _ _ (wfProject_ensureDir _ _ _ hwf)
  | none =>
    have hcp : wfState (create_project ⟨some pid,
        some ("Auto-created project " ++ pid)⟩ none).2 :=
      wf_create_project _ none trivial
    simp only [create_task_file]
    split
    · trivial
    · rename_i p heq
      have hp : wfProject p := by rw [heq] at hcp; exact hcp
      repeat' split
      all_goals first
        | exact wfProject_ensureDir _ _ _ hp
        | exact wfProject_modifyFilesAt _ _ _ _ (wfProject_ensureDir _ _ _ hp)

/-- The deletion search only removes a file, preserving well-formedness. -/
theorem wf_deleteIn (p : Project) (fname : String) (hwf : wfProject p) :
    ∀ fs p2, deleteIn p fname fs = some p2 → wfProject p2 := by
  intro fs
  induction fs with
  | nil => intro p2 h; cases h
  | cons f fs ih =>
    intro p2 h
    simp only [deleteIn] at h
    repeat' split at h
    all_goals first
      | exact ih p2 h
      | (injection h with h1; exact h1 ▸ wfProject_modifyFilesAt _ _ _ _ hwf)

/-- The deletion handler preserves well-formedness of the state. -/
theorem wf_delete (tid : String) :
    ∀ st, wfState st → wfState (delete_task st tid).2 := by
  intro st hwf
  cases st with
  | none => trivial
  | some p =>
    simp only [delete_task]
    split
    · rename_i p2 heq
      exact wf_deleteIn p _ hwf _ p2 heq
    · exact hwf

/-- Every reachable operation preserves well-formedness of the state. -/
theorem wf_applyOp (now pid : String) (op : TaskOp) :
    ∀ st, wfState st → wfState (applyOp now pid st op) := by
  intro st hwf
  cases op with
  | create td => exact wf_create now pid td st hwf
  | update td => exact wf_update now td st hwf
  | delete tid => exact wf_delete tid st hwf

/-- Every reachable operation sequence preserves well-formedness. -/
theorem wf_applyOps (now pid : String) :
    ∀ ops st, wfState st → wfState (applyOps now pid st ops) := by
  intro ops
  induction ops with
  | nil => intro st hwf; exact hwf
  | cons op ops ih =>
    intro st hwf
    rw [applyOps]
    exact ih _ (wf_applyOp now pid op st hwf)


/-- The state component of an operation result. -/
theorem countNamed_snd (n : String) (b : Bool) (st : Option Project) :
    countNamed n (b, st).2 = countNamed n st := rfl

/-- A write adds at most one file, and only of the written name. -/
theorem cntN_writeFileIn_le_ite (n m c : String) (fs : List MdFile) :
    cntN n (writeFileIn fs m c) ≤ cntN n fs + (if m = n then 1 else 0) := by
  rw [cntN_writeFileIn]
  split
  · split <;> omega
  · exact Nat.le_refl _

/-- A fresh project skeleton holds no file but README.md. -/
theorem countNamed_skeleton (n desc : String) (hn : n ≠ "README.md") :
    countNamed n (some (projectSkeleton desc)) = 0 := by
  have hb : ("README.md" == n) = false := by
    rw [beq_eq_false_iff_ne]
    exact fun h => hn h.symm
  rw [countNamed_eq]
  simp [projectSkeleton, cntN, dirCountN, hb]

/-- Overwriting a present file leaves every file count unchanged. -/
theorem countNamed_overwrite_eq (n fname c : String) (q : Project) (f : String)
    (dev? : Option String) (hb : bucketExists q f dev?)
    (hpres : fileExistsIn (filesAt q f dev?) fname = true) :
    countNamed n (some (modifyFilesAt q f dev? (fun fs => writeFileIn fs fname c))) =
      countNamed n (some q) := by
  have heq := countNamed_modifyFilesAt_eq n q f dev? (fun fs => writeFileIn fs fname c) hb
  dsimp only at heq
  have hwr := cntN_writeFileIn_present n fname c (filesAt q f dev?) hpres
  omega

/-- Writing into an existing bucket adds at most one file of the written
name, and none of any other name. -/
theorem countNamed_write_le_ite (n fname c : String) (q : Project) (f : String)
    (dev? : Option String) (hb : bucketExists q f dev?) :
    countNamed n (some (modifyFilesAt q f dev? (fun fs => writeFileIn fs fname c))) ≤
      countNamed n (some q) + (if fname = n then 1 else 0) := by
  have heq := countNamed_modifyFilesAt_eq n q f dev? (fun fs => writeFileIn fs fname c) hb
  dsimp only at heq
  have hwr := cntN_writeFileIn_le_ite n fname c (filesAt q f dev?)
  by_cases h : fname = n
  · rw [if_pos h] at hwr ⊢
    omega
  · rw [if_neg h] at hwr ⊢
    omega

/-- Removing a present file and rewriting it elsewhere never increases a
count. -/
theorem countNamed_move_le (n fname c : String) (q : Project) (f1 : String)
    (d1 : Option String) (f2 : String) (d2 : Option String)
    (hb1 : bucketExists q f1 d1) (hb2 : bucketExists q f2 d2)
    (hpres : fileExistsIn (filesAt q f1 d1) fname = true) :
    countNamed n (some (modifyFilesAt (modifyFilesAt q f1 d1
        (fun fs => removeFileIn fs fname)) f2 d2
        (fun fs => writeFileIn fs fname c))) ≤ countNamed n (some q) := by
  have hb2' : bucketExists (modifyFilesAt q f1 d1 (fun fs => removeFileIn fs fname))
      f2 d2 := bucketExists_modifyFilesAt hb2 f1 d1 _
  have heq1 := countNamed_modifyFilesAt_eq n q f1 d1
    (fun fs => removeFileIn fs fname) hb1
  have heq2 := countNamed_modifyFilesAt_eq n
    (modifyFilesAt q f1 d1 (fun fs => removeFileIn fs fname)) f2 d2
    (fun fs => writeFileIn fs fname c) hb2'
  dsimp only at heq1 heq2
  by_cases hfn : fname = n
  · subst hfn
    have hrem := cntN_removeFileIn_present fname (filesAt q f1 d1) hpres
    have hwr := cntN_writeFileIn_le fname fname c
      (filesAt (modifyFilesAt q f1 d1 (fun fs => removeFileIn fs fname)) f2 d2)
    omega
  · have hrem := cntN_removeFileIn_other n fname hfn (filesAt q f1 d1)
    have hwr := cntN_writeFileIn_other n fname c hfn
      (filesAt (modifyFilesAt q f1 d1 (fun fs => removeFileIn fs fname)) f2 d2)
    omega

/-- update_task_file never increases the number of files of any name. -/
theorem countNamed_update_le (now : String) (td : TaskData) (p : Project) (n : String)
    (hwf : wfProject p) :
    countNamed n (update_task_file now (some p) td).2 ≤ countNamed n (some p) := by
  simp only [update_task_file]
  cases hloc : locateTask p td.id with
  | none => simp only [hloc]; exact Nat.le_refl _
  | some loc =>
    have hloc' : locateTaskIn p td.id searchFolders = some (loc.1, loc.2) := by
      rw [Prod.mk.eta]; exact hloc
    obtain ⟨hbex, hex⟩ := locate_found_file hwf searchFolders loc.1 loc.2 hloc'
    simp only [hloc]
    split
    · rw [countNamed_snd]
      exact Nat.le_of_eq (countNamed_ensureDir n p _ _)
    · split
      · split
        · rename_i cf2 hcf2
          split
          · rw [countNamed_snd]
            exact Nat.le_of_eq (countNamed_ensureDir n p _ _)
          · rw [countNamed_snd]
            refine Nat.le_trans (countNamed_move_le n (td.id ++ ".md") _ _ _ _ _ _
              (bucketExists_of_fileAt hcf2) (bucketExists_ensureDir p _ _) ?_) ?_
            · rw [filesAt_ensureDir]; exact hex
            · exact Nat.le_of_eq (countNamed_ensureDir n p _ _)
        · rename_i hcf2
          exfalso
          have hre : fileAt (ensureDir p (newStatusOf td) (destDevOf td loc.2))
              loc.1 loc.2 (td.id ++ ".md") =
              findFile (filesAt p loc.1 loc.2) (td.id ++ ".md") := by
            unfold fileAt
            rw [filesAt_ensureDir]
          rw [hre] at hcf2
          simp only [fileExistsIn, hcf2, Option.isSome_none] at hex
          exact Bool.noConfusion hex
      · rename_i hne
        have hpair := not_not.mp hne
        rw [Prod.mk.injEq] at hpair
        obtain ⟨hns, hdd⟩ := hpair
        rw [countNamed_snd]
        refine Nat.le_of_eq (Eq.trans (countNamed_overwrite_eq n (td.id ++ ".md") _ _ _ _
          (bucketExists_ensureDir p _ _) ?_) (countNamed_ensureDir n p _ _))
        rw [filesAt_ensureDir, hns, hdd]
        exact hex

/-- create_task_file adds at most one file, and only of the created task's
name (the README.md exclusion covers the auto-created project skeleton). -/
theorem countNamed_create_le (now pid : String) (td : TaskData) (st : Option Project)
    (n : String) (hn : n ≠ "README.md") :
    countNamed n (create_task_file now pid st td).2 ≤
      countNamed n st + (if td.id ++ ".md" = n then 1 else 0) := by
  cases st with
  | some p =>
    simp only [create_task_file]
    split
    · rw [countNamed_snd, countNamed_ensureDir n p _ _]
      exact Nat.le_add_right _ _
    · rw [countNamed_snd]
      refine Nat.le_trans (countNamed_write_le_ite n (td.id ++ ".md") _ _ _ _
        (bucketExists_ensureDir p _ _)) ?_
      rw [countNamed_ensureDir n p _ _]
  | none =>
    simp only [create_task_file, create_project]
    by_cases hp : pid = ""
    · rw [if_pos hp]
      exact Nat.zero_le _
    · rw [if_neg hp]
      dsimp only
      split
      · rw [countNamed_snd, countNamed_ensureDir n _ _ _, countNamed_skeleton n _ hn]
        exact Nat.zero_le _
      · rw [countNamed_snd]
        refine Nat.le_trans (countNamed_write_le_ite n (td.id ++ ".md") _ _ _ _
          (bucketExists_ensureDir _ _ _)) ?_
        rw [countNamed_ensureDir n _ _ _, countNamed_skeleton n _ hn]
        exact Nat.le_refl _

/-- The deletion search never increases the number of files of any name. -/
theorem countNamed_deleteIn_le (p : Project) (fname n : String) :
    ∀ fs p2, deleteIn p fname fs = some p2 →
      countNamed n (some p2) ≤ countNamed n (some p) := by
  intro fs
  induction fs with
  | nil => intro p2 h; cases h
  | cons f fs ih =>
    intro p2 h
    simp only [deleteIn] at h
    split at h
    · exact ih p2 h
    · rename_i d hd
      split at h
      · injection h with h1
        subst h1
        have hb : bucketExists p f none := by
          show (getDir p f).isSome = true
          rw [hd]; rfl
        have heq := countNamed_modifyFilesAt_eq n p f none
          (fun l => removeFileIn l fname) hb
        dsimp only at heq
        have hle := cntN_removeFileIn_le n fname (filesAt p f none)
        omega
      · split at h
        · rename_i dd hdd
          injection h with h1
          subst h1
          have hmem : dd ∈ d.devs := List.mem_of_find?_eq_some hdd
          have hb : bucketExists p f (some dd.name) := by
            refine ⟨d, hd, ?_⟩
            show (d.devs.find? (fun x => x.name == dd.name)).isSome = true
            exact List.find?_isSome.mpr ⟨dd, hmem, by simp⟩
          have heq := countNamed_modifyFilesAt_eq n p f (some dd.name)
            (fun l => removeFileIn l fname) hb
          dsimp only at heq
          have hle := cntN_removeFileIn_le n fname (filesAt p f (some dd.name))
          omega
        · exact ih p2 h

/-- The deletion handler never increases the number of files of any name. -/
theorem countNamed_delete_le (tid n : String) (st : Option Project) :
    countNamed n (delete_task st tid).2 ≤ countNamed n st := by
  cases st with
  | none => exact Nat.le_refl _
  | some p =>
    simp only [delete_task]
    split
    · rename_i p2 heq
      rw [countNamed_snd]
      exact countNamed_deleteIn_le p _ n _ p2 heq
    · exact Nat.le_refl _

/-- Invariant step: as long as the remaining creates for a task id fit the
budget, the file count for that id stays at most one. -/
theorem countNamed_ops_le (now pid t : String) (hR : t ++ ".md" ≠ "README.md") :
    ∀ ops st, wfState st →
      countNamed (t ++ ".md") st + createsIn t ops ≤ 1 →
      countNamed (t ++ ".md") (applyOps now pid st ops) ≤ 1 := by
  intro ops
  induction ops with
  | nil =>
    intro st hwf hc
    simpa [applyOps, createsIn] using hc
  | cons op ops ih =>
    intro st hwf hc
    rw [applyOps]
    apply ih (applyOp now pid st op) (wf_applyOp now pid op st hwf)
    have hcc : createsIn t (op :: ops) = createsFor t op + createsIn t ops := by
      simp [createsIn]
    rw [hcc] at hc
    cases op with
    | create td =>
      have hle := countNamed_create_le now pid td st (t ++ ".md") hR
      by_cases hid : td.id = t
      · have h1 : (if td.id ++ ".md" = t ++ ".md" then (1 : Nat) else 0) = 1 :=
          if_pos (by rw [hid])
        have h2 : createsFor t (TaskOp.create td) = 1 := by
          simp [createsFor, hid]
        rw [h1] at hle
        rw [h2] at hc
        have hb : countNamed (t ++ ".md") (applyOp now pid st (TaskOp.create td)) ≤
            countNamed (t ++ ".md") st + 1 := hle
        omega
      · have h1 : (if td.id ++ ".md" = t ++ ".md" then (1 : Nat) else 0) = 0 := by
          rw [if_neg]
          intro he
          exact hid (strAppend_right_cancel he)
        have h2 : createsFor t (TaskOp.create td) = 0 := by
          simp [createsFor, hid]
        rw [h1] at hle
        rw [h2] at hc
        have hb : countNamed (t ++ ".md") (applyOp now pid st (TaskOp.create td)) ≤
            countNamed (t ++ ".md") st + 0 := hle
        omega
    | update td =>
      have hle : countNamed (t ++ ".md") (applyOp now pid st (TaskOp.update td)) ≤
          countNamed (t ++ ".md") st := by
        cases st with
        | none => exact Nat.le_refl _
        | some p => exact countNamed_update_le now td p _ hwf
      have h2 : createsFor t (TaskOp.update td) = 0 := rfl
      rw [h2] at hc
      omega
    | delete tid =>
      have hle : countNamed (t ++ ".md") (applyOp now pid st (TaskOp.delete tid)) ≤
          countNamed (t ++ ".md") st := countNamed_delete_le tid _ st
      have h2 : createsFor t (TaskOp.delete tid) = 0 := rfl
      rw [h2] at hc
      omega

/-! ### Claim C1: task identity invariant -/

/-- C1 (amended).  Task identity invariant, restricted to sequences with at
most one create for the id: for a task id `t` other than `README`, starting
from any well-formed project state holding no file `t.md` (a fresh project in
particular), after any sequence of create/update/delete operations containing
at most one create for `t`, at most one file named `t.md` exists anywhere
under the project tree.  The restriction is necessary: create_task_file
checks only its own target path for an existing file, so a second create for
the same id aimed at another column duplicates the task (see the
counterexample), refuting the unrestricted invariant the spec states. -/
theorem task_identity_at_most_one_create (now pid t : String) (ops : List TaskOp)
    (p0 : Project) (hwf : wfProject p0) (hR : t ≠ "README")
    (h0 : countNamed (t ++ ".md") (some p0) = 0)
    (hcr : createsIn t ops ≤ 1) :
    countNamed (t ++ ".md") (applyOps now pid (some p0) ops) ≤ 1 := by
  have hR2 : t ++ ".md" ≠ "README.md" := by
    intro h
    have h2 : t ++ ".md" = "README" ++ ".md" := by
      rw [h]; decide
    exact hR (strAppend_right_cancel h2)
  apply countNamed_ops_le now pid t hR2 ops (some p0) hwf
  rw [h0]
  omega

/-- Witness for C1: a fresh project skeleton, one create for t1 followed by
an update and a delete, keeps at most one t1.md. -/
theorem task_identity_at_most_one_create_witness :
    wfProject (projectSkeleton "Project demo") ∧
    ("t1" : String) ≠ "README" ∧
    countNamed ("t1" ++ ".md") (some (projectSkeleton "Project demo")) = 0 ∧
    createsIn "t1" [TaskOp.create (emptyTaskData "t1"),
      TaskOp.update { emptyTaskData "t1" with status := some "review" },
      TaskOp.delete "t1"] ≤ 1 ∧
    countNamed ("t1" ++ ".md")
      (applyOps "2026-01-01T00:00:00" "demo" (some (projectSkeleton "Project demo"))
        [TaskOp.create (emptyTaskData "t1"),
         TaskOp.update { emptyTaskData "t1" with status := some "review" },
         TaskOp.delete "t1"]) ≤ 1 :=
  ⟨by constructor <;> decide, by decide, by decide, by decide,
   task_identity_at_most_one_create "2026-01-01T00:00:00" "demo" "t1" _ _
     (by constructor <;> decide) (by decide) (by decide) (by decide)⟩

/-- C1 counterexample: two creates for the same task id aimed at different
columns of one fresh project leave two files t1.md under the project tree —
create_task_file checks only its own target path, so the second create does
not see the first file and the claimed identity invariant fails. -/
theorem two_creates_duplicate_task :
    countNamed ("t1" ++ ".md")
      (applyOps "2026-01-01T00:00:00" "proj-1"
        ((create_project ⟨some "proj-1", none⟩ none).2)
        [TaskOp.create { emptyTaskData "t1" with folder := some ("backlog", none) },
         TaskOp.create { emptyTaskData "t1" with folder := some ("inprogress", none) }]) =
      2 := by
  decide

/-- A list with a non-matching head is a dropWhile fixpoint. -/
theorem dropWhile_id_of_head (p : Char → Bool) (c : Char) (l : List Char)
    (h : p c = false) : (c :: l).dropWhile p = c :: l := by
  simp [List.dropWhile_cons, h]

/-- A dropWhile fixpoint has a non-matching head. -/
theorem head_false_of_dropWhile_id (p : Char → Bool) (c : Char) (l : List Char)
    (h : (c :: l).dropWhile p = c :: l) : p c = false := by
  cases hp : p c with
  | false => rfl
  | true =>
    rw [List.dropWhile_cons, if_pos hp] at h
    have hlen := (List.dropWhile_sublist (l := l) p).length_le
    rw [h] at hlen
    simp at hlen

/-- A list with a non-matching last element is a right-drop fixpoint. -/
theorem pyDropR_id_of_last (p : Char → Bool) (l : List Char) (d : Char)
    (h : p d = false) : pyDropR p (l ++ [d]) = l ++ [d] := by
  unfold pyDropR
  rw [List.reverse_append, List.reverse_singleton, List.singleton_append,
    dropWhile_id_of_head p d _ h, List.reverse_cons, List.reverse_reverse]

/-- A right-drop fixpoint has a non-matching last element. -/
theorem last_false_of_pyDropR_id (p : Char → Bool) (l : List Char) (d : Char)
    (h : pyDropR p (l ++ [d]) = l ++ [d]) : p d = false := by
  unfold pyDropR at h
  have h2 := congrArg List.reverse h
  rw [List.reverse_reverse] at h2
  rw [List.reverse_append, List.reverse_singleton, List.singleton_append] at h2
  exact head_false_of_dropWhile_id p d _ h2

/-- A strip fixpoint is a fixpoint of both one-sided drops. -/
theorem drops_of_strip_id (p : Char → Bool) (l : List Char)
    (h : pyStripBy p l = l) : l.dropWhile p = l ∧ pyDropR p l = l := by
  have h1 : (l.dropWhile p).length ≤ l.length := (List.dropWhile_sublist p).length_le
  have h2 : (pyDropR p (l.dropWhile p)).length ≤ (l.dropWhile p).length := by
    unfold pyDropR
    rw [List.length_reverse]
    calc ((l.dropWhile p).reverse.dropWhile p).length
        ≤ (l.dropWhile p).reverse.length := (List.dropWhile_sublist p).length_le
      _ = (l.dropWhile p).length := List.length_reverse _
  have h3 : (pyDropR p (l.dropWhile p)).length = l.length := by
    have := congrArg List.length h
    unfold pyStripBy pyDropL at this
    exact this
  have h4 : (l.dropWhile p).length = l.length := by omega
  have h5 : l.dropWhile p = l :=
    List.IsSuffix.eq_of_length (List.dropWhile_suffix p) h4
  refine ⟨h5, ?_⟩
  have h6 := h
  unfold pyStripBy pyDropL at h6
  rw [h5] at h6
  exact h6

/-- Both one-sided drop fixpoints give a strip fixpoint. -/
theorem strip_id_of_drops (p : Char → Bool) (l : List Char)
    (h1 : l.dropWhile p = l) (h2 : pyDropR p l = l) : pyStripBy p l = l := by
  unfold pyStripBy pyDropL
  rw [h1, h2]

/-- Stripping drops a matched head char. -/
theorem pyStripBy_cons_of_pos (p : Char → Bool) (c : Char) (l : List Char)
    (h : p c = true) : pyStripBy p (c :: l) = pyStripBy p l := by
  simp [pyStripBy, pyDropL, List.dropWhile_cons, h]

/-- dropWhile over an append with a single trailing element. -/
theorem dropWhile_append_single (p : Char → Bool) (c : Char) :
    ∀ l : List Char, (l ++ [c]).dropWhile p =
      if (l.dropWhile p).isEmpty then [c].dropWhile p else l.dropWhile p ++ [c] := by
  intro l
  induction l with
  | nil => simp
  | cons x l' ih =>
    cases hx : p x with
    | true =>
      simp only [List.cons_append, List.dropWhile_cons, hx, if_true, ih]
    | false =>
      simp only [List.cons_append, List.dropWhile_cons, hx, Bool.false_eq_true,
        if_false]
      simp

/-- The right-drop of a matched last char. -/
theorem pyDropR_concat_of_pos (p : Char → Bool) (l : List Char) (c : Char)
    (h : p c = true) : pyDropR p (l ++ [c]) = pyDropR p l := by
  unfold pyDropR
  rw [List.reverse_append, List.reverse_singleton, List.singleton_append,
    List.dropWhile_cons, if_pos h]

/-- Stripping drops a matched last char. -/
theorem pyStripBy_concat_of_pos (p : Char → Bool) (l : List Char) (c : Char)
    (h : p c = true) : pyStripBy p (l ++ [c]) = pyStripBy p l := by
  unfold pyStripBy pyDropL
  rw [dropWhile_append_single]
  cases he : (l.dropWhile p).isEmpty with
  | true =>
    rw [if_pos rfl]
    have hl : l.dropWhile p = [] := by
      cases hq : l.dropWhile p with
      | nil => rfl
      | cons a b => rw [hq] at he; simp at he
    rw [hl]
    simp [List.dropWhile_cons, h]
  | false =>
    rw [if_neg (by simp [he])]
    exact pyDropR_concat_of_pos p _ c h

/-- The three-char prefix test against the `---` delimiter. -/
theorem pfx_dash3_cons3 (x y z : Char) (l : List Char) :
    pfx dash3 (x :: y :: z :: l) = ('-' == x && ('-' == y && ('-' == z && true))) :=
  rfl

/-- The split at an immediate delimiter. -/
theorem splitFirstL_dash3_start (l : List Char) :
    splitFirstL dash3 (dash3 ++ l) = some ([], l) := by
  show splitFirstL dash3 ('-' :: '-' :: '-' :: l) = some ([], l)
  rw [splitFirstL]
  have hpfx : pfx dash3 ('-' :: '-' :: '-' :: l) = true := pfx_append_self dash3 l
  rw [if_pos hpfx]
  rfl

/-- A char other than a dash insulates two `---`-free regions. -/
theorem hasSub_dash3_cons_split (c : Char) (hc : ('-' == c) = false) :
    ∀ a b, hasSub dash3 a = false → hasSub dash3 b = false →
      hasSub dash3 (a ++ c :: b) = false := by
  intro a
  induction a with
  | nil =>
    intro b _ hb
    show hasSub dash3 (c :: b) = false
    rw [hasSub]
    have hp : pfx dash3 (c :: b) = false := by
      cases b with
      | nil => simp [dash3, pfx, hc]
      | cons y b' =>
        cases b' with
        | nil => simp [dash3, pfx, hc]
        | cons z b'' => rw [pfx_dash3_cons3]; simp [hc]
    rw [hp, hb]
    rfl
  | cons x a' ih =>
    intro b ha hb
    rw [hasSub] at ha
    obtain ⟨hpa, ha'⟩ := Bool.or_eq_false_iff.mp ha
    rw [List.cons_append, hasSub]
    have hrec := ih b ha' hb
    have hp : pfx dash3 (x :: (a' ++ c :: b)) = false := by
      cases a' with
      | nil =>
        cases b with
        | nil => simp [dash3, pfx, hc]
        | cons z b'' =>
          show pfx dash3 (x :: c :: z :: b'') = false
          rw [pfx_dash3_cons3]
          simp [hc]
      | cons y a'' =>
        cases a'' with
        | nil =>
          show pfx dash3 (x :: y :: c :: b) = false
          rw [pfx_dash3_cons3]
          simp [hc]
        | cons z a3 =>
          show pfx dash3 (x :: y :: z :: (a3 ++ c :: b)) = false
          rw [pfx_dash3_cons3]
          rw [pfx_dash3_cons3] at hpa
          exact hpa
    rw [hp, hrec]
    rfl

/-- Joining `---`-free lines with newlines stays `---`-free. -/
theorem hasSub_dash3_joinNL : ∀ lines : List (List Char),
    (∀ l ∈ lines, hasSub dash3 l = false) →
    hasSub dash3 (joinNL lines) = false := by
  intro lines
  induction lines with
  | nil => intro _; rfl
  | cons l ls ih =>
    intro h
    cases ls with
    | nil => exact h l (by simp)
    | cons l2 ls' =>
      show hasSub dash3 (l ++ '\n' :: joinNL (l2 :: ls')) = false
      refine hasSub_dash3_cons_split '\n' (by decide) l _ (h l (by simp)) (ih ?_)
      intro x hx
      exact h x (by simp [hx])

/-- The leftmost-occurrence split at a marked delimiter: an earlier occurrence
is impossible when the leading part is `---`-free and does not end in a dash. -/
theorem splitFirstL_dash3_mid : ∀ (a b : List Char), hasSub dash3 a = false →
    (match a.getLast? with | some d => ('-' == d) = false | none => True) →
    splitFirstL dash3 (a ++ (dash3 ++ b)) = some (a, b) := by
  intro a
  induction a with
  | nil => intro b _ _; exact splitFirstL_dash3_start b
  | cons x a' ih =>
    intro b ha hlast
    rw [hasSub] at ha
    obtain ⟨hpa, ha'⟩ := Bool.or_eq_false_iff.mp ha
    have hp : pfx dash3 (x :: (a' ++ (dash3 ++ b))) = false := by
      cases a' with
      | nil =>
        have hx : ('-' == x) = false := hlast
        show pfx dash3 (x :: '-' :: '-' :: '-' :: b) = false
        rw [pfx_dash3_cons3]
        simp [hx]
      | cons y a'' =>
        cases a'' with
        | nil =>
          have hy : ('-' == y) = false := hlast
          show pfx dash3 (x :: y :: '-' :: ('-' :: '-' :: b)) = false
          rw [pfx_dash3_cons3]
          simp [hy]
        | cons z a3 =>
          show pfx dash3 (x :: y :: z :: (a3 ++ (dash3 ++ b))) = false
          rw [pfx_dash3_cons3]
          rw [pfx_dash3_cons3] at hpa
          exact hpa
    have hlast' : (match a'.getLast? with
        | some d => ('-' == d) = false | none => True) := by
      cases a' with
      | nil => trivial
      | cons y a'' =>
        have : (x :: y :: a'').getLast? = (y :: a'').getLast? :=
          List.getLast?_cons_cons
        rw [this] at hlast
        exact hlast
    have hrec := ih b ha' hlast'
    rw [List.cons_append, splitFirstL]
    rw [if_neg (by simp [hp]), hrec]

/-- A list containing the separator in its middle position tests positive. -/
theorem containsC_append_cons (c : Char) (a b : List Char) :
    containsC c (a ++ c :: b) = true := by
  simp [containsC]

/-- Containment distributes over append. -/
theorem containsC_append (c : Char) (a b : List Char) :
    containsC c (a ++ b) = (containsC c a || containsC c b) := by
  simp [containsC, List.any_append]

/-- Containment over cons. -/
theorem containsC_cons (c x : Char) (l : List Char) :
    containsC c (x :: l) = ((x == c) || containsC c l) := by
  simp [containsC]

/-- The first-colon split of a line assembled around one separator. -/
theorem splitFirstCharL_append (sep : Char) : ∀ a b, containsC sep a = false →
    splitFirstCharL sep (a ++ sep :: b) = (a, b) := by
  intro a
  induction a with
  | nil =>
    intro b _
    show splitFirstCharL sep (sep :: b) = ([], b)
    simp [splitFirstCharL]
  | cons x a' ih =>
    intro b h
    rw [containsC_cons] at h
    obtain ⟨hx, ha⟩ := Bool.or_eq_false_iff.mp h
    rw [List.cons_append, splitFirstCharL]
    rw [if_neg (by simp [hx]), ih b ha]

/-- splitCharL never returns the empty list of parts. -/
theorem splitCharL_ne_nil (sep : Char) : ∀ l, splitCharL sep l ≠ [] := by
  intro l
  induction l with
  | nil => simp [splitCharL]
  | cons c l' ih =>
    rw [splitCharL]
    split
    · simp
    · split
      · simp
      · simp

/-- A separator-free list is a single part. -/
theorem splitCharL_no_sep (sep : Char) : ∀ l, containsC sep l = false →
    splitCharL sep l = [l] := by
  intro l
  induction l with
  | nil => intro _; rfl
  | cons c l' ih =>
    intro h
    rw [containsC_cons] at h
    obtain ⟨hc, hl⟩ := Bool.or_eq_false_iff.mp h
    rw [splitCharL, if_neg (by simp [hc]), ih hl]

/-- Splitting at the first separator of an assembled list. -/
theorem splitCharL_append (sep : Char) : ∀ a b, containsC sep a = false →
    splitCharL sep (a ++ sep :: b) = a :: splitCharL sep b := by
  intro a
  induction a with
  | nil =>
    intro b _
    show splitCharL sep (sep :: b) = [] :: splitCharL sep b
    rw [splitCharL, if_pos (by simp)]
  | cons x a' ih =>
    intro b h
    rw [containsC_cons] at h
    obtain ⟨hx, ha⟩ := Bool.or_eq_false_iff.mp h
    rw [List.cons_append, splitCharL, if_neg (by simp [hx]), ih b ha]

/-- Newline-joined newline-free lines split back into the lines. -/
theorem splitCharL_joinNL : ∀ lines : List (List Char), lines ≠ [] →
    (∀ l ∈ lines, containsC '\n' l = false) →
    splitCharL '\n' (joinNL lines) = lines := by
  intro lines
  induction lines with
  | nil => intro h; exact absurd rfl h
  | cons l ls ih =>
    intro _ h
    cases ls with
    | nil =>
      show splitCharL '\n' (joinNL [l]) = [l]
      exact splitCharL_no_sep '\n' l (h l (by simp))
    | cons l2 ls' =>
      show splitCharL '\n' (l ++ '\n' :: joinNL (l2 :: ls')) = l :: l2 :: ls'
      rw [splitCharL_append '\n' l _ (h l (by simp))]
      rw [ih (by simp) (fun x hx => h x (by simp [hx]))]

/-- joinNL of lines led by a nonempty line is nonempty. -/
theorem joinNL_ne_nil (l : List Char) (ls : List (List Char)) (hl : l ≠ []) :
    joinNL (l :: ls) ≠ [] := by
  cases ls with
  | nil => exact hl
  | cons l2 ls' =>
    show l ++ '\n' :: joinNL (l2 :: ls') ≠ []
    simp

/-- Strip-identity of newline-joined stripped nonempty lines. -/
theorem pyStrip_joinNL_id : ∀ lines : List (List Char),
    (∀ l ∈ lines, pyStripL l = l ∧ l ≠ []) →
    pyStripL (joinNL lines) = joinNL lines := by
  intro lines
  induction lines with
  | nil => intro _; rfl
  | cons l ls ih =>
    intro h
    cases ls with
    | nil => exact (h l (by simp)).1
    | cons l2 ls' =>
      show pyStripL (l ++ '\n' :: joinNL (l2 :: ls')) = l ++ '\n' :: joinNL (l2 :: ls')
      obtain ⟨hsl, hlne⟩ := h l (by simp)
      have hrest : pyStripL (joinNL (l2 :: ls')) = joinNL (l2 :: ls') :=
        ih (fun x hx => h x (by simp [hx]))
      have hrne : joinNL (l2 :: ls') ≠ [] := joinNL_ne_nil l2 ls' (h l2 (by simp)).2
      obtain ⟨c, lt, hlc⟩ : ∃ c t, l = c :: t := by
        cases hq : l with
        | nil => exact absurd hq hlne
        | cons c t => exact ⟨c, t, rfl⟩
      have hhead : pySpace c = false := by
        apply head_false_of_dropWhile_id pySpace c lt
        have := (drops_of_strip_id pySpace l hsl).1
        rw [hlc] at this
        exact this
      rcases List.eq_nil_or_concat (joinNL (l2 :: ls')) with hemp | ⟨ri, rd, hrj⟩
      · exact absurd hemp hrne
      · rw [List.concat_eq_append] at hrj
        have hlastc : pySpace rd = false := by
          apply last_false_of_pyDropR_id pySpace ri rd
          have := (drops_of_strip_id pySpace _ hrest).2
          rw [hrj] at this
          exact this
        apply strip_id_of_drops
        · rw [hlc, List.cons_append]
          exact dropWhile_id_of_head pySpace c _ hhead
        · have hassoc : l ++ '\n' :: joinNL (l2 :: ls') =
              (l ++ '\n' :: ri) ++ [rd] := by
            rw [hrj]
            simp
          rw [hassoc]
          exact pyDropR_id_of_last pySpace _ rd hlastc

/-- Every standard frontmatter key is nonempty, stripped, and free of colons,
newlines and dashes, by direct evaluation. -/
theorem stdKey_facts : ∀ k ∈ stdKeys,
    k.data ≠ [] ∧ containsC ':' k.data = false ∧ containsC '\n' k.data = false ∧
    hasSub dash3 k.data = false ∧ pyStripL k.data = k.data := by decide

/-- Unpacking of the Boolean value well-formedness. -/
theorem wfValue_facts (v : String) (h : wfValue v = true) :
    v.data ≠ [] ∧ pyStripL v.data = v.data ∧ containsC '\n' v.data = false ∧
    containsC '\'' v.data = false ∧ containsC '"' v.data = false ∧
    hasSub dash3 v.data = false := by
  unfold wfValue at h
  simp only [Bool.and_eq_true, bne_iff_ne, ne_eq, beq_iff_eq,
    Bool.not_eq_true'] at h
  obtain ⟨⟨⟨⟨⟨hne, hstrip⟩, hnl⟩, hq1⟩, hq2⟩, hd⟩ := h
  refine ⟨?_, hstrip, hnl, hq1, hq2, hd⟩
  intro hd0
  apply hne
  cases v with
  | mk d =>
    rw [show d = [] from hd0]

/-- A char absent from a list differs from every member. -/
theorem not_containsC_mem (c x : Char) (l : List Char)
    (h : containsC c l = false) (hm : x ∈ l) : (x == c) = false := by
  cases hq : (x == c) with
  | false => rfl
  | true =>
    have : containsC c l = true := by
      unfold containsC
      exact List.any_eq_true.mpr ⟨x, hm, hq⟩
    rw [this] at h
    cases h

/-- A well-formed key/value line is nonempty, stripped, newline-free and
delimiter-free. -/
theorem renderKVLine_facts (k v : String) (hk : k ∈ stdKeys)
    (hv : wfValue v = true) :
    renderKVLine (k, v) ≠ [] ∧
    pyStripL (renderKVLine (k, v)) = renderKVLine (k, v) ∧
    containsC '\n' (renderKVLine (k, v)) = false ∧
    hasSub dash3 (renderKVLine (k, v)) = false := by
  obtain ⟨hk1, hk2, hk3, hk4, hk5⟩ := stdKey_facts k hk
  obtain ⟨hv1, hv2, hv3, hv4, hv5, hv6⟩ := wfValue_facts v hv
  obtain ⟨kc, ktail, hkd⟩ : ∃ c t, k.data = c :: t := by
    cases hq : k.data with
    | nil => exact absurd hq hk1
    | cons c t => exact ⟨c, t, rfl⟩
  rcases List.eq_nil_or_concat v.data with hvd | ⟨vi, vd, hvd⟩
  · exact absurd hvd hv1
  rw [List.concat_eq_append] at hvd
  have hkhead : pySpace kc = false := by
    apply head_false_of_dropWhile_id pySpace kc ktail
    have hdw := (drops_of_strip_id pySpace k.data hk5).1
    rw [hkd] at hdw
    exact hdw
  have hvlast : pySpace vd = false := by
    apply last_false_of_pyDropR_id pySpace vi vd
    have hdw := (drops_of_strip_id pySpace v.data hv2).2
    rw [hvd] at hdw
    exact hdw
  refine ⟨?_, ?_, ?_, ?_⟩
  · show k.data ++ ':' :: ' ' :: v.data ≠ []
    rw [hkd]
    simp
  · show pyStripL (k.data ++ ':' :: ' ' :: v.data) = k.data ++ ':' :: ' ' :: v.data
    apply strip_id_of_drops
    · rw [hkd, List.cons_append]
      exact dropWhile_id_of_head pySpace kc _ hkhead
    · have hassoc : k.data ++ ':' :: ' ' :: v.data =
          (k.data ++ ':' :: ' ' :: vi) ++ [vd] := by
        rw [hvd]
        simp
      rw [hassoc]
      exact pyDropR_id_of_last pySpace _ vd hvlast
  · show containsC '\n' (k.data ++ ':' :: ' ' :: v.data) = false
    rw [containsC_append, containsC_cons, containsC_cons, hk3, hv3]
    decide
  · show hasSub dash3 (k.data ++ ':' :: ' ' :: v.data) = false
    refine hasSub_dash3_cons_split ':' (by decide) k.data _ hk4 ?_
    show hasSub dash3 ([] ++ ' ' :: v.data) = false
    exact hasSub_dash3_cons_split ' ' (by decide) [] v.data rfl hv6

/-- The YAML line parser recovers the written key/value pair. -/
theorem lineInsert_renderKVLine (m : List (String × String)) (k v : String)
    (hk : k ∈ stdKeys) (hv : wfValue v = true) :
    lineInsert m (renderKVLine (k, v)) = dictSet m k v := by
  obtain ⟨hk1, hk2, hk3, hk4, hk5⟩ := stdKey_facts k hk
  obtain ⟨hv1, hv2, hv3, hv4, hv5, hv6⟩ := wfValue_facts v hv
  have hstrip := (renderKVLine_facts k v hk hv).2.1
  have hcol : containsC ':' (renderKVLine (k, v)) = true :=
    containsC_append_cons ':' k.data (' ' :: v.data)
  have hsplitc : splitFirstCharL ':' (renderKVLine (k, v)) =
      (k.data, ' ' :: v.data) :=
    splitFirstCharL_append ':' k.data (' ' :: v.data) hk2
  have hq : pyStripQ v.data = v.data := by
    obtain ⟨vc, vt, hvdc⟩ : ∃ c t, v.data = c :: t := by
      cases hqq : v.data with
      | nil => exact absurd hqq hv1
      | cons c t => exact ⟨c, t, rfl⟩
    rcases List.eq_nil_or_concat v.data with hvd | ⟨vi, vd, hvd⟩
    · exact absurd hvd hv1
    rw [List.concat_eq_append] at hvd
    have hvcq : pyQuote vc = false := by
      have hmem : vc ∈ v.data := by rw [hvdc]; simp
      unfold pyQuote
      rw [not_containsC_mem '\'' vc _ hv4 hmem,
        not_containsC_mem '"' vc _ hv5 hmem]
      rfl
    have hvdq : pyQuote vd = false := by
      have hmem : vd ∈ v.data := by rw [hvd]; simp
      unfold pyQuote
      rw [not_containsC_mem '\'' vd _ hv4 hmem,
        not_containsC_mem '"' vd _ hv5 hmem]
      rfl
    show pyStripBy pyQuote v.data = v.data
    apply strip_id_of_drops
    · rw [hvdc]
      exact dropWhile_id_of_head pyQuote vc vt hvcq
    · rw [hvd]
      exact pyDropR_id_of_last pyQuote vi vd hvdq
  have hsp : pyStripL (' ' :: v.data) = v.data := by
    show pyStripBy pySpace (' ' :: v.data) = v.data
    rw [pyStripBy_cons_of_pos pySpace ' ' v.data (by decide)]
    exact hv2
  simp only [lineInsert]
  rw [hstrip, if_pos hcol, hsplitc]
  show dictSet m ⟨pyStripL k.data⟩ ⟨pyStripQ (pyStripL (' ' :: v.data))⟩ =
    dictSet m k v
  rw [hk5, hsp, hq]

/-- Inserting a fresh key appends it. -/
theorem dictSet_append (m : List (String × String)) (k v : String)
    (h : ∀ kv ∈ m, kv.1 ≠ k) : dictSet m k v = m ++ [(k, v)] := by
  unfold dictSet
  rw [if_neg]
  intro hany
  rw [List.any_eq_true] at hany
  obtain ⟨kv, hm, hbeq⟩ := hany
  exact h kv hm (by simpa using hbeq)

/-- Folding the line parser over distinct-keyed lines rebuilds the pairs. -/
theorem foldl_lineInsert : ∀ (kvs acc : List (String × String)),
    (∀ kv ∈ kvs, kv.1 ∈ stdKeys ∧ wfValue kv.2 = true) →
    (kvs.map Prod.fst).Nodup →
    (∀ kv ∈ kvs, ∀ kv' ∈ acc, kv'.1 ≠ kv.1) →
    List.foldl lineInsert acc (kvs.map renderKVLine) = acc ++ kvs := by
  intro kvs
  induction kvs with
  | nil => intro acc _ _ _; simp
  | cons kv kvs' ih =>
    intro acc hwf hnd hdisj
    rw [List.map_cons, List.foldl_cons]
    have hkv := hwf kv (by simp)
    have h1 : lineInsert acc (renderKVLine kv) = acc ++ [kv] := by
      have heta : renderKVLine kv = renderKVLine (kv.1, kv.2) := rfl
      rw [heta, lineInsert_renderKVLine acc kv.1 kv.2 hkv.1 hkv.2,
        dictSet_append acc kv.1 kv.2 (fun kv' hm => hdisj kv (by simp) kv' hm)]
    rw [h1]
    simp only [List.map_cons, List.nodup_cons] at hnd
    have hnd' : (kvs'.map Prod.fst).Nodup := hnd.2
    have hd' : ∀ x ∈ kvs', ∀ kv' ∈ acc ++ [kv], kv'.1 ≠ x.1 := by
      intro x hx kv' hm'
      rcases List.mem_append.mp hm' with h1' | h2'
      · exact hdisj x (by simp [hx]) kv' h1'
      · have hkk : kv' = kv := List.mem_singleton.mp h2'
        subst hkk
        intro he
        apply hnd.1
        rw [he]
        exact List.mem_map_of_mem Prod.fst hx
    rw [ih (acc ++ [kv]) (fun x hx => hwf x (by simp [hx])) hnd' hd']
    simp

/-- In a distinct-keyed pair list, a member is found by its key. -/
theorem kvFind {kvs : List (String × String)}
    (hnd : (kvs.map Prod.fst).Nodup) {kv : String × String} (hm : kv ∈ kvs) :
    kvs.find? (fun x => x.1 == kv.1) = some kv := by
  induction kvs with
  | nil => cases hm
  | cons p ps ih =>
    simp only [List.map_cons, List.nodup_cons] at hnd
    rcases List.mem_cons.mp hm with rfl | hm'
    · rw [find?_cons_pos (fun x : String × String => x.1 == kv.1) _ _ (by simp)]
    · have hne : (p.1 == kv.1) = false := by
        rw [beq_eq_false_iff_ne]
        intro he
        apply hnd.1
        rw [he]
        exact List.mem_map_of_mem Prod.fst hm'
      rw [find?_cons_neg (fun x : String × String => x.1 == kv.1) _ _ hne]
      exact ih hnd.2 hm'

/-- Dictionary lookup of a present key. -/
theorem pyDictGet_of_mem {kvs : List (String × String)}
    (hnd : (kvs.map Prod.fst).Nodup) {kv : String × String} (hm : kv ∈ kvs)
    (d : String) : pyDictGet kvs kv.1 d = kv.2 := by
  unfold pyDictGet
  rw [kvFind hnd hm]

/-- Optional dictionary lookup of a present key. -/
theorem pyDictGetOpt_of_mem {kvs : List (String × String)}
    (hnd : (kvs.map Prod.fst).Nodup) {kv : String × String} (hm : kv ∈ kvs) :
    pyDictGetOpt kvs kv.1 = some kv.2 := by
  unfold pyDictGetOpt
  rw [kvFind hnd hm]
  rfl

/-- The frontmatter/body split of an assembled task file recovers the YAML
block and the body. -/
theorem taskFileSplit_assembled (kvs : List (String × String)) (body : String)
    (hkeys : ∀ kv ∈ kvs, kv.1 ∈ stdKeys)
    (hvals : ∀ kv ∈ kvs, wfValue kv.2 = true)
    (hbody : pyStripL body.data = body.data) :
    taskFileSplit (assembleTaskFile kvs body) =
      (⟨joinNL (kvs.map renderKVLine)⟩, body) := by
  have hlines : ∀ l ∈ kvs.map renderKVLine,
      hasSub dash3 l = false ∧ pyStripL l = l ∧ l ≠ [] := by
    intro l hl
    rcases List.mem_map.mp hl with ⟨kv, hm, rfl⟩
    obtain ⟨f1, f2, _, f4⟩ :=
      renderKVLine_facts kv.1 kv.2 (hkeys kv hm) (hvals kv hm)
    exact ⟨f4, f2, f1⟩
  have hY : hasSub dash3 (joinNL (kvs.map renderKVLine)) = false :=
    hasSub_dash3_joinNL _ (fun l hl => (hlines l hl).1)
  have hstripY : pyStripL (joinNL (kvs.map renderKVLine)) =
      joinNL (kvs.map renderKVLine) :=
    pyStrip_joinNL_id _ (fun l hl => ⟨(hlines l hl).2.1, (hlines l hl).2.2⟩)
  unfold assembleTaskFile taskFileSplit
  dsimp only
  have hpfx0 : pfx dash3 (dash3 ++ '\n' :: (joinNL (kvs.map renderKVLine) ++
      '\n' :: (dash3 ++ '\n' :: '\n' :: body.data))) = true :=
    pfx_append_self _ _
  rw [if_pos hpfx0]
  unfold pySplit2
  rw [splitFirstL_dash3_start]
  have hre : '\n' :: (joinNL (kvs.map renderKVLine) ++
      '\n' :: (dash3 ++ '\n' :: '\n' :: body.data)) =
      ('\n' :: (joinNL (kvs.map renderKVLine) ++ ['\n'])) ++
        (dash3 ++ '\n' :: '\n' :: body.data) := by
    simp
  have hA : hasSub dash3 ('\n' :: (joinNL (kvs.map renderKVLine) ++ ['\n'])) =
      false := by
    have hb : hasSub dash3 (joinNL (kvs.map renderKVLine) ++ ['\n']) = false := by
      have : hasSub dash3 (joinNL (kvs.map renderKVLine) ++ '\n' :: []) = false :=
        hasSub_dash3_cons_split '\n' (by decide) _ [] hY rfl
      exact this
    have : hasSub dash3 ([] ++ '\n' :: (joinNL (kvs.map renderKVLine) ++ ['\n'])) =
        false :=
      hasSub_dash3_cons_split '\n' (by decide) [] _ rfl hb
    exact this
  have hlastA : (match ('\n' :: (joinNL (kvs.map renderKVLine) ++
      ['\n'])).getLast? with
      | some d => ('-' == d) = false | none => True) := by
    have hgl : ('\n' :: (joinNL (kvs.map renderKVLine) ++ ['\n'])).getLast? =
        some '\n' := by
      rw [show '\n' :: (joinNL (kvs.map renderKVLine) ++ ['\n']) =
        ('\n' :: joinNL (kvs.map renderKVLine)) ++ ['\n'] by simp]
      exact List.getLast?_concat _
    rw [hgl]
    decide
  dsimp only
  rw [hre]
  rw [splitFirstL_dash3_mid _ _ hA hlastA]
  dsimp only
  have hstripA : pyStripL ('\n' :: (joinNL (kvs.map renderKVLine) ++ ['\n'])) =
      joinNL (kvs.map renderKVLine) := by
    show pyStripBy pySpace _ = _
    rw [pyStripBy_cons_of_pos pySpace '\n' _ (by decide),
      pyStripBy_concat_of_pos pySpace _ '\n' (by decide)]
    exact hstripY
  have hstripB : pyStripL ('\n' :: '\n' :: body.data) = body.data := by
    show pyStripBy pySpace _ = _
    rw [pyStripBy_cons_of_pos pySpace '\n' _ (by decide),
      pyStripBy_cons_of_pos pySpace '\n' _ (by decide)]
    exact hbody
  rw [hstripA, hstripB]

/-- The metadata dictionary parsed back from an assembled task file is the
original pair list. -/
theorem task_file_meta_assembled (kvs : List (String × String)) (body : String)
    (hkeys : ∀ kv ∈ kvs, kv.1 ∈ stdKeys)
    (hnodup : (kvs.map Prod.fst).Nodup)
    (hvals : ∀ kv ∈ kvs, wfValue kv.2 = true)
    (hbody : pyStripL body.data = body.data) :
    task_file_meta (assembleTaskFile kvs body) = kvs := by
  have hsplit := taskFileSplit_assembled kvs body hkeys hvals hbody
  unfold task_file_meta
  rw [hsplit]
  dsimp only
  cases kvs with
  | nil => rfl
  | cons kv kvs' =>
    have hfirstne : renderKVLine kv ≠ [] :=
      (renderKVLine_facts kv.1 kv.2 (hkeys kv (by simp)) (hvals kv (by simp))).1
    rw [if_neg ?hne]
    case hne =>
      rw [beq_iff_eq]
      intro he
      apply joinNL_ne_nil _ _ hfirstne
      have hd := congrArg String.data he
      simpa using hd
    rw [splitCharL_joinNL _ (by simp) ?hnl]
    case hnl =>
      intro l hl
      rcases List.mem_map.mp hl with ⟨x, hx, rfl⟩
      exact (renderKVLine_facts x.1 x.2 (hkeys x hx) (hvals x hx)).2.2.1
    rw [foldl_lineInsert (kv :: kvs') []
      (fun x hx => ⟨hkeys x hx, hvals x hx⟩) hnodup
      (fun x _ kv' hm' => absurd hm' (List.not_mem_nil kv'))]
    simp

/-- Rebuilding a string from its data is the identity. -/
theorem strMkData (s : String) : (⟨s.data⟩ : String) = s := rfl

/-- An if-then-else of two present options is a present option. -/
theorem ite_some_some {α : Type} (C : Prop) [Decidable C] (a b : α) :
    (if C then (some a : Option α) else some b) = some (if C then a else b) := by
  split <;> rfl

/-- Parsing an assembled well-formed task file produces exactly the expected
record. -/
theorem parse_task_file_assembled (stem : String) (kvs : List (String × String))
    (body : String)
    (hkeys : ∀ kv ∈ kvs, kv.1 ∈ stdKeys)
    (hnodup : (kvs.map Prod.fst).Nodup)
    (hvals : ∀ kv ∈ kvs, wfValue kv.2 = true)
    (hbody : pyStripL body.data = body.data) :
    parse_task_file stem (some (assembleTaskFile kvs body)) =
      some (parsedRecOf stem kvs (assembleTaskFile kvs body) body) := by
  have hmeta := task_file_meta_assembled kvs body hkeys hnodup hvals hbody
  have hbody2 : task_file_body (assembleTaskFile kvs body) = body := by
    unfold task_file_body
    rw [taskFileSplit_assembled kvs body hkeys hvals hbody]
  simp only [parse_task_file, parsedRecOf, hmeta, hbody2]

/-- Every non-blocked input pair reappears verbatim in the written
frontmatter of the serialized record. -/
theorem updWrittenKVs_lookup (kvs : List (String × String))
    (stem content body now : String)
    (hnodup : (kvs.map Prod.fst).Nodup)
    (hvals : ∀ kv ∈ kvs, wfValue kv.2 = true) :
    ∀ kv ∈ kvs, kv.1 ∈ stdKeys → kv.1 ≠ "blocked" →
      pyDictGetOpt (updWrittenKVs
        (recToTaskData (parsedRecOf stem kvs content body))
        (newStatusOf (recToTaskData (parsedRecOf stem kvs content body))) now)
        kv.1 = some kv.2 := by
  intro kv hm hk hnb
  have hval := hvals kv hm
  have hne : (kv.2 == "") = false := by
    rw [beq_eq_false_iff_ne]
    unfold wfValue at hval
    simp only [Bool.and_eq_true] at hval
    have h1 := hval.1.1.1.1.1
    simpa using h1
  have hget : ∀ d, pyDictGet kvs kv.1 d = kv.2 :=
    fun d => pyDictGet_of_mem hnodup hm d
  have hgetOpt : pyDictGetOpt kvs kv.1 = some kv.2 := pyDictGetOpt_of_mem hnodup hm
  simp only [stdKeys, List.mem_cons, List.not_mem_nil, or_false] at hk
  rcases hk with h|h|h|h|h|h|h|h|h|h|h|h|h|h
  · rw [h] at hget ⊢
    simp +decide [updWrittenKVs, updFrontmatter, recToTaskData, newStatusOf,
        parsedRecOf, pyDictGetOpt, pyOrOpt, optFalsy, autoStartedAt, autoDoneAt,
        renderFMValPlain, ite_some_some, strMkData, List.find?, hget, hne]
  · rw [h] at hget ⊢
    simp +decide [updWrittenKVs, updFrontmatter, recToTaskData, newStatusOf,
        parsedRecOf, pyDictGetOpt, pyOrOpt, optFalsy, autoStartedAt, autoDoneAt,
        renderFMValPlain, ite_some_some, strMkData, List.find?, hget, hne]
  · rw [h] at hget ⊢
    simp +decide [updWrittenKVs, updFrontmatter, recToTaskData, newStatusOf,
        parsedRecOf, pyDictGetOpt, pyOrOpt, optFalsy, autoStartedAt, autoDoneAt,
        renderFMValPlain, ite_some_some, strMkData, List.find?, hget, hne]
  · rw [h] at hget ⊢
    simp +decide [updWrittenKVs, updFrontmatter, recToTaskData, newStatusOf,
        parsedRecOf, pyDictGetOpt, pyOrOpt, optFalsy, autoStartedAt, autoDoneAt,
        renderFMValPlain, ite_some_some, strMkData, List.find?, hget, hne]
  · have hfindD : kvs.find? (fun x => x.1 == "developer") = some kv := by
      have hkf := kvFind hnodup hm
      rw [h] at hkf
      exact hkf
    rw [h] at hget ⊢
    simp +decide [updWrittenKVs, updFrontmatter, recToTaskData, newStatusOf,
        parsedRecOf, pyDictGetOpt, pyOrOpt, optFalsy, autoStartedAt, autoDoneAt,
        renderFMValPlain, ite_some_some, strMkData, List.find?, hfindD, hne]
  · rw [h] at hget ⊢
    cases hfd : kvs.find? (fun x => x.1 == "developer") with
    | none =>
      simp +decide [updWrittenKVs, updFrontmatter, recToTaskData, newStatusOf,
        parsedRecOf, pyDictGetOpt, pyOrOpt, optFalsy, autoStartedAt, autoDoneAt,
        renderFMValPlain, ite_some_some, strMkData, List.find?, hget, hne, hfd]
    | some dkv =>
      simp +decide [updWrittenKVs, updFrontmatter, recToTaskData, newStatusOf,
        parsedRecOf, pyDictGetOpt, pyOrOpt, optFalsy, autoStartedAt, autoDoneAt,
        renderFMValPlain, ite_some_some, strMkData, List.find?, hget, hne, hfd]
  · rw [h] at hget ⊢
    cases hfd : kvs.find? (fun x => x.1 == "developer") with
    | none =>
      simp +decide [updWrittenKVs, updFrontmatter, recToTaskData, newStatusOf,
        parsedRecOf, pyDictGetOpt, pyOrOpt, optFalsy, autoStartedAt, autoDoneAt,
        renderFMValPlain, ite_some_some, strMkData, List.find?, hget, hne, hfd]
    | some dkv =>
      simp +decide [updWrittenKVs, updFrontmatter, recToTaskData, newStatusOf,
        parsedRecOf, pyDictGetOpt, pyOrOpt, optFalsy, autoStartedAt, autoDoneAt,
        renderFMValPlain, ite_some_some, strMkData, List.find?, hget, hne, hfd]
  · rw [h] at hget ⊢
    cases hfd : kvs.find? (fun x => x.1 == "developer") with
    | none =>
      simp +decide [updWrittenKVs, updFrontmatter, recToTaskData, newStatusOf,
        parsedRecOf, pyDictGetOpt, pyOrOpt, optFalsy, autoStartedAt, autoDoneAt,
        renderFMValPlain, ite_some_some, strMkData, List.find?, hget, hne, hfd]
    | some dkv =>
      simp +decide [updWrittenKVs, updFrontmatter, recToTaskData, newStatusOf,
        parsedRecOf, pyDictGetOpt, pyOrOpt, optFalsy, autoStartedAt, autoDoneAt,
        renderFMValPlain, ite_some_some, strMkData, List.find?, hget, hne, hfd]
  · rw [h] at hget ⊢
    cases hfd : kvs.find? (fun x => x.1 == "developer") with
    | none =>
      simp +decide [updWrittenKVs, updFrontmatter, recToTaskData, newStatusOf,
        parsedRecOf, pyDictGetOpt, pyOrOpt, optFalsy, autoStartedAt, autoDoneAt,
        renderFMValPlain, ite_some_some, strMkData, List.find?, hget, hne, hfd]
    | some dkv =>
      simp +decide [updWrittenKVs, updFrontmatter, recToTaskData, newStatusOf,
        parsedRecOf, pyDictGetOpt, pyOrOpt, optFalsy, autoStartedAt, autoDoneAt,
        renderFMValPlain, ite_some_some, strMkData, List.find?, hget, hne, hfd]
  · rw [h] at hget ⊢
    cases hfd : kvs.find? (fun x => x.1 == "developer") with
    | none =>
      simp +decide [updWrittenKVs, updFrontmatter, recToTaskData, newStatusOf,
        parsedRecOf, pyDictGetOpt, pyOrOpt, optFalsy, autoStartedAt, autoDoneAt,
        renderFMValPlain, ite_some_some, strMkData, List.find?, hget, hne, hfd]
    | some dkv =>
      simp +decide [updWrittenKVs, updFrontmatter, recToTaskData, newStatusOf,
        parsedRecOf, pyDictGetOpt, pyOrOpt, optFalsy, autoStartedAt, autoDoneAt,
        renderFMValPlain, ite_some_some, strMkData, List.find?, hget, hne, hfd]
  · exact absurd h hnb
  · rw [h] at hget ⊢
    cases hfd : kvs.find? (fun x => x.1 == "developer") with
    | none =>
      simp +decide [updWrittenKVs, updFrontmatter, recToTaskData, newStatusOf,
        parsedRecOf, pyDictGetOpt, pyOrOpt, optFalsy, autoStartedAt, autoDoneAt,
        renderFMValPlain, ite_some_some, strMkData, List.find?, hget, hne, hfd]
    | some dkv =>
      simp +decide [updWrittenKVs, updFrontmatter, recToTaskData, newStatusOf,
        parsedRecOf, pyDictGetOpt, pyOrOpt, optFalsy, autoStartedAt, autoDoneAt,
        renderFMValPlain, ite_some_some, strMkData, List.find?, hget, hne, hfd]
  · rw [h] at hget ⊢
    cases hfd : kvs.find? (fun x => x.1 == "developer") with
    | none =>
      simp +decide [updWrittenKVs, updFrontmatter, recToTaskData, newStatusOf,
        parsedRecOf, pyDictGetOpt, pyOrOpt, optFalsy, autoStartedAt, autoDoneAt,
        renderFMValPlain, ite_some_some, strMkData, List.find?, hget, hne, hfd]
    | some dkv =>
      simp +decide [updWrittenKVs, updFrontmatter, recToTaskData, newStatusOf,
        parsedRecOf, pyDictGetOpt, pyOrOpt, optFalsy, autoStartedAt, autoDoneAt,
        renderFMValPlain, ite_some_some, strMkData, List.find?, hget, hne, hfd]
  · rw [h] at hget ⊢
    cases hfd : kvs.find? (fun x => x.1 == "developer") with
    | none =>
      simp +decide [updWrittenKVs, updFrontmatter, recToTaskData, newStatusOf,
        parsedRecOf, pyDictGetOpt, pyOrOpt, optFalsy, autoStartedAt, autoDoneAt,
        renderFMValPlain, ite_some_some, strMkData, List.find?, hget, hne, hfd]
    | some dkv =>
      simp +decide [updWrittenKVs, updFrontmatter, recToTaskData, newStatusOf,
        parsedRecOf, pyDictGetOpt, pyOrOpt, optFalsy, autoStartedAt, autoDoneAt,
        renderFMValPlain, ite_some_some, strMkData, List.find?, hget, hne, hfd]

/-! ### Claim C5: codec round-trip -/

/-- C5 (amended).  Codec round-trip, corrected for materialized defaults: for
a task file assembled from well-formed frontmatter pairs (standard keys,
pairwise distinct; values nonempty, stripped, free of newlines, quotes and
`---`) and a stripped body, parsing produces exactly the expected record;
serializing that record (through the update writer, as a client echoing the
GET payload triggers it) emits a file whose markdown body is identical to the
input body, and whose frontmatter contains every input key with its exact
input value — except `blocked`, which is re-rendered as a Python boolean.
The spec's unrestricted claim (same key/value set) fails, because the writer
also materializes the parser's defaults — estimate `0h`, priority `medium`,
status `backlog`, `blocked: False` — as concrete non-empty values absent
from the input (see the counterexample). -/
theorem codec_roundtrip_amended (kvs : List (String × String))
    (body stem now : String)
    (hkeys : ∀ kv ∈ kvs, kv.1 ∈ stdKeys)
    (hnodup : (kvs.map Prod.fst).Nodup)
    (hvals : ∀ kv ∈ kvs, wfValue kv.2 = true)
    (hbody : pyStripL body.data = body.data) :
    parse_task_file stem (some (assembleTaskFile kvs body)) =
      some (parsedRecOf stem kvs (assembleTaskFile kvs body) body) ∧
    serialize_task (parsedRecOf stem kvs (assembleTaskFile kvs body) body) now =
      ⟨"---\n".data ++ simple_yaml_dump_update (updFrontmatter
          (recToTaskData (parsedRecOf stem kvs (assembleTaskFile kvs body) body))
          (newStatusOf (recToTaskData
            (parsedRecOf stem kvs (assembleTaskFile kvs body) body))) now) ++
        "\n---\n\n".data ++ body.data⟩ ∧
    ∀ kv ∈ kvs, kv.1 ≠ "blocked" →
      pyDictGetOpt (updWrittenKVs
        (recToTaskData (parsedRecOf stem kvs (assembleTaskFile kvs body) body))
        (newStatusOf (recToTaskData
          (parsedRecOf stem kvs (assembleTaskFile kvs body) body))) now)
        kv.1 = some kv.2 := by
  refine ⟨parse_task_file_assembled stem kvs body hkeys hnodup hvals hbody,
    rfl, ?_⟩
  intro kv hm hnb
  exact updWrittenKVs_lookup kvs stem _ body now hnodup hvals kv hm
    (hkeys kv hm) hnb

/-- Witness for C5: a five-pair frontmatter with a developer and timestamps
round-trips as the amended theorem states. -/
theorem codec_roundtrip_amended_witness :
    (∀ kv ∈ ([("title", "My Task"), ("status", "review"),
        ("created", "2026-01-02"), ("developer", "dev-alice"),
        ("started_at", "2026-01-02T03:04:05")] : List (String × String)),
      kv.1 ∈ stdKeys) ∧
    ((([("title", "My Task"), ("status", "review"), ("created", "2026-01-02"),
        ("developer", "dev-alice"), ("started_at", "2026-01-02T03:04:05")] :
        List (String × String)).map Prod.fst).Nodup) ∧
    (∀ kv ∈ ([("title", "My Task"), ("status", "review"),
        ("created", "2026-01-02"), ("developer", "dev-alice"),
        ("started_at", "2026-01-02T03:04:05")] : List (String × String)),
      wfValue kv.2 = true) ∧
    pyStripL ("Do the thing." : String).data = ("Do the thing." : String).data ∧
    (parse_task_file "my-task" (some (assembleTaskFile
        [("title", "My Task"), ("status", "review"), ("created", "2026-01-02"),
         ("developer", "dev-alice"), ("started_at", "2026-01-02T03:04:05")]
        "Do the thing.")) =
      some (parsedRecOf "my-task"
        [("title", "My Task"), ("status", "review"), ("created", "2026-01-02"),
         ("developer", "dev-alice"), ("started_at", "2026-01-02T03:04:05")]
        (assembleTaskFile
          [("title", "My Task"), ("status", "review"), ("created", "2026-01-02"),
           ("developer", "dev-alice"), ("started_at", "2026-01-02T03:04:05")]
          "Do the thing.") "Do the thing.") ∧
      serialize_task (parsedRecOf "my-task"
        [("title", "My Task"), ("status", "review"), ("created", "2026-01-02"),
         ("developer", "dev-alice"), ("started_at", "2026-01-02T03:04:05")]
        (assembleTaskFile
          [("title", "My Task"), ("status", "review"), ("created", "2026-01-02"),
           ("developer", "dev-alice"), ("started_at", "2026-01-02T03:04:05")]
          "Do the thing.") "Do the thing.") "2026-03-04T05:06:07" =
        ⟨"---\n".data ++ simple_yaml_dump_update (updFrontmatter
            (recToTaskData (parsedRecOf "my-task"
              [("title", "My Task"), ("status", "review"),
               ("created", "2026-01-02"), ("developer", "dev-alice"),
               ("started_at", "2026-01-02T03:04:05")]
              (assembleTaskFile
                [("title", "My Task"), ("status", "review"),
                 ("created", "2026-01-02"), ("developer", "dev-alice"),
                 ("started_at", "2026-01-02T03:04:05")] "Do the thing.")
              "Do the thing."))
            (newStatusOf (recToTaskData (parsedRecOf "my-task"
              [("title", "My Task"), ("status", "review"),
               ("created", "2026-01-02"), ("developer", "dev-alice"),
               ("started_at", "2026-01-02T03:04:05")]
              (assembleTaskFile
                [("title", "My Task"), ("status", "review"),
                 ("created", "2026-01-02"), ("developer", "dev-alice"),
                 ("started_at", "2026-01-02T03:04:05")] "Do the thing.")
              "Do the thing."))) "2026-03-04T05:06:07") ++
          "\n---\n\n".data ++ ("Do the thing." : String).data⟩ ∧
      ∀ kv ∈ ([("title", "My Task"), ("status", "review"),
          ("created", "2026-01-02"), ("developer", "dev-alice"),
          ("started_at", "2026-01-02T03:04:05")] : List (String × String)),
        kv.1 ≠ "blocked" →
        pyDictGetOpt (updWrittenKVs
          (recToTaskData (parsedRecOf "my-task"
            [("title", "My Task"), ("status", "review"),
             ("created", "2026-01-02"), ("developer", "dev-alice"),
             ("started_at", "2026-01-02T03:04:05")]
            (assembleTaskFile
              [("title", "My Task"), ("status", "review"),
               ("created", "2026-01-02"), ("developer", "dev-alice"),
               ("started_at", "2026-01-02T03:04:05")] "Do the thing.")
            "Do the thing."))
          (newStatusOf (recToTaskData (parsedRecOf "my-task"
            [("title", "My Task"), ("status", "review"),
             ("created", "2026-01-02"), ("developer", "dev-alice"),
             ("started_at", "2026-01-02T03:04:05")]
            (assembleTaskFile
              [("title", "My Task"), ("status", "review"),
               ("created", "2026-01-02"), ("developer", "dev-alice"),
               ("started_at", "2026-01-02T03:04:05")] "Do the thing.")
            "Do the thing."))) "2026-03-04T05:06:07") kv.1 = some kv.2) :=
  ⟨by decide, by decide, by decide, by decide,
   codec_roundtrip_amended
     [("title", "My Task"), ("status", "review"), ("created", "2026-01-02"),
      ("developer", "dev-alice"), ("started_at", "2026-01-02T03:04:05")]
     "Do the thing." "my-task" "2026-03-04T05:06:07"
     (by decide) (by decide) (by decide) (by decide)⟩

set_option maxRecDepth 4000 in
/-- C5 counterexample: the round trip materializes the defaults.  Parsing
`---\ntitle: A\n---\n\ntask body` and serializing the record back yields a
frontmatter containing `estimate: 0h` and `blocked: False` — keys absent from
the input with concrete non-None, non-empty values — so the frontmatter
key/value set is not preserved even modulo omission of None/empty values. -/
theorem roundtrip_materializes_defaults :
    pyDictGetOpt (task_file_meta "---\ntitle: A\n---\n\ntask body")
      "estimate" = none ∧
    ((parse_task_file "t1" (some "---\ntitle: A\n---\n\ntask body")).map
      (fun r => pyDictGetOpt
        (task_file_meta (serialize_task r "2026-02-02T10:00:00")) "estimate")) =
      some (some "0h") ∧
    ((parse_task_file "t1" (some "---\ntitle: A\n---\n\ntask body")).map
      (fun r => pyDictGetOpt
        (task_file_meta (serialize_task r "2026-02-02T10:00:00")) "blocked")) =
      some (some "False") := by
  refine ⟨by decide, by decide, by decide⟩
